import Mathlib

/-!
Search-space bookkeeping and path reconstruction (`search_space.cc`).

A shallow embedding of `SearchNode`, `SearchSpace::trace_path` and
`SearchSpace::trace_path_symmetry`.

Conventions of the embedding:

* `assert(c)` that fails and `exit(1)` are results of kind `Failure`; the loops
  `for (;;)` take a fuel argument and report `Failure.out_of_fuel` when it runs out.
* `ap_float` is an arbitrary linearly ordered type `F` with `0` and `+`; no law of
  arithmetic is assumed beyond that, except in the theorems on non-negative costs,
  which take `F` to be a linearly ordered additive monoid.
* `const GlobalOperator *` is `Option Op` where it may be null and `Op` where the code
  dereferences it.
* The state registry, the successor generator, the symmetry graph and the permutation
  class are collaborators whose code is elsewhere; they are fields of `Globals`.
  A `GlobalState` is a handle: its values are read through the registry.
* The calls to `g_plan_logger` only print and are left out.
-/

namespace SearchSpaceModel

/-! ## Data model -/

/-- Ways in which a call does not return normally. -/
inductive Failure where
  | assertion
  | exit
  | out_of_fuel
deriving DecidableEq, Repr

/-- Modelled from the spec: state identifiers with the sentinel "no state"
(the header `state_id.h` is missing); the sentinel is the value `-1`. -/
structure StateID where
  value : Int
deriving DecidableEq, Repr

/-- Sentinel `StateID::no_state`. -/
def StateID.no_state : StateID := ⟨-1⟩

/-- Handle of a registered state (`GlobalState`): the registry owns the values, the
handle carries the identifier returned by `get_id()`. -/
structure GlobalState where
  id : StateID
deriving DecidableEq, Repr

/-- Enumeration `SearchNodeInfo::NodeStatus`. -/
inductive NodeStatus where
  | NEW
  | OPEN
  | CLOSED
  | DEAD_END
deriving DecidableEq, Repr

/-- Modelled from the spec: the per-state record `SearchNodeInfo` (its declaration in
`search_node_info.h` is missing): status, g, real_g, parent link and creating operator. -/
structure SearchNodeInfo (Op F : Type) where
  status : NodeStatus
  g : F
  real_g : F
  parent_state_id : StateID
  creating_operator : Option Op

/-- Modelled from the spec: the record of a state that was never touched, "created
lazily in NEW status": no parent and null creating operator. The spec leaves the
`g` and `real_g` of such a record open; they are the parameters `g0` and `r0`. -/
def SearchNodeInfo.fresh {Op F : Type} (g0 r0 : F) : SearchNodeInfo Op F :=
  { status := NodeStatus.NEW, g := g0, real_g := r0,
    parent_state_id := StateID.no_state, creating_operator := none }

/-- Cost functions of operators used by the node operations: `op->get_cost()` and
`get_adjusted_action_cost(op, cost_type)` (both defined in other translation units). -/
structure OperatorCosts (Op C F : Type) where
  get_cost : Op → F
  get_adjusted_action_cost : Op → C → F

/-- View `SearchNode`: a state identifier, the record it refers to and the cost type.
The record is held by value; `SearchSpace.put` writes it back. -/
structure SearchNode (Op C F : Type) where
  state_id : StateID
  info : SearchNodeInfo Op F
  cost_type : C

/-- What a mutating member function leaves behind: whether it aborted, and the object
as it is at that point. -/
structure Outcome (σ : Type) where
  aborted : Option Failure
  after : σ

section NodeOperations

variable {Op C F : Type} [LinearOrder F] [Zero F] [Add F]

/-- Constructor `SearchNode::SearchNode`, with its assertion on the identifier. -/
def SearchNode.construct (state_id : StateID) (info : SearchNodeInfo Op F) (cost_type : C) :
    Except Failure (SearchNode Op C F) :=
  if state_id ≠ StateID.no_state then .ok ⟨state_id, info, cost_type⟩
  else .error Failure.assertion

/-- Accessor `SearchNode::get_state_id`. -/
def SearchNode.get_state_id (self : SearchNode Op C F) : StateID := self.state_id

/-- Predicate `SearchNode::is_open`. -/
def SearchNode.is_open (self : SearchNode Op C F) : Bool :=
  decide (self.info.status = NodeStatus.OPEN)

/-- Predicate `SearchNode::is_closed`. -/
def SearchNode.is_closed (self : SearchNode Op C F) : Bool :=
  decide (self.info.status = NodeStatus.CLOSED)

/-- Predicate `SearchNode::is_dead_end`. -/
def SearchNode.is_dead_end (self : SearchNode Op C F) : Bool :=
  decide (self.info.status = NodeStatus.DEAD_END)

/-- Predicate `SearchNode::is_new`. -/
def SearchNode.is_new (self : SearchNode Op C F) : Bool :=
  decide (self.info.status = NodeStatus.NEW)

/-- Accessor `SearchNode::get_g`, with its assertion `info.g >= 0`. -/
def SearchNode.get_g (self : SearchNode Op C F) : Except Failure F :=
  if 0 ≤ self.info.g then .ok self.info.g else .error Failure.assertion

/-- Accessor `SearchNode::get_real_g`. -/
def SearchNode.get_real_g (self : SearchNode Op C F) : F := self.info.real_g

/-- Member `SearchNode::open_initial`. -/
def SearchNode.open_initial (self : SearchNode Op C F) : Outcome (SearchNode Op C F) :=
  if self.info.status = NodeStatus.NEW then
    { aborted := none
      after := { self with info :=
        { status := NodeStatus.OPEN
          g := 0
          real_g := 0
          parent_state_id := StateID.no_state
          creating_operator := none } } }
  else { aborted := some Failure.assertion, after := self }

/-- Member `SearchNode::open`. -/
def SearchNode.open (oc : OperatorCosts Op C F) (self parent_node : SearchNode Op C F)
    (parent_op : Op) : Outcome (SearchNode Op C F) :=
  if self.info.status = NodeStatus.NEW then
    { aborted := none
      after := { self with info :=
        { status := NodeStatus.OPEN
          g := parent_node.info.g + oc.get_adjusted_action_cost parent_op self.cost_type
          real_g := parent_node.info.real_g + oc.get_cost parent_op
          parent_state_id := parent_node.get_state_id
          creating_operator := some parent_op } } }
  else { aborted := some Failure.assertion, after := self }

/-- Member `SearchNode::reopen`. -/
def SearchNode.reopen (oc : OperatorCosts Op C F) (self parent_node : SearchNode Op C F)
    (parent_op : Op) : Outcome (SearchNode Op C F) :=
  if self.info.status = NodeStatus.OPEN ∨ self.info.status = NodeStatus.CLOSED then
    { aborted := none
      after := { self with info :=
        { status := NodeStatus.OPEN
          g := parent_node.info.g + oc.get_adjusted_action_cost parent_op self.cost_type
          real_g := parent_node.info.real_g + oc.get_cost parent_op
          parent_state_id := parent_node.get_state_id
          creating_operator := some parent_op } } }
  else { aborted := some Failure.assertion, after := self }

/-- Member `SearchNode::update_parent`: like reopen, except that the status is not
written. -/
def SearchNode.update_parent (oc : OperatorCosts Op C F) (self parent_node : SearchNode Op C F)
    (parent_op : Op) : Outcome (SearchNode Op C F) :=
  if self.info.status = NodeStatus.OPEN ∨ self.info.status = NodeStatus.CLOSED then
    { aborted := none
      after := { self with info :=
        { self.info with
          g := parent_node.info.g + oc.get_adjusted_action_cost parent_op self.cost_type
          real_g := parent_node.info.real_g + oc.get_cost parent_op
          parent_state_id := parent_node.get_state_id
          creating_operator := some parent_op } } }
  else { aborted := some Failure.assertion, after := self }

/-- Member `SearchNode::close`. -/
def SearchNode.close (self : SearchNode Op C F) : Outcome (SearchNode Op C F) :=
  if self.info.status = NodeStatus.OPEN then
    { aborted := none
      after := { self with info := { self.info with status := NodeStatus.CLOSED } } }
  else { aborted := some Failure.assertion, after := self }

/-- Member `SearchNode::mark_as_dead_end`. -/
def SearchNode.mark_as_dead_end (self : SearchNode Op C F) : Outcome (SearchNode Op C F) :=
  { aborted := none
    after := { self with info := { self.info with status := NodeStatus.DEAD_END } } }

end NodeOperations


/-! ## The search space -/

/-- Class `SearchSpace`: the records, indexed by state identifier
(`PerStateInformation<SearchNodeInfo>`), and the cost type. -/
structure SearchSpace (Op C F : Type) where
  search_node_infos : StateID → SearchNodeInfo Op F
  cost_type : C

/-- A node operation together with the states it is invoked on:
`get_node(s).open_initial()`, `get_node(s).open(get_node(parent), op)`, and so on. -/
inductive NodeOp (Op : Type) where
  | open_initial (s : GlobalState)
  | «open» (s parent : GlobalState) (op : Op)
  | reopen (s parent : GlobalState) (op : Op)
  | update_parent (s parent : GlobalState) (op : Op)
  | close (s : GlobalState)
  | mark_as_dead_end (s : GlobalState)
deriving DecidableEq

section SearchSpaceOperations

variable {Op C F : Type} [LinearOrder F] [Zero F] [Add F]

/-- Modelled from the spec: the search space in which no state was referenced yet;
every record is the fresh one. -/
def SearchSpace.empty (cost_type : C) (g0 r0 : F) : SearchSpace Op C F :=
  { search_node_infos := fun _ => SearchNodeInfo.fresh g0 r0, cost_type := cost_type }

/-- Member `SearchSpace::get_node`. -/
def SearchSpace.get_node (sp : SearchSpace Op C F) (state : GlobalState) :
    Except Failure (SearchNode Op C F) :=
  SearchNode.construct state.id (sp.search_node_infos state.id) sp.cost_type

/-- The record of a view written back to the search space: a `SearchNode` holds a
reference to its record, so what a member function assigns lands here. -/
def SearchSpace.put (sp : SearchSpace Op C F) (node : SearchNode Op C F) : SearchSpace Op C F :=
  { sp with search_node_infos := Function.update sp.search_node_infos node.state_id node.info }

/-- Write-back of a member function's outcome; a call that aborted yields its failure. -/
def SearchSpace.commit (sp : SearchSpace Op C F) (r : Outcome (SearchNode Op C F)) :
    Except Failure (SearchSpace Op C F) :=
  match r.aborted with
  | none => .ok (sp.put r.after)
  | some e => .error e

/-- One node operation on the search space. -/
def SearchSpace.perform (oc : OperatorCosts Op C F) (sp : SearchSpace Op C F) :
    NodeOp Op → Except Failure (SearchSpace Op C F)
  | NodeOp.open_initial s => do
      let node ← sp.get_node s
      sp.commit node.open_initial
  | NodeOp.open s parent op => do
      let node ← sp.get_node s
      let parent_node ← sp.get_node parent
      sp.commit (SearchNode.open oc node parent_node op)
  | NodeOp.reopen s parent op => do
      let node ← sp.get_node s
      let parent_node ← sp.get_node parent
      sp.commit (SearchNode.reopen oc node parent_node op)
  | NodeOp.update_parent s parent op => do
      let node ← sp.get_node s
      let parent_node ← sp.get_node parent
      sp.commit (SearchNode.update_parent oc node parent_node op)
  | NodeOp.close s => do
      let node ← sp.get_node s
      sp.commit node.close
  | NodeOp.mark_as_dead_end s => do
      let node ← sp.get_node s
      sp.commit node.mark_as_dead_end

/-- A sequence of node operations, each applied to the result of the one before. -/
def SearchSpace.performs (oc : OperatorCosts Op C F) :
    SearchSpace Op C F → List (NodeOp Op) → Except Failure (SearchSpace Op C F)
  | sp, [] => .ok sp
  | sp, o :: rest =>
    match sp.perform oc o with
    | .ok sp1 => SearchSpace.performs oc sp1 rest
    | .error e => .error e

end SearchSpaceOperations


/-! ## Collaborators -/

/-- The symmetry graph, as far as path reconstruction uses it. -/
structure SymmetryGraph (Permutation : Type) where
  create_permutation_from_state_to_state : GlobalState → GlobalState → Permutation

/-- The globals that `trace_path` and `trace_path_symmetry` consult. Their code is in
other translation units, so they are parameters. Calls that intern a state
(`get_successor_state`, `register_state`) are functions: identifiers are stable once
given, so each call returns what it returns in the registry as it stands after the run.

* `state_values s` is the vector `state[j]`, `j < g_variable_domain.size()`;
* `Permutation_new` is the default-constructed `Permutation`;
* `Permutation_compose p q` is `Permutation(p, q)`;
* `permutation_on_state p values numeric_values` returns the two vectors as the member
  function leaves them;
* `max_cost` is `std::numeric_limits<ap_float>::max()`. -/
structure Globals (Op C F Permutation : Type) extends OperatorCosts Op C F where
  g_symmetry_graph : Option (SymmetryGraph Permutation)
  g_initial_state : GlobalState
  state_values : GlobalState → List Int
  get_numeric_vars : GlobalState → List F
  get_successor_state : GlobalState → Op → GlobalState
  register_state : List Int → List F → GlobalState
  generate_applicable_ops : GlobalState → List Op
  Permutation_new : Permutation
  Permutation_compose : Permutation → Permutation → Permutation
  permutation_on_state : Permutation → List Int → List F → List Int × List F
  max_cost : F

/-- Modelled from the spec: the registry's `lookup_state`, "lookup(identifier) → state"
(the registry's code is missing): the handle for an identifier. -/
def lookup_state (id : StateID) : GlobalState := ⟨id⟩

section Reconstruction

variable {Op C F Permutation : Type} [DecidableEq Op] [LinearOrder F] [Zero F] [Add F]

/-- Modelled from the spec: `GlobalState::same_values` (its code is missing), "two
states are equal iff all component values match, independent of identifier". -/
def same_values (w : Globals Op C F Permutation) (s t : GlobalState) : Bool :=
  decide (w.state_values s = w.state_values t ∧ w.get_numeric_vars s = w.get_numeric_vars t)

/-- The loop of `SearchSpace::trace_path`; `path` is the vector built by `push_back`. -/
def trace_path_loop (sp : SearchSpace Op C F) :
    Nat → GlobalState → List Op → Except Failure (List Op)
  | 0, _, _ => .error Failure.out_of_fuel
  | fuel + 1, current_state, path =>
    let info := sp.search_node_infos current_state.id
    match info.creating_operator with
    | none =>
      if info.parent_state_id = StateID.no_state then .ok path
      else .error Failure.assertion
    | some op =>
      trace_path_loop sp fuel (lookup_state info.parent_state_id) (path ++ [op])

/-- The permutation pushed for one state of the chain in `trace_path_symmetry`: the
default one unless `new_state` differs from `current_state` in identifier and values. -/
def step_permutation (w : Globals Op C F Permutation) (sg : SymmetryGraph Permutation)
    (current_state new_state : GlobalState) : Permutation :=
  if new_state.id ≠ current_state.id ∧ ¬ same_values w new_state current_state = true then
    sg.create_permutation_from_state_to_state current_state new_state
  else w.Permutation_new

/-- First loop of `trace_path_symmetry`: collects `perms` and `state_trace` from the
goal back to the record without creating operator. -/
def symmetry_walk (w : Globals Op C F Permutation) (sg : SymmetryGraph Permutation)
    (sp : SearchSpace Op C F) :
    Nat → GlobalState → List Permutation → List GlobalState →
      Except Failure (List Permutation × List GlobalState)
  | 0, _, _, _ => .error Failure.out_of_fuel
  | fuel + 1, current_state, perms, state_trace =>
    let info := sp.search_node_infos current_state.id
    let state_trace := state_trace ++ [current_state]
    match info.creating_operator with
    | none =>
      if info.parent_state_id = StateID.no_state then
        let new_state := w.g_initial_state
        let p := step_permutation w sg current_state new_state
        .ok (perms ++ [p], state_trace)
      else .error Failure.assertion
    | some op =>
      let parent_state := lookup_state info.parent_state_id
      let new_state := w.get_successor_state parent_state op
      let p := step_permutation w sg current_state new_state
      symmetry_walk w sg sp fuel parent_state (perms ++ [p]) state_trace

/-- Second loop of `trace_path_symmetry`, for `i = 1 ..`: `perms[i]` and
`state_trace[i]` are taken in lockstep (both vectors have the same length) and
`tmp_p` is carried along. Returns the true states pushed. -/
def true_states (w : Globals Op C F Permutation) :
    Permutation → List Permutation → List GlobalState → List GlobalState
  | tmp_p, p :: perms, state :: state_trace =>
    let tmp_p := w.Permutation_compose p tmp_p
    let r := w.permutation_on_state tmp_p (w.state_values state) (w.get_numeric_vars state)
    let true_state := w.register_state r.1 r.2
    true_state :: true_states w tmp_p perms state_trace
  | _, _, _ => []

/-- Body of the loop over `applicable_ops`: the new value of `min_op`. The variable
`min_cost` is never assigned in the loop, so it is an argument. -/
def select_step (w : Globals Op C F Permutation) (parent_state state : GlobalState)
    (min_cost : F) (min_op : Option Op) (op : Op) : Option Op :=
  let new_state := w.get_successor_state parent_state op
  if new_state.id = state.id ∨ same_values w new_state state = true then
    if min_op = none ∨ w.get_cost op < min_cost then some op else min_op
  else min_op

/-- The operator `min_op` found for one pair of true states. -/
def select_operator (w : Globals Op C F Permutation) (parent_state state : GlobalState) :
    Option Op :=
  (w.generate_applicable_ops parent_state).foldl
    (select_step w parent_state state w.max_cost) none

/-- Third loop of `trace_path_symmetry`, for `i = 1 ..`: one operator for each pair
`true_state_trace[i - 1]`, `true_state_trace[i]`, or `exit(1)`. -/
def extract_path (w : Globals Op C F Permutation) :
    List GlobalState → List Op → Except Failure (List Op)
  | parent_state :: state :: rest, path =>
    match select_operator w parent_state state with
    | none => .error Failure.exit
    | some min_op => extract_path w (state :: rest) (path ++ [min_op])
  | _, path => .ok path

/-- Member `SearchSpace::trace_path_symmetry`. -/
def trace_path_symmetry (w : Globals Op C F Permutation) (sg : SymmetryGraph Permutation)
    (sp : SearchSpace Op C F) (fuel : Nat) (goal_state : GlobalState) (path : List Op) :
    Except Failure (List Op) :=
  if path ≠ [] then .error Failure.assertion
  else
    match symmetry_walk w sg sp fuel goal_state [] [] with
    | .error e => .error e
    | .ok (perms, state_trace) =>
      let perms := perms.reverse
      let state_trace := state_trace.reverse
      match perms with
      | [] => .ok path
      | tmp_p :: perms_rest =>
        let true_state_trace :=
          [w.g_initial_state] ++ true_states w tmp_p perms_rest state_trace.tail
        extract_path w true_state_trace path

/-- Member `SearchSpace::trace_path`. -/
def trace_path (w : Globals Op C F Permutation) (sp : SearchSpace Op C F) (fuel : Nat)
    (goal_state : GlobalState) (path : List Op) : Except Failure (List Op) :=
  match w.g_symmetry_graph with
  | some sg => trace_path_symmetry w sg sp fuel goal_state path
  | none =>
    if path ≠ [] then .error Failure.assertion
    else
      match trace_path_loop sp fuel goal_state path with
      | .error e => .error e
      | .ok path => .ok path.reverse

/-! ## Notions used to state the properties -/

/-- The transition function of the task: the successor of `s` under `op`, defined when
the successor generator lists `op` for `s`. -/
def successor (w : Globals Op C F Permutation) (s : GlobalState) (op : Op) :
    Option GlobalState :=
  if op ∈ w.generate_applicable_ops s then some (w.get_successor_state s op) else none

/-- Executing a plan from `s`: `none` as soon as an operator is not applicable. -/
def apply_plan (w : Globals Op C F Permutation) : GlobalState → List Op → Option GlobalState
  | s, [] => some s
  | s, op :: rest =>
    match successor w s op with
    | none => none
    | some s1 => apply_plan w s1 rest

/-- The parent chain from `s` reaches, after exactly `n` links, a record without
creating operator and without parent (the initial state's record). -/
def reaches_initial (sp : SearchSpace Op C F) : Nat → GlobalState → Prop
  | 0, s =>
    (sp.search_node_infos s.id).creating_operator = none ∧
      (sp.search_node_infos s.id).parent_state_id = StateID.no_state
  | n + 1, s =>
    (sp.search_node_infos s.id).creating_operator ≠ none ∧
      reaches_initial sp n (lookup_state (sp.search_node_infos s.id).parent_state_id)

/-- The chain condition can be checked by following the links. -/
instance reaches_initial_decidable (sp : SearchSpace Op C F) :
    ∀ (n : Nat) (s : GlobalState), Decidable (reaches_initial sp n s)
  | 0, s => by
    unfold reaches_initial
    exact inferInstance
  | n + 1, s => by
    unfold reaches_initial
    exact @instDecidableAnd _ _ inferInstance (reaches_initial_decidable sp n _)

/-- The state `n` parent links above `s`. -/
def chain_root (sp : SearchSpace Op C F) : Nat → GlobalState → GlobalState
  | 0, s => s
  | n + 1, s => chain_root sp n (lookup_state (sp.search_node_infos s.id).parent_state_id)

/-- The states of the parent chain of length `n` from `s`, root first, `s` last. -/
def chain_states (sp : SearchSpace Op C F) : Nat → GlobalState → List GlobalState
  | 0, s => [s]
  | n + 1, s =>
    chain_states sp n (lookup_state (sp.search_node_infos s.id).parent_state_id) ++ [s]

/-- The permutation `tmp_p` after the second loop of `trace_path_symmetry` has gone
through `perms`, starting from `tmp_p`. -/
def accumulated_permutation (w : Globals Op C F Permutation) :
    Permutation → List Permutation → Permutation
  | tmp_p, [] => tmp_p
  | tmp_p, p :: perms => accumulated_permutation w (w.Permutation_compose p tmp_p) perms

/-- The creating operators along the parent chain of length `n` from `s`, the one
applied first (at the root) first. -/
def chain_operators (sp : SearchSpace Op C F) : Nat → GlobalState → List Op
  | 0, _ => []
  | n + 1, s =>
    chain_operators sp n (lookup_state (sp.search_node_infos s.id).parent_state_id) ++
      (match (sp.search_node_infos s.id).creating_operator with
        | some op => [op]
        | none => [])

/-- The permutations that the first loop of `trace_path_symmetry` collects along the
parent chain of length `n` from `s`, in the order after `reverse`: the one of the root
first, the one of `s` last. -/
def chain_permutations (w : Globals Op C F Permutation) (sg : SymmetryGraph Permutation)
    (sp : SearchSpace Op C F) : Nat → GlobalState → List Permutation
  | 0, s => [step_permutation w sg s w.g_initial_state]
  | n + 1, s =>
    chain_permutations w sg sp n (lookup_state (sp.search_node_infos s.id).parent_state_id) ++
      (match (sp.search_node_infos s.id).creating_operator with
        | some op =>
          [step_permutation w sg s
            (w.get_successor_state
              (lookup_state (sp.search_node_infos s.id).parent_state_id) op)]
        | none => [])

/-- The true-state trace that `trace_path_symmetry` builds for a goal whose parent chain
has length `n`: the literal initial state, then one registered state for each further
state of the chain. -/
def true_state_trace (w : Globals Op C F Permutation) (sg : SymmetryGraph Permutation)
    (sp : SearchSpace Op C F) (n : Nat) (goal_state : GlobalState) : List GlobalState :=
  match chain_permutations w sg sp n goal_state with
  | [] => []
  | tmp_p :: perms =>
    w.g_initial_state :: true_states w tmp_p perms (chain_states sp n goal_state).tail

/-- The state in which the reconstructed plan is meant to end: the literal initial state
when the goal is the initial record (`n = 0`), and otherwise the state registered for
the goal's values transformed by the permutation accumulated over the whole chain. -/
def true_goal (w : Globals Op C F Permutation) (sg : SymmetryGraph Permutation)
    (sp : SearchSpace Op C F) (n : Nat) (goal_state : GlobalState) : GlobalState :=
  match n, chain_permutations w sg sp n goal_state with
  | _ + 1, tmp_p :: perms =>
    let r := w.permutation_on_state (accumulated_permutation w tmp_p perms)
      (w.state_values goal_state) (w.get_numeric_vars goal_state)
    w.register_state r.1 r.2
  | _, _ => w.g_initial_state

/-- The successor generator and the registry's successor function depend on a state
through its values only. -/
def respects_values (w : Globals Op C F Permutation) : Prop :=
  ∀ s t : GlobalState, same_values w s t = true →
    w.generate_applicable_ops s = w.generate_applicable_ops t ∧
    ∀ op : Op, same_values w (w.get_successor_state s op) (w.get_successor_state t op) = true

end Reconstruction


/-! ## A small task with a symmetry

Two variables `a` and `b` over `{0, 1}`, both `0` initially; `set_a` and `set_a_dear`
set `a` to `1` when it is `0`, at costs `1` and `2`; `set_b` sets `b` to `1` when it is
`0`, at cost `1`. Exchanging the two variables is a symmetry, and `(0, 1)` is the
canonical representative of `(1, 0)`. -/

/-- Operators of the small task. -/
inductive DemoOp where
  | set_a
  | set_a_dear
  | set_b
deriving DecidableEq, Repr

/-- Effect of an operator on the values `[a, b]`. -/
def demo_effect : DemoOp → List Int → List Int
  | DemoOp.set_a, [_, b] => [1, b]
  | DemoOp.set_a_dear, [_, b] => [1, b]
  | DemoOp.set_b, [a, _] => [a, 1]
  | _, values => values

/-- Operators applicable for the values `[a, b]`, in the generator's order. -/
def demo_applicable : List Int → List DemoOp
  | [a, b] =>
    (if a = 0 then [DemoOp.set_a, DemoOp.set_a_dear] else []) ++
      (if b = 0 then [DemoOp.set_b] else [])
  | _ => []

/-- Identifier interned for a value vector: `(0,0)`, `(1,0)`, `(0,1)`, `(1,1)` are the
states `0` to `3`. -/
def demo_register (values : List Int) : GlobalState :=
  if values = [0, 0] then ⟨⟨0⟩⟩
  else if values = [1, 0] then ⟨⟨1⟩⟩
  else if values = [0, 1] then ⟨⟨2⟩⟩
  else if values = [1, 1] then ⟨⟨3⟩⟩
  else ⟨⟨4⟩⟩

/-- Values of the registered states. -/
def demo_values (s : GlobalState) : List Int :=
  if s.id.value = 0 then [0, 0]
  else if s.id.value = 1 then [1, 0]
  else if s.id.value = 2 then [0, 1]
  else if s.id.value = 3 then [1, 1]
  else []

/-- Cost of an operator of the small task. -/
def demo_cost : DemoOp → Int
  | DemoOp.set_a_dear => 2
  | _ => 1

/-- Globals of the small task; `symmetry` says whether a symmetry graph is configured.
Permutations are `false` (identity) and `true` (exchange of `a` and `b`). -/
def demo_globals (symmetry : Bool) : Globals DemoOp Unit Int Bool :=
  { get_cost := demo_cost
    get_adjusted_action_cost := fun op _ => demo_cost op
    g_symmetry_graph :=
      if symmetry then some { create_permutation_from_state_to_state := fun _ _ => true }
      else none
    g_initial_state := ⟨⟨0⟩⟩
    state_values := demo_values
    get_numeric_vars := fun _ => []
    get_successor_state := fun s op => demo_register (demo_effect op (demo_values s))
    register_state := fun values _ => demo_register values
    generate_applicable_ops := fun s => demo_applicable (demo_values s)
    Permutation_new := false
    Permutation_compose := fun p q => xor p q
    permutation_on_state := fun p values numeric_values =>
      (if p then values.reverse else values, numeric_values)
    max_cost := 179769313486231570814527423731704356798070567525844996598917476803157260780028538760589558632766878171540458953514382464234321326889464182768467546703537516986049910576551282076245490090389328944075868508455133942304583236903222948165808559332123348274797826204144723168738177180919299881250404026184124858368 }

/-- Node operations of a search without symmetry: the initial state is opened and
closed, its successor `(1, 0)` under `set_a` is opened. -/
def demo_ops_plain : List (NodeOp DemoOp) :=
  [NodeOp.open_initial ⟨⟨0⟩⟩, NodeOp.close ⟨⟨0⟩⟩, NodeOp.open ⟨⟨1⟩⟩ ⟨⟨0⟩⟩ DemoOp.set_a]

/-- The search space after a list of node operations on the empty one (the empty one
again if one of them aborts); a fresh record has `g = real_g = -1`. -/
def demo_space (ops : List (NodeOp DemoOp)) : SearchSpace DemoOp Unit Int :=
  match SearchSpace.performs (demo_globals false).toOperatorCosts
      (SearchSpace.empty () (-1) (-1)) ops with
  | .ok sp => sp
  | .error _ => SearchSpace.empty () (-1) (-1)

/-- Node operations of a search on canonical states: the successor `(1, 0)` of the
initial state under `set_a` is recorded as its representative `(0, 1)`, state `2`. -/
def demo_ops_symmetry : List (NodeOp DemoOp) :=
  [NodeOp.open_initial ⟨⟨0⟩⟩, NodeOp.close ⟨⟨0⟩⟩, NodeOp.open ⟨⟨2⟩⟩ ⟨⟨0⟩⟩ DemoOp.set_a]

/-- Node operations that give the initial state's record a parent: state `1` is opened
from state `0`, then state `0` is reopened from state `1`. -/
def demo_ops_reparent : List (NodeOp DemoOp) :=
  [NodeOp.open_initial ⟨⟨0⟩⟩, NodeOp.open ⟨⟨1⟩⟩ ⟨⟨0⟩⟩ DemoOp.set_a,
    NodeOp.reopen ⟨⟨0⟩⟩ ⟨⟨1⟩⟩ DemoOp.set_b]
/-- A view of state `3`, that is `(1, 1)`, never referenced before. -/
def demo_node_new : SearchNode DemoOp Unit Int :=
  { state_id := ⟨3⟩, info := SearchNodeInfo.fresh (-1) (-1), cost_type := () }

/-- A view of state `3`, that is `(1, 1)`, reached before from state `2` by `set_a`. -/
def demo_node (status : NodeStatus) : SearchNode DemoOp Unit Int :=
  { state_id := ⟨3⟩
    info := { status := status, g := 2, real_g := 2, parent_state_id := ⟨2⟩,
              creating_operator := some DemoOp.set_a }
    cost_type := () }

/-- A view of state `1`, that is `(1, 0)`, reached from the initial state by `set_a`. -/
def demo_parent_node : SearchNode DemoOp Unit Int :=
  { state_id := ⟨1⟩
    info := { status := NodeStatus.CLOSED, g := 1, real_g := 1, parent_state_id := ⟨0⟩,
              creating_operator := some DemoOp.set_a }
    cost_type := () }

/-- The state on whose record a node operation is invoked. -/
def NodeOp.target {Op : Type} : NodeOp Op → GlobalState
  | NodeOp.open_initial s => s
  | NodeOp.open s _ _ => s
  | NodeOp.reopen s _ _ => s
  | NodeOp.update_parent s _ _ => s
  | NodeOp.close s => s
  | NodeOp.mark_as_dead_end s => s

/-- The invariant carried along a sequence of node operations: a record has no creating
operator exactly when it has no parent, and an OPEN or CLOSED record without creating
operator belongs to a state on which `open_initial` was invoked. -/
def provenance_invariant {Op C F : Type} (sp : SearchSpace Op C F) (called : List (NodeOp Op)) : Prop :=
  ∀ id : StateID,
    ((sp.search_node_infos id).creating_operator = none ↔
      (sp.search_node_infos id).parent_state_id = StateID.no_state) ∧
    (((sp.search_node_infos id).status = NodeStatus.OPEN ∨
        (sp.search_node_infos id).status = NodeStatus.CLOSED) →
      (sp.search_node_infos id).creating_operator = none →
      NodeOp.open_initial ⟨id⟩ ∈ called)

/-- The pairs `true_state_trace[i - 1]`, `true_state_trace[i]` that the third loop of
`trace_path_symmetry` goes through, in order. -/
def consecutive_pairs (trace : List GlobalState) : List (GlobalState × GlobalState) :=
  List.zip trace trace.tail

/-- The test of the third loop of `trace_path_symmetry` on one applicable operator: its
successor from `parent_state` has the identifier or the values of `state`. -/
def reproduces {Op C F Permutation : Type} [LinearOrder F] (w : Globals Op C F Permutation)
    (parent_state state : GlobalState) (op : Op) : Prop :=
  (w.get_successor_state parent_state op).id = state.id ∨
    same_values w (w.get_successor_state parent_state op) state = true

/-- The states visited when a plan is executed from `s`, `s` included; `none` as soon as
an operator is not applicable. -/
def run_plan {Op C F Permutation : Type} [DecidableEq Op] (w : Globals Op C F Permutation) :
    GlobalState → List Op → Option (List GlobalState)
  | s, [] => some [s]
  | s, op :: rest =>
    match successor w s op with
    | none => none
    | some s1 =>
      match run_plan w s1 rest with
      | none => none
      | some visited => some (s :: visited)

/-- Exactly one of the four status predicates is true of a node, and it is the one that
names the value of the status field. -/
def one_status_predicate {Op C F : Type} (n : SearchNode Op C F) : Prop :=
  (n.is_new = true ↔ n.info.status = NodeStatus.NEW) ∧
  (n.is_open = true ↔ n.info.status = NodeStatus.OPEN) ∧
  (n.is_closed = true ↔ n.info.status = NodeStatus.CLOSED) ∧
  (n.is_dead_end = true ↔ n.info.status = NodeStatus.DEAD_END) ∧
  [n.is_new, n.is_open, n.is_closed, n.is_dead_end].count true = 1

/-- The accumulated permutation in the words of the description: `q_0 = p_0` and
`q_i = compose(p_i, q_(i-1))`, for the permutations `p_0, p_1, ...` in `perms`. -/
def accumulated_upto {Op C F Permutation : Type} (w : Globals Op C F Permutation)
    (perms : List Permutation) : Nat → Permutation
  | 0 => perms.getD 0 w.Permutation_new
  | i + 1 =>
    w.Permutation_compose (perms.getD (i + 1) w.Permutation_new) (accumulated_upto w perms i)

/-- The state registered for the values of `state` transformed by the permutation `p`,
as the second loop of `trace_path_symmetry` computes it. -/
def permuted_state {Op C F Permutation : Type} (w : Globals Op C F Permutation)
    (p : Permutation) (state : GlobalState) : GlobalState :=
  w.register_state
    (w.permutation_on_state p (w.state_values state) (w.get_numeric_vars state)).1
    (w.permutation_on_state p (w.state_values state) (w.get_numeric_vars state)).2

/-- The engine's rule for parents: the node passed as parent to `open`, `reopen` or
`update_parent` is OPEN or CLOSED in the search space at hand. -/
def parent_expanded {Op C F : Type} (sp : SearchSpace Op C F) : NodeOp Op → Bool
  | NodeOp.open _ parent _ =>
    decide ((sp.search_node_infos parent.id).status = NodeStatus.OPEN ∨
      (sp.search_node_infos parent.id).status = NodeStatus.CLOSED)
  | NodeOp.reopen _ parent _ =>
    decide ((sp.search_node_infos parent.id).status = NodeStatus.OPEN ∨
      (sp.search_node_infos parent.id).status = NodeStatus.CLOSED)
  | NodeOp.update_parent _ parent _ =>
    decide ((sp.search_node_infos parent.id).status = NodeStatus.OPEN ∨
      (sp.search_node_infos parent.id).status = NodeStatus.CLOSED)
  | _ => true

/-- The engine's "strictly cheaper" rule: `reopen` and `update_parent` are invoked only
when the parent's g plus the adjusted cost of the operator is below the stored g. -/
def strictly_cheaper {Op C F : Type} [LinearOrder F] [Add F] (oc : OperatorCosts Op C F)
    (sp : SearchSpace Op C F) : NodeOp Op → Bool
  | NodeOp.reopen s parent op =>
    decide ((sp.search_node_infos parent.id).g + oc.get_adjusted_action_cost op sp.cost_type <
      (sp.search_node_infos s.id).g)
  | NodeOp.update_parent s parent op =>
    decide ((sp.search_node_infos parent.id).g + oc.get_adjusted_action_cost op sp.cost_type <
      (sp.search_node_infos s.id).g)
  | _ => true

/-- Both rules of the engine together. -/
def engine_rules {Op C F : Type} [LinearOrder F] [Add F] (oc : OperatorCosts Op C F)
    (sp : SearchSpace Op C F) (o : NodeOp Op) : Bool :=
  parent_expanded sp o && strictly_cheaper oc sp o

/-- A sequence of node operations each of which obeys `rule` in the search space it is
applied to and returns; `none` if one of them breaks the rule or aborts. -/
def SearchSpace.performs_under {Op C F : Type} [Zero F] [Add F] (oc : OperatorCosts Op C F)
    (rule : SearchSpace Op C F → NodeOp Op → Bool) :
    SearchSpace Op C F → List (NodeOp Op) → Option (SearchSpace Op C F)
  | sp, [] => some sp
  | sp, o :: rest =>
    if rule sp o = true then
      match sp.perform oc o with
      | .ok sp1 => SearchSpace.performs_under oc rule sp1 rest
      | .error _ => none
    else none

/-- Costs under which every operator of the small task is free. -/
def demo_free_costs : OperatorCosts DemoOp Unit Int :=
  { get_cost := fun _ => 0, get_adjusted_action_cost := fun _ _ => 0 }

/-- Node operations in which a cheaper way to state `1` is found after its successor,
state `3`, was opened: `1` is opened by `set_a_dear`, `3` is opened from `1` by `set_b`,
then `1` is reopened by `set_a`. -/
def demo_ops_cheaper : List (NodeOp DemoOp) :=
  [NodeOp.open_initial ⟨⟨0⟩⟩, NodeOp.open ⟨⟨1⟩⟩ ⟨⟨0⟩⟩ DemoOp.set_a_dear,
    NodeOp.close ⟨⟨0⟩⟩, NodeOp.open ⟨⟨3⟩⟩ ⟨⟨1⟩⟩ DemoOp.set_b,
    NodeOp.reopen ⟨⟨1⟩⟩ ⟨⟨0⟩⟩ DemoOp.set_a]

/-- Node operations in which a state is opened from a parent that was never opened. -/
def demo_ops_new_parent : List (NodeOp DemoOp) :=
  [NodeOp.open ⟨⟨1⟩⟩ ⟨⟨0⟩⟩ DemoOp.set_a]

/-- What the engine's rules maintain: the stored g of a record with a creating operator
is at least its parent's g plus the adjusted cost of that operator; no record has a NEW
parent; and the parent chain of every record ends, after finitely many links, in a
record without creating operator. -/
def engine_invariant {Op C F : Type} [LinearOrder F] [Add F] (oc : OperatorCosts Op C F)
    (sp : SearchSpace Op C F) : Prop :=
  (∀ (id : StateID) (op : Op), (sp.search_node_infos id).creating_operator = some op →
    (sp.search_node_infos (sp.search_node_infos id).parent_state_id).g +
      oc.get_adjusted_action_cost op sp.cost_type ≤ (sp.search_node_infos id).g) ∧
  (∀ (id : StateID) (op : Op), (sp.search_node_infos id).creating_operator = some op →
    (sp.search_node_infos (sp.search_node_infos id).parent_state_id).status ≠
      NodeStatus.NEW) ∧
  (∀ id : StateID, ∃ n : Nat, reaches_initial sp n ⟨id⟩)

/-- No step of the parent chain of length `n` from `s` needs a permutation: the record
at its end has no creating operator and no parent and `g_initial_state()` has its
identifier or its values, and every other state on the chain has the identifier or the
values of the successor of its parent under its creating operator. -/
def no_permutation_needed {Op C F Permutation : Type} [DecidableEq Op] [LinearOrder F]
    (w : Globals Op C F Permutation) (sp : SearchSpace Op C F) : Nat → GlobalState → Prop
  | 0, s =>
    (sp.search_node_infos s.id).creating_operator = none ∧
      (sp.search_node_infos s.id).parent_state_id = StateID.no_state ∧
      (w.g_initial_state.id = s.id ∨ same_values w w.g_initial_state s = true)
  | n + 1, s =>
    (∃ (op : Op) (s1 : GlobalState),
      (sp.search_node_infos s.id).creating_operator = some op ∧
      successor w (lookup_state (sp.search_node_infos s.id).parent_state_id) op = some s1 ∧
      (s1.id = s.id ∨ same_values w s1 s = true)) ∧
      no_permutation_needed w sp n (lookup_state (sp.search_node_infos s.id).parent_state_id)

/-- The default-constructed permutation is the identity: composed with itself it gives
itself, and applied to a state's vectors it leaves them as they are. -/
def default_permutation_is_identity {Op C F Permutation : Type}
    (w : Globals Op C F Permutation) : Prop :=
  w.Permutation_compose w.Permutation_new w.Permutation_new = w.Permutation_new ∧
  ∀ (values : List Int) (numeric_values : List F),
    w.permutation_on_state w.Permutation_new values numeric_values = (values, numeric_values)

/-- Registering the values of a state gives a state with these values. -/
def register_keeps_values {Op C F Permutation : Type} [LinearOrder F]
    (w : Globals Op C F Permutation) : Prop :=
  ∀ s : GlobalState,
    same_values w (w.register_state (w.state_values s) (w.get_numeric_vars s)) s = true

/-- Node operations that record state `3`, that is `(1, 1)`, as reached from the initial
state by `set_a`, which no operator applicable in `(0, 0)` does. -/
def demo_ops_inconsistent : List (NodeOp DemoOp) :=
  [NodeOp.open_initial ⟨⟨0⟩⟩, NodeOp.close ⟨⟨0⟩⟩, NodeOp.open ⟨⟨3⟩⟩ ⟨⟨0⟩⟩ DemoOp.set_a]

/-- The rule of a search that never links a record twice: `reopen` and `update_parent`
are not used, and the parent passed to `open` is OPEN or CLOSED. -/
def links_once {Op C F : Type} (sp : SearchSpace Op C F) : NodeOp Op → Bool
  | NodeOp.reopen _ _ _ => false
  | NodeOp.update_parent _ _ _ => false
  | o => parent_expanded sp o

/-- What holds of the ends of parent chains when parents are OPEN or CLOSED at the time
they are passed: no record has a NEW parent, and a record without creating operator that
is OPEN or CLOSED, or that is the parent of some record, has g = 0 and real_g = 0. -/
def roots_invariant {Op C F : Type} [Zero F] (sp : SearchSpace Op C F) : Prop :=
  (∀ (id : StateID) (op : Op), (sp.search_node_infos id).creating_operator = some op →
    (sp.search_node_infos (sp.search_node_infos id).parent_state_id).status ≠
      NodeStatus.NEW) ∧
  (∀ id : StateID,
    ((sp.search_node_infos id).status = NodeStatus.OPEN ∨
      (sp.search_node_infos id).status = NodeStatus.CLOSED) →
    (sp.search_node_infos id).creating_operator = none →
    (sp.search_node_infos id).g = 0 ∧ (sp.search_node_infos id).real_g = 0) ∧
  (∀ (id : StateID) (op : Op), (sp.search_node_infos id).creating_operator = some op →
    (sp.search_node_infos (sp.search_node_infos id).parent_state_id).creating_operator =
      none →
    (sp.search_node_infos (sp.search_node_infos id).parent_state_id).g = 0 ∧
      (sp.search_node_infos (sp.search_node_infos id).parent_state_id).real_g = 0)

/-- What holds as long as no record is linked twice: every record with a creating
operator has the g and real_g of its parent plus the operator's adjusted cost and cost,
and every parent chain is finite. -/
def once_invariant {Op C F : Type} [Add F] (oc : OperatorCosts Op C F)
    (sp : SearchSpace Op C F) : Prop :=
  (∀ (id : StateID) (op : Op), (sp.search_node_infos id).creating_operator = some op →
    (sp.search_node_infos id).g =
      (sp.search_node_infos (sp.search_node_infos id).parent_state_id).g +
        oc.get_adjusted_action_cost op sp.cost_type ∧
    (sp.search_node_infos id).real_g =
      (sp.search_node_infos (sp.search_node_infos id).parent_state_id).real_g +
        oc.get_cost op) ∧
  (∀ id : StateID, ∃ n : Nat, reaches_initial sp n ⟨id⟩)

/-! ## Node operations: costs, preconditions, frame -/

section NodeTheorems

variable {Op C F : Type}

/-- C4: from NEW, `open(parent, op)` returns and leaves g = parent.g + adjusted cost of
op, real_g = parent.real_g + cost of op, the parent link at parent's state id and the
creating operator at op; from OPEN or CLOSED, `reopen(parent, op)` does the same. The
values written do not depend on the g and real_g held before, and reopening again from
the same parent with the same operator changes nothing. -/
theorem open_reopen_set_costs [Add F] (oc : OperatorCosts Op C F) (node parent : SearchNode Op C F)
    (op : Op) :
    (node.info.status = NodeStatus.NEW →
      (SearchNode.open oc node parent op).aborted = none ∧
      (SearchNode.open oc node parent op).after.info.g =
        parent.info.g + oc.get_adjusted_action_cost op node.cost_type ∧
      (SearchNode.open oc node parent op).after.info.real_g =
        parent.info.real_g + oc.get_cost op ∧
      (SearchNode.open oc node parent op).after.info.parent_state_id = parent.state_id ∧
      (SearchNode.open oc node parent op).after.info.creating_operator = some op) ∧
    (node.info.status = NodeStatus.OPEN ∨ node.info.status = NodeStatus.CLOSED →
      (SearchNode.reopen oc node parent op).aborted = none ∧
      (SearchNode.reopen oc node parent op).after.info.g =
        parent.info.g + oc.get_adjusted_action_cost op node.cost_type ∧
      (SearchNode.reopen oc node parent op).after.info.real_g =
        parent.info.real_g + oc.get_cost op ∧
      (SearchNode.reopen oc node parent op).after.info.parent_state_id = parent.state_id ∧
      (SearchNode.reopen oc node parent op).after.info.creating_operator = some op ∧
      (∀ g1 r1 : F,
        (SearchNode.reopen oc
            { node with info := { node.info with g := g1, real_g := r1 } } parent op).after =
          (SearchNode.reopen oc node parent op).after) ∧
      SearchNode.reopen oc (SearchNode.reopen oc node parent op).after parent op =
        SearchNode.reopen oc node parent op) := by
  refine ⟨fun h => ?_, fun h => ?_⟩
  · simp [SearchNode.open, h, SearchNode.get_state_id]
  · simp [SearchNode.reopen, h, SearchNode.get_state_id]

/-- C6: `reopen` returns exactly from OPEN or CLOSED, so it aborts on a NEW and on a
DEAD_END record; `open` and `open_initial` return exactly from NEW; a call that aborts
leaves the node as it was. -/
theorem status_preconditions [Zero F] [Add F] (oc : OperatorCosts Op C F) (node parent : SearchNode Op C F)
    (op : Op) :
    ((SearchNode.reopen oc node parent op).aborted = none ↔
      (node.info.status = NodeStatus.OPEN ∨ node.info.status = NodeStatus.CLOSED)) ∧
    (node.info.status = NodeStatus.NEW →
      (SearchNode.reopen oc node parent op).aborted = some Failure.assertion) ∧
    (node.info.status = NodeStatus.DEAD_END →
      (SearchNode.reopen oc node parent op).aborted = some Failure.assertion) ∧
    ((SearchNode.reopen oc node parent op).aborted ≠ none →
      (SearchNode.reopen oc node parent op).after = node) ∧
    ((SearchNode.open oc node parent op).aborted = none ↔
      node.info.status = NodeStatus.NEW) ∧
    ((SearchNode.open oc node parent op).aborted ≠ none →
      (SearchNode.open oc node parent op).after = node) ∧
    ((SearchNode.open_initial node).aborted = none ↔ node.info.status = NodeStatus.NEW) ∧
    ((SearchNode.open_initial node).aborted ≠ none →
      (SearchNode.open_initial node).after = node) := by
  refine ⟨?_, ?_, ?_, ?_, ?_, ?_, ?_, ?_⟩
  · unfold SearchNode.reopen; split_ifs with h <;> simp [h]
  · intro h; simp [SearchNode.reopen, h]
  · intro h; simp [SearchNode.reopen, h]
  · unfold SearchNode.reopen; split_ifs with h <;> simp
  · unfold SearchNode.open; split_ifs with h <;> simp [h]
  · unfold SearchNode.open; split_ifs with h <;> simp
  · unfold SearchNode.open_initial; split_ifs with h <;> simp [h]
  · unfold SearchNode.open_initial; split_ifs with h <;> simp

/-- C9: from OPEN or CLOSED, `update_parent(parent, op)` returns, keeps the status and
writes the g, real_g, parent link and creating operator that `reopen(parent, op)`
writes: its result is the result of `reopen` with the old status put back, and the
two calls coincide on an OPEN node. -/
theorem update_parent_is_reopen_without_status [Add F] (oc : OperatorCosts Op C F)
    (node parent : SearchNode Op C F) (op : Op)
    (h : node.info.status = NodeStatus.OPEN ∨ node.info.status = NodeStatus.CLOSED) :
    (SearchNode.update_parent oc node parent op).aborted = none ∧
    (SearchNode.update_parent oc node parent op).after.info.status = node.info.status ∧
    (SearchNode.update_parent oc node parent op).after.info.g =
      (SearchNode.reopen oc node parent op).after.info.g ∧
    (SearchNode.update_parent oc node parent op).after.info.real_g =
      (SearchNode.reopen oc node parent op).after.info.real_g ∧
    (SearchNode.update_parent oc node parent op).after.info.parent_state_id =
      (SearchNode.reopen oc node parent op).after.info.parent_state_id ∧
    (SearchNode.update_parent oc node parent op).after.info.creating_operator =
      (SearchNode.reopen oc node parent op).after.info.creating_operator ∧
    (SearchNode.update_parent oc node parent op).after =
      { (SearchNode.reopen oc node parent op).after with
        info := { (SearchNode.reopen oc node parent op).after.info with
                  status := node.info.status } } ∧
    (node.info.status = NodeStatus.OPEN →
      SearchNode.update_parent oc node parent op = SearchNode.reopen oc node parent op) := by
  refine ⟨?_, ?_, ?_, ?_, ?_, ?_, ?_, ?_⟩ <;>
    simp [SearchNode.update_parent, SearchNode.reopen, h]

end NodeTheorems

/-! ## Node operations on the search space -/

section SpaceTheorems

variable {Op C F : Type}

theorem get_node_ok {sp : SearchSpace Op C F} {s : GlobalState}
    {n : SearchNode Op C F} (h : sp.get_node s = .ok n) :
    s.id ≠ StateID.no_state ∧ n = ⟨s.id, sp.search_node_infos s.id, sp.cost_type⟩ := by
  unfold SearchSpace.get_node SearchNode.construct at h
  split_ifs at h with hs
  · injection h with h
    exact ⟨hs, h.symm⟩

theorem commit_ok {sp sp1 : SearchSpace Op C F}
    {r : Outcome (SearchNode Op C F)} (h : sp.commit r = .ok sp1) :
    r.aborted = none ∧ sp1 = sp.put r.after := by
  unfold SearchSpace.commit at h
  split at h
  · injection h with h
    exact ⟨by assumption, h.symm⟩
  · cases h

/-- What a node operation that returned has done: it was invoked on a state with a
proper identifier, it wrote no other record, and it changed that record as listed. -/
theorem perform_record [Zero F] [Add F] {oc : OperatorCosts Op C F}
    {sp sp1 : SearchSpace Op C F} {o : NodeOp Op} (h : sp.perform oc o = .ok sp1) :
    o.target.id ≠ StateID.no_state ∧
    (∀ id : StateID, id ≠ o.target.id → sp1.search_node_infos id = sp.search_node_infos id) ∧
    match o with
    | NodeOp.open_initial s =>
      (sp.search_node_infos s.id).status = NodeStatus.NEW ∧
      sp1.search_node_infos s.id =
        { status := NodeStatus.OPEN, g := 0, real_g := 0,
          parent_state_id := StateID.no_state, creating_operator := none }
    | NodeOp.open s parent op =>
      (sp.search_node_infos s.id).status = NodeStatus.NEW ∧ parent.id ≠ StateID.no_state ∧
      sp1.search_node_infos s.id =
        { status := NodeStatus.OPEN
          g := (sp.search_node_infos parent.id).g + oc.get_adjusted_action_cost op sp.cost_type
          real_g := (sp.search_node_infos parent.id).real_g + oc.get_cost op
          parent_state_id := parent.id, creating_operator := some op }
    | NodeOp.reopen s parent op =>
      ((sp.search_node_infos s.id).status = NodeStatus.OPEN ∨
        (sp.search_node_infos s.id).status = NodeStatus.CLOSED) ∧
      parent.id ≠ StateID.no_state ∧
      sp1.search_node_infos s.id =
        { status := NodeStatus.OPEN
          g := (sp.search_node_infos parent.id).g + oc.get_adjusted_action_cost op sp.cost_type
          real_g := (sp.search_node_infos parent.id).real_g + oc.get_cost op
          parent_state_id := parent.id, creating_operator := some op }
    | NodeOp.update_parent s parent op =>
      ((sp.search_node_infos s.id).status = NodeStatus.OPEN ∨
        (sp.search_node_infos s.id).status = NodeStatus.CLOSED) ∧
      parent.id ≠ StateID.no_state ∧
      sp1.search_node_infos s.id =
        { status := (sp.search_node_infos s.id).status
          g := (sp.search_node_infos parent.id).g + oc.get_adjusted_action_cost op sp.cost_type
          real_g := (sp.search_node_infos parent.id).real_g + oc.get_cost op
          parent_state_id := parent.id, creating_operator := some op }
    | NodeOp.close s =>
      (sp.search_node_infos s.id).status = NodeStatus.OPEN ∧
      sp1.search_node_infos s.id =
        { sp.search_node_infos s.id with status := NodeStatus.CLOSED }
    | NodeOp.mark_as_dead_end s =>
      sp1.search_node_infos s.id =
        { sp.search_node_infos s.id with status := NodeStatus.DEAD_END } := by
  cases o with
  | open_initial s =>
    simp only [SearchSpace.perform, bind, Except.bind] at h
    split at h
    · cases h
    · rename_i n hn
      obtain ⟨hs, rfl⟩ := get_node_ok hn
      obtain ⟨ha, rfl⟩ := commit_ok h
      unfold SearchNode.open_initial at ha ⊢
      split_ifs at ha ⊢ with hst
      · exact ⟨hs, fun id hid => by simp [SearchSpace.put, Function.update_noteq (show id ≠ s.id from hid)],
          by simpa using hst, by simp [SearchSpace.put]⟩
  | «open» s parent op =>
    simp only [SearchSpace.perform, bind, Except.bind] at h
    split at h
    · cases h
    · rename_i n hn
      obtain ⟨hs, rfl⟩ := get_node_ok hn
      split at h
      · cases h
      · rename_i pn hpn
        obtain ⟨hp, rfl⟩ := get_node_ok hpn
        obtain ⟨ha, rfl⟩ := commit_ok h
        unfold SearchNode.open at ha ⊢
        split_ifs at ha ⊢ with hst
        · exact ⟨hs, fun id hid => by simp [SearchSpace.put, Function.update_noteq (show id ≠ s.id from hid)],
            by simpa using hst, hp, by simp [SearchSpace.put, SearchNode.get_state_id]⟩
  | reopen s parent op =>
    simp only [SearchSpace.perform, bind, Except.bind] at h
    split at h
    · cases h
    · rename_i n hn
      obtain ⟨hs, rfl⟩ := get_node_ok hn
      split at h
      · cases h
      · rename_i pn hpn
        obtain ⟨hp, rfl⟩ := get_node_ok hpn
        obtain ⟨ha, rfl⟩ := commit_ok h
        unfold SearchNode.reopen at ha ⊢
        split_ifs at ha ⊢ with hst
        · exact ⟨hs, fun id hid => by simp [SearchSpace.put, Function.update_noteq (show id ≠ s.id from hid)],
            by simpa using hst, hp, by simp [SearchSpace.put, SearchNode.get_state_id]⟩
  | update_parent s parent op =>
    simp only [SearchSpace.perform, bind, Except.bind] at h
    split at h
    · cases h
    · rename_i n hn
      obtain ⟨hs, rfl⟩ := get_node_ok hn
      split at h
      · cases h
      · rename_i pn hpn
        obtain ⟨hp, rfl⟩ := get_node_ok hpn
        obtain ⟨ha, rfl⟩ := commit_ok h
        unfold SearchNode.update_parent at ha ⊢
        split_ifs at ha ⊢ with hst
        · exact ⟨hs, fun id hid => by simp [SearchSpace.put, Function.update_noteq (show id ≠ s.id from hid)],
            by simpa using hst, hp, by simp [SearchSpace.put, SearchNode.get_state_id]⟩
  | close s =>
    simp only [SearchSpace.perform, bind, Except.bind] at h
    split at h
    · cases h
    · rename_i n hn
      obtain ⟨hs, rfl⟩ := get_node_ok hn
      obtain ⟨ha, rfl⟩ := commit_ok h
      unfold SearchNode.close at ha ⊢
      split_ifs at ha ⊢ with hst
      · exact ⟨hs, fun id hid => by simp [SearchSpace.put, Function.update_noteq (show id ≠ s.id from hid)],
          by simpa using hst, by simp [SearchSpace.put]⟩
  | mark_as_dead_end s =>
    simp only [SearchSpace.perform, bind, Except.bind] at h
    split at h
    · cases h
    · rename_i n hn
      obtain ⟨hs, rfl⟩ := get_node_ok hn
      obtain ⟨ha, rfl⟩ := commit_ok h
      exact ⟨hs,
        fun id hid => by
          simp [SearchSpace.put, SearchNode.mark_as_dead_end, Function.update_noteq (show id ≠ s.id from hid)],
        by simp [SearchSpace.put, SearchNode.mark_as_dead_end]⟩

end SpaceTheorems

section LifecycleTheorems

variable {Op C F : Type}

theorem provenance_invariant_perform [Zero F] [Add F] {oc : OperatorCosts Op C F}
    {sp sp1 : SearchSpace Op C F} {o : NodeOp Op} {called : List (NodeOp Op)}
    (hinv : provenance_invariant sp called) (h : sp.perform oc o = .ok sp1) :
    provenance_invariant sp1 (called ++ [o]) := by
  intro id
  obtain ⟨_, hframe, hrec⟩ := perform_record h
  by_cases hid : id = o.target.id
  · subst hid
    cases o with
    | open_initial s =>
      obtain ⟨_, hr⟩ := hrec
      simp only [NodeOp.target] at *
      rw [hr]
      simp
    | «open» s parent op =>
      obtain ⟨_, hp, hr⟩ := hrec
      simp only [NodeOp.target] at *
      rw [hr]
      simp [hp]
    | reopen s parent op =>
      obtain ⟨_, hp, hr⟩ := hrec
      simp only [NodeOp.target] at *
      rw [hr]
      simp [hp]
    | update_parent s parent op =>
      obtain ⟨_, hp, hr⟩ := hrec
      simp only [NodeOp.target] at *
      rw [hr]
      simp [hp]
    | close s =>
      obtain ⟨ho, hr⟩ := hrec
      simp only [NodeOp.target] at *
      rw [hr]
      refine ⟨(hinv s.id).1, fun _ hc => ?_⟩
      exact List.mem_append_left _ ((hinv s.id).2 (Or.inl ho) hc)
    | mark_as_dead_end s =>
      simp only [NodeOp.target] at *
      rw [hrec]
      refine ⟨(hinv s.id).1, fun hs _ => ?_⟩
      simp at hs
  · rw [hframe id hid]
    exact ⟨(hinv id).1, fun hs hc => List.mem_append_left _ ((hinv id).2 hs hc)⟩

theorem provenance_invariant_performs [Zero F] [Add F] {oc : OperatorCosts Op C F}
    (ops : List (NodeOp Op)) :
    ∀ (sp sp1 : SearchSpace Op C F) (called : List (NodeOp Op)),
      provenance_invariant sp called → SearchSpace.performs oc sp ops = .ok sp1 →
      provenance_invariant sp1 (called ++ ops) := by
  induction ops with
  | nil =>
    intro sp sp1 called hinv h
    simp only [SearchSpace.performs] at h
    injection h with h
    subst h
    simpa using hinv
  | cons o rest ih =>
    intro sp sp1 called hinv h
    simp only [SearchSpace.performs] at h
    split at h
    · rename_i sp2 h2
      have := ih sp2 sp1 (called ++ [o]) (provenance_invariant_perform hinv h2) h
      simpa using this
    · cases h

theorem dead_end_performs [Zero F] [Add F] {oc : OperatorCosts Op C F}
    (ops : List (NodeOp Op)) :
    ∀ (sp sp1 : SearchSpace Op C F) (id : StateID),
      SearchSpace.performs oc sp ops = .ok sp1 →
      (sp.search_node_infos id).status = NodeStatus.DEAD_END →
      (sp1.search_node_infos id).status = NodeStatus.DEAD_END := by
  induction ops with
  | nil =>
    intro sp sp1 id h hd
    simp only [SearchSpace.performs] at h
    injection h with h
    subst h
    exact hd
  | cons o rest ih =>
    intro sp sp1 id h hd
    simp only [SearchSpace.performs] at h
    split at h
    · rename_i sp2 h2
      refine ih sp2 sp1 id h ?_
      obtain ⟨_, hframe, hrec⟩ := perform_record h2
      by_cases hid : id = o.target.id
      · subst hid
        cases o <;> simp only [NodeOp.target] at * <;> simp_all
      · rw [hframe id hid]
        exact hd
    · cases h

end LifecycleTheorems

section LifecycleClaims

variable {Op C F : Type}

/-- C10: `close()` returns exactly from OPEN; when it returns, the status is CLOSED and
g, real_g, the parent link and the creating operator are as before. `reopen` takes a
CLOSED record to OPEN, and a node operation that returned and took a record from CLOSED
to OPEN is a `reopen` on that record's state. -/
theorem close_only_from_open [Zero F] [Add F] (oc : OperatorCosts Op C F)
    (node parent_node : SearchNode Op C F) (parent_op : Op) (sp sp1 : SearchSpace Op C F)
    (o : NodeOp Op) (id : StateID) :
    ((SearchNode.close node).aborted = none ↔ node.info.status = NodeStatus.OPEN) ∧
    (node.info.status = NodeStatus.OPEN →
      (SearchNode.close node).after.info.status = NodeStatus.CLOSED ∧
      (SearchNode.close node).after.info.g = node.info.g ∧
      (SearchNode.close node).after.info.real_g = node.info.real_g ∧
      (SearchNode.close node).after.info.parent_state_id = node.info.parent_state_id ∧
      (SearchNode.close node).after.info.creating_operator = node.info.creating_operator) ∧
    (node.info.status = NodeStatus.CLOSED →
      (SearchNode.reopen oc node parent_node parent_op).aborted = none ∧
      (SearchNode.reopen oc node parent_node parent_op).after.info.status = NodeStatus.OPEN) ∧
    (sp.perform oc o = .ok sp1 →
      (sp.search_node_infos id).status = NodeStatus.CLOSED →
      (sp1.search_node_infos id).status = NodeStatus.OPEN →
      ∃ (parent : GlobalState) (op : Op), o = NodeOp.reopen ⟨id⟩ parent op) := by
  refine ⟨?_, ?_, ?_, ?_⟩
  · unfold SearchNode.close; split_ifs with h <;> simp [h]
  · intro h; simp [SearchNode.close, h]
  · intro h; simp [SearchNode.reopen, h]
  · intro h hc ho
    obtain ⟨_, hframe, hrec⟩ := perform_record h
    by_cases hid : id = o.target.id
    · subst hid
      cases o with
      | reopen s parent op => exact ⟨parent, op, rfl⟩
      | open_initial s => simp only [NodeOp.target] at *; simp_all
      | «open» s parent op => simp only [NodeOp.target] at *; simp_all
      | update_parent s parent op =>
        simp only [NodeOp.target] at *
        obtain ⟨_, _, hr⟩ := hrec
        rw [hr] at ho
        simp_all
      | close s => simp only [NodeOp.target] at *; simp_all
      | mark_as_dead_end s => simp only [NodeOp.target] at *; simp_all
    · rw [hframe id hid, hc] at ho
      cases ho

/-- C8: on a DEAD_END record `open_initial`, `open`, `reopen`, `update_parent` and
`close` abort and `mark_as_dead_end` leaves the status DEAD_END; `mark_as_dead_end`
returns from every status and changes the status only; and along every sequence of
node operations that all returned, a record that is DEAD_END stays DEAD_END. -/
theorem dead_end_is_terminal [Zero F] [Add F] (oc : OperatorCosts Op C F)
    (node parent : SearchNode Op C F) (op : Op) (sp sp1 : SearchSpace Op C F)
    (ops : List (NodeOp Op)) (id : StateID) :
    (node.info.status = NodeStatus.DEAD_END →
      (SearchNode.open_initial node).aborted = some Failure.assertion ∧
      (SearchNode.open oc node parent op).aborted = some Failure.assertion ∧
      (SearchNode.reopen oc node parent op).aborted = some Failure.assertion ∧
      (SearchNode.update_parent oc node parent op).aborted = some Failure.assertion ∧
      (SearchNode.close node).aborted = some Failure.assertion ∧
      (SearchNode.mark_as_dead_end node).after.info.status = NodeStatus.DEAD_END) ∧
    ((SearchNode.mark_as_dead_end node).aborted = none ∧
      (SearchNode.mark_as_dead_end node).after =
        { node with info := { node.info with status := NodeStatus.DEAD_END } }) ∧
    (SearchSpace.performs oc sp ops = .ok sp1 →
      (sp.search_node_infos id).status = NodeStatus.DEAD_END →
      (sp1.search_node_infos id).status = NodeStatus.DEAD_END) := by
  refine ⟨fun h => ?_, ⟨rfl, rfl⟩, fun h hd => dead_end_performs ops sp sp1 id h hd⟩
  simp [SearchNode.open_initial, SearchNode.open, SearchNode.reopen, SearchNode.update_parent,
    SearchNode.close, SearchNode.mark_as_dead_end, h]

/-- C7, as amended: in every search space reached from the empty one by node
operations that all returned, a record has no creating operator exactly when it has no
parent, and an OPEN or CLOSED record without creating operator belongs to a state on
which `open_initial` was invoked. -/
theorem creating_operator_iff_parent [Zero F] [Add F] (oc : OperatorCosts Op C F)
    (cost_type : C) (g0 r0 : F) (ops : List (NodeOp Op)) (sp : SearchSpace Op C F)
    (h : SearchSpace.performs oc (SearchSpace.empty cost_type g0 r0) ops = .ok sp)
    (id : StateID) :
    ((sp.search_node_infos id).creating_operator = none ↔
      (sp.search_node_infos id).parent_state_id = StateID.no_state) ∧
    (((sp.search_node_infos id).status = NodeStatus.OPEN ∨
        (sp.search_node_infos id).status = NodeStatus.CLOSED) →
      (sp.search_node_infos id).creating_operator = none →
      NodeOp.open_initial ⟨id⟩ ∈ ops) := by
  have h0 : provenance_invariant (SearchSpace.empty cost_type g0 r0 : SearchSpace Op C F) [] := by
    intro i
    simp [SearchSpace.empty, SearchNodeInfo.fresh]
  have := provenance_invariant_performs ops _ sp [] h0 h
  simpa using this id

/-- C7, the claim as written fails: after `open_initial` on state 0, `open` of state 1
from state 0 and `reopen` of state 0 from state 1, the record of state 0 (on which
`open_initial` was invoked) has a creating operator and a parent; and the record of
state 7, never referenced, has neither although `open_initial` was not invoked on it. -/
theorem initial_record_gets_parent :
    ∃ sp : SearchSpace DemoOp Unit Int,
      SearchSpace.performs (demo_globals false).toOperatorCosts
        (SearchSpace.empty () (-1) (-1)) demo_ops_reparent = .ok sp ∧
      NodeOp.open_initial ⟨⟨0⟩⟩ ∈ demo_ops_reparent ∧
      (sp.search_node_infos ⟨0⟩).creating_operator = some DemoOp.set_b ∧
      (sp.search_node_infos ⟨0⟩).parent_state_id = ⟨1⟩ ∧
      (sp.search_node_infos ⟨7⟩).creating_operator = none ∧
      (sp.search_node_infos ⟨7⟩).parent_state_id = StateID.no_state ∧
      NodeOp.open_initial ⟨⟨7⟩⟩ ∉ demo_ops_reparent :=
  ⟨_, rfl, by decide, rfl, rfl, rfl, rfl, by decide⟩

end LifecycleClaims

/-! ## Path tracing without symmetry -/

section TraceTheorems

variable {Op C F Permutation : Type}

theorem apply_plan_append [DecidableEq Op] (w : Globals Op C F Permutation) (a b : List Op) :
    ∀ s : GlobalState,
      apply_plan w s (a ++ b) = (apply_plan w s a).bind (fun m => apply_plan w m b) := by
  induction a with
  | nil => intro s; simp [apply_plan]
  | cons op rest ih =>
    intro s
    simp only [List.cons_append, apply_plan]
    cases successor w s op with
    | none => simp
    | some s1 => simpa using ih s1

theorem trace_path_loop_chain (sp : SearchSpace Op C F) :
    ∀ (n : Nat) (s : GlobalState) (path : List Op) (fuel : Nat),
      reaches_initial sp n s → n < fuel →
      trace_path_loop sp fuel s path = .ok (path ++ (chain_operators sp n s).reverse) := by
  intro n
  induction n with
  | zero =>
    intro s path fuel h hf
    obtain ⟨k, rfl⟩ : ∃ k, fuel = k + 1 := ⟨fuel - 1, by omega⟩
    obtain ⟨h1, h2⟩ := h
    simp [trace_path_loop, h1, h2, chain_operators]
  | succ n ih =>
    intro s path fuel h hf
    obtain ⟨k, rfl⟩ : ∃ k, fuel = k + 1 := ⟨fuel - 1, by omega⟩
    obtain ⟨h1, h2⟩ := h
    obtain ⟨op, hop⟩ := Option.ne_none_iff_exists'.mp h1
    simp only [trace_path_loop, hop, chain_operators]
    rw [ih _ _ k h2 (by omega)]
    simp

theorem chain_root_initial (sp : SearchSpace Op C F) :
    ∀ (n : Nat) (s : GlobalState), reaches_initial sp n s →
      (sp.search_node_infos (chain_root sp n s).id).creating_operator = none ∧
      (sp.search_node_infos (chain_root sp n s).id).parent_state_id = StateID.no_state := by
  intro n
  induction n with
  | zero => intro s h; exact h
  | succ n ih => intro s h; exact ih _ h.2

theorem chain_operators_length (sp : SearchSpace Op C F) :
    ∀ (n : Nat) (s : GlobalState), reaches_initial sp n s →
      (chain_operators sp n s).length = n := by
  intro n
  induction n with
  | zero => intro s _; rfl
  | succ n ih =>
    intro s h
    obtain ⟨op, hop⟩ := Option.ne_none_iff_exists'.mp h.1
    simp [chain_operators, hop, ih _ h.2]

theorem apply_plan_chain [DecidableEq Op] (w : Globals Op C F Permutation)
    (sp : SearchSpace Op C F)
    (hsucc : ∀ (id : StateID) (op : Op),
      (sp.search_node_infos id).creating_operator = some op →
      successor w (lookup_state (sp.search_node_infos id).parent_state_id) op =
        some (lookup_state id)) :
    ∀ (n : Nat) (s : GlobalState), reaches_initial sp n s →
      apply_plan w (chain_root sp n s) (chain_operators sp n s) = some s := by
  intro n
  induction n with
  | zero => intro s _; rfl
  | succ n ih =>
    intro s h
    obtain ⟨op, hop⟩ := Option.ne_none_iff_exists'.mp h.1
    simp only [chain_root, chain_operators, hop]
    rw [apply_plan_append, ih _ h.2]
    have hs := hsucc s.id op hop
    simp only [Option.some_bind, apply_plan, hs]
    rfl

/-- C1: without a symmetry graph, if every record with a creating operator `op` and
parent `p` belongs to the successor of `p` under `op`, and the parent chain from the
goal reaches after `n` links the initial state's record (no creating operator, no
parent), then `trace_path(goal)` returns, given fuel for the `n + 1` rounds of its loop,
a sequence of `n` operators; executed in order from the state at the end of the chain
every one of them is applicable, and the execution ends in the goal itself, so in a
state with the values of the goal. -/
theorem trace_path_reaches_goal [DecidableEq Op] [LinearOrder F]
    (w : Globals Op C F Permutation) (sp : SearchSpace Op C F) (goal : GlobalState)
    (n fuel : Nat)
    (hsym : w.g_symmetry_graph = none)
    (hsucc : ∀ (id : StateID) (op : Op),
      (sp.search_node_infos id).creating_operator = some op →
      successor w (lookup_state (sp.search_node_infos id).parent_state_id) op =
        some (lookup_state id))
    (hchain : reaches_initial sp n goal) (hfuel : n < fuel) :
    ∃ plan : List Op,
      trace_path w sp fuel goal [] = .ok plan ∧
      plan.length = n ∧
      (sp.search_node_infos (chain_root sp n goal).id).creating_operator = none ∧
      ∃ final : GlobalState,
        apply_plan w (chain_root sp n goal) plan = some final ∧
        final = goal ∧ same_values w final goal = true := by
  refine ⟨chain_operators sp n goal, ?_, chain_operators_length sp n goal hchain,
    (chain_root_initial sp n goal hchain).1, goal, apply_plan_chain w sp hsucc n goal hchain,
    rfl, ?_⟩
  · simp [trace_path, hsym, trace_path_loop_chain sp n goal [] fuel hchain hfuel]
  · simp [same_values]

end TraceTheorems

/-! ## Path tracing with a symmetry graph -/

section SymmetryTheorems

variable {Op C F Permutation : Type}

theorem chain_states_length (sp : SearchSpace Op C F) :
    ∀ (n : Nat) (s : GlobalState), (chain_states sp n s).length = n + 1 := by
  intro n
  induction n with
  | zero => intro s; rfl
  | succ n ih => intro s; simp [chain_states, ih]

theorem chain_permutations_length [LinearOrder F] (w : Globals Op C F Permutation)
    (sg : SymmetryGraph Permutation) (sp : SearchSpace Op C F) :
    ∀ (n : Nat) (s : GlobalState), reaches_initial sp n s →
      (chain_permutations w sg sp n s).length = n + 1 := by
  intro n
  induction n with
  | zero => intro s _; rfl
  | succ n ih =>
    intro s h
    obtain ⟨op, hop⟩ := Option.ne_none_iff_exists'.mp h.1
    simp [chain_permutations, hop, ih _ h.2]

theorem symmetry_walk_chain [LinearOrder F] (w : Globals Op C F Permutation)
    (sg : SymmetryGraph Permutation) (sp : SearchSpace Op C F) :
    ∀ (n : Nat) (s : GlobalState) (perms : List Permutation) (state_trace : List GlobalState)
      (fuel : Nat), reaches_initial sp n s → n < fuel →
      symmetry_walk w sg sp fuel s perms state_trace =
        .ok (perms ++ (chain_permutations w sg sp n s).reverse,
          state_trace ++ (chain_states sp n s).reverse) := by
  intro n
  induction n with
  | zero =>
    intro s perms state_trace fuel h hf
    obtain ⟨k, rfl⟩ : ∃ k, fuel = k + 1 := ⟨fuel - 1, by omega⟩
    obtain ⟨h1, h2⟩ := h
    simp [symmetry_walk, h1, h2, chain_permutations, chain_states]
  | succ n ih =>
    intro s perms state_trace fuel h hf
    obtain ⟨k, rfl⟩ : ∃ k, fuel = k + 1 := ⟨fuel - 1, by omega⟩
    obtain ⟨h1, h2⟩ := h
    obtain ⟨op, hop⟩ := Option.ne_none_iff_exists'.mp h1
    simp only [symmetry_walk, hop, chain_permutations, chain_states]
    rw [ih _ _ _ k h2 (by omega)]
    simp

/-- With the chain in place and fuel for it, `trace_path_symmetry` is its third loop run
on the true-state trace. -/
theorem trace_path_symmetry_eq [DecidableEq Op] [LinearOrder F]
    (w : Globals Op C F Permutation) (sg : SymmetryGraph Permutation)
    (sp : SearchSpace Op C F) (n fuel : Nat) (goal : GlobalState)
    (hchain : reaches_initial sp n goal) (hfuel : n < fuel) :
    trace_path_symmetry w sg sp fuel goal [] =
      extract_path w (true_state_trace w sg sp n goal) [] := by
  have hlen := chain_permutations_length w sg sp n goal hchain
  unfold trace_path_symmetry true_state_trace
  rw [symmetry_walk_chain w sg sp n goal [] [] fuel hchain hfuel]
  simp only [List.nil_append, List.reverse_reverse, ne_eq, not_true_eq_false, if_false]
  cases hp : chain_permutations w sg sp n goal with
  | nil => simp [hp] at hlen
  | cons p0 rest => simp

end SymmetryTheorems

section ExtractionTheorems

variable {Op C F Permutation : Type}

theorem same_values_iff [LinearOrder F] (w : Globals Op C F Permutation) (s t : GlobalState) :
    same_values w s t = true ↔
      (w.state_values s = w.state_values t ∧ w.get_numeric_vars s = w.get_numeric_vars t) := by
  simp [same_values]

theorem same_values_refl [LinearOrder F] (w : Globals Op C F Permutation) (s : GlobalState) :
    same_values w s s = true := by
  simp [same_values]

theorem same_values_trans [LinearOrder F] (w : Globals Op C F Permutation)
    {s t u : GlobalState} (h1 : same_values w s t = true) (h2 : same_values w t u = true) :
    same_values w s u = true := by
  rw [same_values_iff] at *
  exact ⟨h1.1.trans h2.1, h1.2.trans h2.2⟩

/-- The test of the third loop: identifier or values agree. Either way the values do. -/
theorem same_values_of_match [LinearOrder F] (w : Globals Op C F Permutation)
    {s t : GlobalState} (h : s.id = t.id ∨ same_values w s t = true) :
    same_values w s t = true := by
  rcases h with h | h
  · have : s = t := by cases s; cases t; simp_all
    subst this
    exact same_values_refl w s
  · exact h

theorem select_fold [DecidableEq Op] [LinearOrder F] (w : Globals Op C F Permutation)
    (parent_state state : GlobalState) (min_cost : F) (l : List Op) :
    ∀ (acc : Option Op) (r : Op),
      l.foldl (select_step w parent_state state min_cost) acc = some r →
      acc = some r ∨
        (r ∈ l ∧ ((w.get_successor_state parent_state r).id = state.id ∨
          same_values w (w.get_successor_state parent_state r) state = true)) := by
  induction l with
  | nil => intro acc r h; exact Or.inl h
  | cons op rest ih =>
    intro acc r h
    simp only [List.foldl_cons] at h
    rcases ih _ r h with h1 | ⟨h1, h2⟩
    · simp only [select_step] at h1
      split_ifs at h1 with hm hc
      · injection h1 with h1
        subst h1
        exact Or.inr ⟨List.mem_cons_self _ _, hm⟩
      · exact Or.inl h1
      · exact Or.inl h1
    · exact Or.inr ⟨List.mem_cons_of_mem _ h1, h2⟩

/-- The operator found for a pair of true states is one the successor generator lists
for the first state, and its successor has the values of the second. -/
theorem select_operator_sound [DecidableEq Op] [LinearOrder F]
    (w : Globals Op C F Permutation) (parent_state state : GlobalState) (op : Op)
    (h : select_operator w parent_state state = some op) :
    op ∈ w.generate_applicable_ops parent_state ∧
      same_values w (w.get_successor_state parent_state op) state = true := by
  rcases select_fold w parent_state state w.max_cost _ none op h with h1 | ⟨h1, h2⟩
  · cases h1
  · exact ⟨h1, same_values_of_match w h2⟩

/-- The third loop either returns a plan or stops with `exit(1)`. -/
theorem extract_path_ok_or_exit [DecidableEq Op] [LinearOrder F]
    (w : Globals Op C F Permutation) (trace : List GlobalState) :
    ∀ path : List Op, (∃ plan, extract_path w trace path = .ok plan) ∨
      extract_path w trace path = .error Failure.exit := by
  induction trace with
  | nil => intro path; exact Or.inl ⟨path, by simp [extract_path]⟩
  | cons s rest ih =>
    intro path
    cases rest with
    | nil => exact Or.inl ⟨path, by simp [extract_path]⟩
    | cons t rest =>
      simp only [extract_path]
      cases select_operator w s t with
      | none => exact Or.inr rfl
      | some op => exact ih (path ++ [op])

/-- A plan returned by the third loop extends the path it started from by one operator
for each pair of the trace; executed from any state with the values of the first state of
the trace it is applicable step by step and ends in a state with the values of the last. -/
theorem extract_path_executes [DecidableEq Op] [LinearOrder F]
    (w : Globals Op C F Permutation) (hval : respects_values w) (rest : List GlobalState) :
    ∀ (s : GlobalState) (path plan : List Op),
      extract_path w (s :: rest) path = .ok plan →
      ∃ suffix : List Op, plan = path ++ suffix ∧ suffix.length = rest.length ∧
        ∀ s1 : GlobalState, same_values w s1 s = true →
          ∃ final : GlobalState, apply_plan w s1 suffix = some final ∧
            same_values w final (rest.getLastD s) = true := by
  induction rest with
  | nil =>
    intro s path plan h
    simp only [extract_path] at h
    injection h with h
    exact ⟨[], by simp [h], rfl, fun s1 h1 => ⟨s1, rfl, h1⟩⟩
  | cons t rest ih =>
    intro s path plan h
    simp only [extract_path] at h
    split at h
    · cases h
    · rename_i op hop
      obtain ⟨hmem, hsame⟩ := select_operator_sound w s t op hop
      obtain ⟨suffix, hplan, hlen, hexec⟩ := ih t (path ++ [op]) plan h
      refine ⟨op :: suffix, by simp [hplan], by simp [hlen], fun s1 h1 => ?_⟩
      obtain ⟨hgen, hsucc⟩ := hval s1 s h1
      have hstep : successor w s1 op = some (w.get_successor_state s1 op) := by
        simp [successor, hgen, hmem]
      obtain ⟨final, hf, hfv⟩ :=
        hexec (w.get_successor_state s1 op) (same_values_trans w (hsucc op) hsame)
      refine ⟨final, by simp [apply_plan, hstep, hf], ?_⟩
      rw [List.getLastD_cons]
      exact hfv

end ExtractionTheorems

section TrueTraceTheorems

variable {Op C F Permutation : Type}

theorem true_states_length (w : Globals Op C F Permutation) (perms : List Permutation) :
    ∀ (state_trace : List GlobalState) (tmp_p : Permutation),
      perms.length = state_trace.length →
      (true_states w tmp_p perms state_trace).length = perms.length := by
  induction perms with
  | nil => intro st tmp _; simp [true_states]
  | cons p ps ih =>
    intro st tmp hl
    cases st with
    | nil => simp at hl
    | cons s ss =>
      simp only [true_states, List.length_cons]
      rw [ih ss _ (by simpa using hl)]

theorem true_states_last (w : Globals Op C F Permutation) (perms : List Permutation) :
    ∀ (state_trace : List GlobalState) (tmp_p : Permutation) (d x : GlobalState),
      perms.length = state_trace.length → perms ≠ [] →
      (true_states w tmp_p perms state_trace).getLastD d =
        w.register_state
          (w.permutation_on_state (accumulated_permutation w tmp_p perms)
            (w.state_values (state_trace.getLastD x))
            (w.get_numeric_vars (state_trace.getLastD x))).1
          (w.permutation_on_state (accumulated_permutation w tmp_p perms)
            (w.state_values (state_trace.getLastD x))
            (w.get_numeric_vars (state_trace.getLastD x))).2 := by
  induction perms with
  | nil => intro st tmp d x _ hne; exact absurd rfl hne
  | cons p ps ih =>
    intro st tmp d x hl _
    cases st with
    | nil => simp at hl
    | cons s ss =>
      simp only [true_states, List.getLastD_cons, accumulated_permutation]
      cases ps with
      | nil =>
        cases ss with
        | nil => simp [true_states, accumulated_permutation]
        | cons _ _ => simp at hl
      | cons q qs =>
        exact ih ss _ _ s (by simpa using hl) (List.cons_ne_nil _ _)

theorem chain_states_tail_last (sp : SearchSpace Op C F) (n : Nat) (s x : GlobalState) :
    ((chain_states sp (n + 1) s).tail).getLastD x = s ∧
      ((chain_states sp (n + 1) s).tail).length = n + 1 := by
  have hl := chain_states_length sp n (lookup_state (sp.search_node_infos s.id).parent_state_id)
  simp only [chain_states]
  cases hc : chain_states sp n (lookup_state (sp.search_node_infos s.id).parent_state_id) with
  | nil => simp [hc] at hl
  | cons a rest =>
    rw [hc] at hl
    simp only [List.cons_append, List.tail_cons, List.length_append, List.length_cons,
      List.length_nil] at hl ⊢
    refine ⟨?_, by omega⟩
    simp [List.getLastD_eq_getLast?]

/-- The true-state trace starts with the literal initial state, has one state for each
state of the chain, and ends in `true_goal`. -/
theorem true_state_trace_shape [LinearOrder F] (w : Globals Op C F Permutation)
    (sg : SymmetryGraph Permutation) (sp : SearchSpace Op C F) (n : Nat) (goal : GlobalState)
    (hchain : reaches_initial sp n goal) :
    ∃ rest : List GlobalState,
      true_state_trace w sg sp n goal = w.g_initial_state :: rest ∧ rest.length = n ∧
      rest.getLastD w.g_initial_state = true_goal w sg sp n goal := by
  have hlen := chain_permutations_length w sg sp n goal hchain
  unfold true_state_trace true_goal
  cases hp : chain_permutations w sg sp n goal with
  | nil => simp [hp] at hlen
  | cons p0 perms =>
    rw [hp] at hlen
    cases n with
    | zero =>
      have : perms = [] := by
        simpa using hlen
      subst this
      exact ⟨_, rfl, by simp [true_states], by simp [true_states]⟩
    | succ m =>
      obtain ⟨hlast, hl⟩ := chain_states_tail_last sp m goal goal
      have hpl : perms.length = ((chain_states sp (m + 1) goal).tail).length := by
        simp only [List.length_cons] at hlen
        omega
      have hne : perms ≠ [] := by
        intro h
        rw [h, hl] at hpl
        simp at hpl
      refine ⟨_, rfl, ?_, ?_⟩
      · rw [true_states_length w perms _ _ hpl]
        omega
      · rw [true_states_last w perms _ p0 _ goal hpl hne, hlast]

end TrueTraceTheorems

/-! ## Reconstruction with a symmetry graph: what the plan reaches -/

section SymmetryClaims

variable {Op C F Permutation : Type}

/-- C2, as amended: with a symmetry graph, for a goal whose parent chain reaches the
initial record after `n` links and for which reconstruction does not stop with
`exit(1)`, `trace_path(goal)` returns `n` operators that are applicable step by step
from `g_initial_state()`, and the state they end in has the values of the last true
state: `g_initial_state()` itself for `n = 0`, and otherwise the state registered for
the goal's values transformed by the accumulated permutation. It has the values of the
goal whenever that state has. The successor generator and the successor function are
taken to depend on a state's values only. -/
theorem symmetry_plan_reaches_true_goal [DecidableEq Op] [LinearOrder F]
    (w : Globals Op C F Permutation) (sg : SymmetryGraph Permutation)
    (sp : SearchSpace Op C F) (goal : GlobalState) (n fuel : Nat)
    (hsym : w.g_symmetry_graph = some sg) (hval : respects_values w)
    (hchain : reaches_initial sp n goal) (hfuel : n < fuel)
    (hrun : trace_path w sp fuel goal [] ≠ .error Failure.exit) :
    ∃ plan : List Op,
      trace_path w sp fuel goal [] = .ok plan ∧ plan.length = n ∧
      ∃ final : GlobalState,
        apply_plan w w.g_initial_state plan = some final ∧
        same_values w final (true_goal w sg sp n goal) = true ∧
        (same_values w (true_goal w sg sp n goal) goal = true →
          same_values w final goal = true) := by
  have heq : trace_path w sp fuel goal [] =
      extract_path w (true_state_trace w sg sp n goal) [] := by
    simp only [trace_path, hsym]
    exact trace_path_symmetry_eq w sg sp n fuel goal hchain hfuel
  rw [heq] at hrun ⊢
  obtain ⟨rest, htr, hlen, hlast⟩ := true_state_trace_shape w sg sp n goal hchain
  rw [htr] at hrun ⊢
  rcases extract_path_ok_or_exit w (w.g_initial_state :: rest) [] with ⟨plan, hplan⟩ | hexit
  · obtain ⟨suffix, hps, hsl, hexec⟩ :=
      extract_path_executes w hval rest w.g_initial_state [] plan hplan
    obtain ⟨final, hf, hfv⟩ := hexec w.g_initial_state (same_values_refl w _)
    simp only [List.nil_append] at hps
    subst hps
    rw [hlast] at hfv
    exact ⟨plan, hplan, by omega, final, hf, hfv, fun h => same_values_trans w hfv h⟩
  · exact absurd hexit hrun

/-- C2, the claim as written fails: in the small task the canonical goal is state `2`,
that is `(0, 1)`, recorded as reached from the initial state by `set_a`. Reconstruction
returns one operator; executed from `g_initial_state()` it ends in state `1`, that is
`(1, 0)`, whose values are not those of the goal. -/
theorem symmetry_plan_misses_goal_values :
    reaches_initial (demo_space demo_ops_symmetry) 1 ⟨⟨2⟩⟩ ∧
    trace_path (demo_globals true) (demo_space demo_ops_symmetry) 2 ⟨⟨2⟩⟩ [] =
      .ok [DemoOp.set_a_dear] ∧
    apply_plan (demo_globals true) (demo_globals true).g_initial_state [DemoOp.set_a_dear] =
      some ⟨⟨1⟩⟩ ∧
    (demo_globals true).state_values ⟨⟨1⟩⟩ = [1, 0] ∧
    (demo_globals true).state_values ⟨⟨2⟩⟩ = [0, 1] ∧
    same_values (demo_globals true) ⟨⟨1⟩⟩ ⟨⟨2⟩⟩ = false :=
  ⟨⟨by decide, by decide, rfl⟩, rfl, rfl, rfl, rfl, rfl⟩

/-- C3, evaluated on the small task: for the pair of true states `(0, 0)`, `(1, 0)` the
generator lists `set_a` (cost 1) before `set_a_dear` (cost 2); both lead to `(1, 0)`.
The loop keeps `set_a_dear`, and the plan returned consists of it, although `set_a` is
strictly cheaper. -/
theorem selected_operator_not_cheapest :
    true_state_trace (demo_globals true) ⟨fun _ _ => true⟩ (demo_space demo_ops_symmetry) 1
      ⟨⟨2⟩⟩ = [⟨⟨0⟩⟩, ⟨⟨1⟩⟩] ∧
    (demo_globals true).generate_applicable_ops ⟨⟨0⟩⟩ =
      [DemoOp.set_a, DemoOp.set_a_dear, DemoOp.set_b] ∧
    same_values (demo_globals true)
      ((demo_globals true).get_successor_state ⟨⟨0⟩⟩ DemoOp.set_a) ⟨⟨1⟩⟩ = true ∧
    same_values (demo_globals true)
      ((demo_globals true).get_successor_state ⟨⟨0⟩⟩ DemoOp.set_a_dear) ⟨⟨1⟩⟩ = true ∧
    (demo_globals true).get_cost DemoOp.set_a < (demo_globals true).get_cost DemoOp.set_a_dear ∧
    select_operator (demo_globals true) ⟨⟨0⟩⟩ ⟨⟨1⟩⟩ = some DemoOp.set_a_dear ∧
    trace_path (demo_globals true) (demo_space demo_ops_symmetry) 2 ⟨⟨2⟩⟩ [] =
      .ok [DemoOp.set_a_dear] :=
  ⟨rfl, rfl, rfl, rfl, by decide, rfl, rfl⟩

/-- C5: on a NEW record `open_initial` returns and leaves status OPEN, g = 0,
real_g = 0, no parent and no creating operator, so `get_g()` then returns 0; and in a
search space that holds this record for a state, `trace_path` on that state returns the
empty sequence, without a symmetry graph (the plain loop) and with one
(`trace_path_symmetry`). -/
theorem open_initial_then_trace [DecidableEq Op] [LinearOrder F] [Zero F] [Add F]
    (w : Globals Op C F Permutation) (sg : SymmetryGraph Permutation)
    (node : SearchNode Op C F) (sp : SearchSpace Op C F) (s : GlobalState) (fuel : Nat)
    (hnew : node.info.status = NodeStatus.NEW)
    (hrec : sp.search_node_infos s.id = (SearchNode.open_initial node).after.info) :
    (SearchNode.open_initial node).aborted = none ∧
    (SearchNode.open_initial node).after.info.status = NodeStatus.OPEN ∧
    (SearchNode.open_initial node).after.info.g = 0 ∧
    (SearchNode.open_initial node).after.info.real_g = 0 ∧
    (SearchNode.open_initial node).after.info.parent_state_id = StateID.no_state ∧
    (SearchNode.open_initial node).after.info.creating_operator = none ∧
    SearchNode.get_g (SearchNode.open_initial node).after = .ok 0 ∧
    (w.g_symmetry_graph = none → trace_path w sp (fuel + 1) s [] = .ok []) ∧
    (w.g_symmetry_graph = some sg → trace_path w sp (fuel + 1) s [] = .ok []) ∧
    trace_path_symmetry w sg sp (fuel + 1) s [] = .ok [] := by
  have hafter : (SearchNode.open_initial node).after.info =
      { status := NodeStatus.OPEN, g := 0, real_g := 0,
        parent_state_id := StateID.no_state, creating_operator := none } := by
    simp [SearchNode.open_initial, hnew]
  rw [hafter] at hrec
  have hsymm : trace_path_symmetry w sg sp (fuel + 1) s [] = .ok [] := by
    simp [trace_path_symmetry, symmetry_walk, hrec, true_states, extract_path]
  refine ⟨by simp [SearchNode.open_initial, hnew], by rw [hafter], by rw [hafter],
    by rw [hafter], by rw [hafter], by rw [hafter], ?_, ?_, ?_, hsymm⟩
  · simp [SearchNode.get_g, hafter]
  · intro h
    simp [trace_path, h, trace_path_loop, hrec]
  · intro h
    simp only [trace_path, h]
    exact hsymm

end SymmetryClaims

/-! ## The theorems at concrete inputs -/

section Instances

theorem demo_respects_values (symmetry : Bool) : respects_values (demo_globals symmetry) := by
  intro s t h
  rw [same_values_iff] at h
  have hv : demo_values s = demo_values t := h.1
  refine ⟨?_, fun op => ?_⟩
  · show demo_applicable (demo_values s) = demo_applicable (demo_values t)
    rw [hv]
  · rw [same_values_iff]
    refine ⟨?_, rfl⟩
    show demo_values (demo_register (demo_effect op (demo_values s))) =
      demo_values (demo_register (demo_effect op (demo_values t)))
    rw [hv]

theorem demo_plain_successors (id : StateID) (op : DemoOp)
    (h : ((demo_space demo_ops_plain).search_node_infos id).creating_operator = some op) :
    successor (demo_globals false)
        (lookup_state ((demo_space demo_ops_plain).search_node_infos id).parent_state_id) op =
      some (lookup_state id) := by
  have hsp : (demo_space demo_ops_plain).search_node_infos =
      Function.update
        (Function.update
          (Function.update
            (fun _ : StateID => (SearchNodeInfo.fresh (-1) (-1) : SearchNodeInfo DemoOp Int))
            (⟨0⟩ : StateID)
            { status := NodeStatus.OPEN, g := 0, real_g := 0,
              parent_state_id := StateID.no_state, creating_operator := none })
          (⟨0⟩ : StateID)
          { status := NodeStatus.CLOSED, g := 0, real_g := 0,
            parent_state_id := StateID.no_state, creating_operator := none })
        (⟨1⟩ : StateID)
        { status := NodeStatus.OPEN, g := 0 + 1, real_g := 0 + 1,
          parent_state_id := ⟨0⟩, creating_operator := some DemoOp.set_a } := rfl
  rw [hsp] at h ⊢
  by_cases h1 : id = ⟨1⟩
  · subst h1
    simp only [Function.update_same] at h ⊢
    injection h with h
    subst h
    rfl
  · rw [Function.update_noteq h1] at h
    by_cases h0 : id = ⟨0⟩
    · subst h0
      simp at h
    · rw [Function.update_noteq h0, Function.update_noteq h0] at h
      simp [SearchNodeInfo.fresh] at h

/-- C1 at the small task without symmetry: the goal `(1, 0)` was opened from the
initial state by `set_a`. -/
theorem trace_path_reaches_goal_witness :
    (demo_globals false).g_symmetry_graph = none ∧
    reaches_initial (demo_space demo_ops_plain) 1 ⟨⟨1⟩⟩ ∧
    ∃ plan : List DemoOp,
      trace_path (demo_globals false) (demo_space demo_ops_plain) 2 ⟨⟨1⟩⟩ [] = .ok plan ∧
      plan.length = 1 ∧
      ((demo_space demo_ops_plain).search_node_infos
        (chain_root (demo_space demo_ops_plain) 1 ⟨⟨1⟩⟩).id).creating_operator = none ∧
      ∃ final : GlobalState,
        apply_plan (demo_globals false) (chain_root (demo_space demo_ops_plain) 1 ⟨⟨1⟩⟩) plan =
          some final ∧
        final = ⟨⟨1⟩⟩ ∧ same_values (demo_globals false) final ⟨⟨1⟩⟩ = true :=
  ⟨rfl, ⟨by decide, by decide, rfl⟩,
    trace_path_reaches_goal (demo_globals false) (demo_space demo_ops_plain) ⟨⟨1⟩⟩ 1 2 rfl
      demo_plain_successors ⟨by decide, by decide, rfl⟩ (by decide)⟩

/-- C2, as amended, at the small task with symmetry: the plan ends in `(1, 0)`, the
goal `(0, 1)` with the two variables exchanged. -/
theorem symmetry_plan_reaches_true_goal_witness :
    reaches_initial (demo_space demo_ops_symmetry) 1 ⟨⟨2⟩⟩ ∧
    true_goal (demo_globals true) ⟨fun _ _ => true⟩ (demo_space demo_ops_symmetry) 1 ⟨⟨2⟩⟩ =
      ⟨⟨1⟩⟩ ∧
    ∃ plan : List DemoOp,
      trace_path (demo_globals true) (demo_space demo_ops_symmetry) 2 ⟨⟨2⟩⟩ [] = .ok plan ∧
      plan.length = 1 ∧
      ∃ final : GlobalState,
        apply_plan (demo_globals true) (demo_globals true).g_initial_state plan = some final ∧
        same_values (demo_globals true) final
          (true_goal (demo_globals true) ⟨fun _ _ => true⟩ (demo_space demo_ops_symmetry) 1
            ⟨⟨2⟩⟩) = true ∧
        (same_values (demo_globals true)
            (true_goal (demo_globals true) ⟨fun _ _ => true⟩ (demo_space demo_ops_symmetry) 1
              ⟨⟨2⟩⟩) ⟨⟨2⟩⟩ = true →
          same_values (demo_globals true) final ⟨⟨2⟩⟩ = true) :=
  ⟨⟨by decide, by decide, rfl⟩, rfl,
    symmetry_plan_reaches_true_goal (demo_globals true) ⟨fun _ _ => true⟩
      (demo_space demo_ops_symmetry) ⟨⟨2⟩⟩ 1 2 rfl (demo_respects_values true)
      ⟨by decide, by decide, rfl⟩ (by decide)
      (fun h => by
        have e : trace_path (demo_globals true) (demo_space demo_ops_symmetry) 2 ⟨⟨2⟩⟩ [] =
            .ok [DemoOp.set_a_dear] := rfl
        rw [e] at h
        cases h)⟩

/-- C4 at a fresh view of state `3` opened from state `1` by `set_b`, and at the same
state reopened from there after it had g = 2. -/
theorem open_reopen_set_costs_witness :
    demo_node_new.info.status = NodeStatus.NEW ∧
    (SearchNode.open (demo_globals false).toOperatorCosts demo_node_new demo_parent_node
      DemoOp.set_b).after.info.g = 2 ∧
    ((demo_node NodeStatus.CLOSED).info.status = NodeStatus.OPEN ∨
      (demo_node NodeStatus.CLOSED).info.status = NodeStatus.CLOSED) ∧
    (SearchNode.reopen (demo_globals false).toOperatorCosts (demo_node NodeStatus.CLOSED)
      demo_parent_node DemoOp.set_a_dear).after.info.g = 3 :=
  ⟨rfl,
    ((open_reopen_set_costs (demo_globals false).toOperatorCosts demo_node_new demo_parent_node
      DemoOp.set_b).1 rfl).2.1,
    Or.inr rfl,
    ((open_reopen_set_costs (demo_globals false).toOperatorCosts (demo_node NodeStatus.CLOSED)
      demo_parent_node DemoOp.set_a_dear).2 (Or.inr rfl)).2.1⟩

/-- C5 at state `3` of the small task, opened as an initial state. -/
theorem open_initial_then_trace_witness :
    demo_node_new.info.status = NodeStatus.NEW ∧
    SearchNode.get_g (SearchNode.open_initial demo_node_new).after = .ok 0 ∧
    trace_path_symmetry (demo_globals true) ⟨fun _ _ => true⟩
      (demo_space [NodeOp.open_initial ⟨⟨3⟩⟩]) 1 ⟨⟨3⟩⟩ [] = .ok [] :=
  ⟨rfl,
    (open_initial_then_trace (demo_globals true) ⟨fun _ _ => true⟩ demo_node_new
      (demo_space [NodeOp.open_initial ⟨⟨3⟩⟩]) ⟨⟨3⟩⟩ 0 rfl rfl).2.2.2.2.2.2.1,
    (open_initial_then_trace (demo_globals true) ⟨fun _ _ => true⟩ demo_node_new
      (demo_space [NodeOp.open_initial ⟨⟨3⟩⟩]) ⟨⟨3⟩⟩ 0 rfl rfl).2.2.2.2.2.2.2.2.2⟩

/-- C6 at a fresh view: `reopen` aborts and leaves it as it was. -/
theorem status_preconditions_witness :
    demo_node_new.info.status = NodeStatus.NEW ∧
    (SearchNode.reopen (demo_globals false).toOperatorCosts demo_node_new demo_parent_node
      DemoOp.set_b).aborted = some Failure.assertion ∧
    (SearchNode.reopen (demo_globals false).toOperatorCosts demo_node_new demo_parent_node
      DemoOp.set_b).after = demo_node_new :=
  ⟨rfl,
    (status_preconditions (demo_globals false).toOperatorCosts demo_node_new demo_parent_node
      DemoOp.set_b).2.1 rfl,
    (status_preconditions (demo_globals false).toOperatorCosts demo_node_new demo_parent_node
      DemoOp.set_b).2.2.2.1 (by decide)⟩

/-- C7, as amended, at the small task: the record of the initial state after
`demo_ops_plain`. -/
theorem creating_operator_iff_parent_witness :
    SearchSpace.performs (demo_globals false).toOperatorCosts
      (SearchSpace.empty () (-1) (-1)) demo_ops_plain = .ok (demo_space demo_ops_plain) ∧
    ((((demo_space demo_ops_plain).search_node_infos ⟨0⟩).creating_operator = none ↔
        ((demo_space demo_ops_plain).search_node_infos ⟨0⟩).parent_state_id =
          StateID.no_state) ∧
      ((((demo_space demo_ops_plain).search_node_infos ⟨0⟩).status = NodeStatus.OPEN ∨
          ((demo_space demo_ops_plain).search_node_infos ⟨0⟩).status = NodeStatus.CLOSED) →
        ((demo_space demo_ops_plain).search_node_infos ⟨0⟩).creating_operator = none →
        NodeOp.open_initial ⟨⟨0⟩⟩ ∈ demo_ops_plain)) :=
  ⟨rfl,
    creating_operator_iff_parent (demo_globals false).toOperatorCosts () (-1) (-1)
      demo_ops_plain (demo_space demo_ops_plain) rfl ⟨0⟩⟩

/-- C8 at a dead end: state `3`, once marked, is still a dead end after further node
operations, and `close` aborts on it. -/
theorem dead_end_is_terminal_witness :
    (demo_node NodeStatus.DEAD_END).info.status = NodeStatus.DEAD_END ∧
    (SearchNode.close (demo_node NodeStatus.DEAD_END)).aborted = some Failure.assertion ∧
    ((demo_space [NodeOp.mark_as_dead_end ⟨⟨3⟩⟩]).search_node_infos ⟨3⟩).status =
      NodeStatus.DEAD_END ∧
    ((demo_space [NodeOp.mark_as_dead_end ⟨⟨3⟩⟩, NodeOp.open_initial ⟨⟨0⟩⟩,
      NodeOp.mark_as_dead_end ⟨⟨3⟩⟩]).search_node_infos ⟨3⟩).status = NodeStatus.DEAD_END :=
  ⟨rfl,
    ((dead_end_is_terminal (demo_globals false).toOperatorCosts (demo_node NodeStatus.DEAD_END)
      demo_parent_node DemoOp.set_b (demo_space [NodeOp.mark_as_dead_end ⟨⟨3⟩⟩])
      (demo_space [NodeOp.mark_as_dead_end ⟨⟨3⟩⟩]) [] ⟨3⟩).1 rfl).2.2.2.2.1,
    rfl,
    (dead_end_is_terminal (demo_globals false).toOperatorCosts (demo_node NodeStatus.DEAD_END)
      demo_parent_node DemoOp.set_b (demo_space [NodeOp.mark_as_dead_end ⟨⟨3⟩⟩])
      (demo_space [NodeOp.mark_as_dead_end ⟨⟨3⟩⟩, NodeOp.open_initial ⟨⟨0⟩⟩,
        NodeOp.mark_as_dead_end ⟨⟨3⟩⟩])
      [NodeOp.open_initial ⟨⟨0⟩⟩, NodeOp.mark_as_dead_end ⟨⟨3⟩⟩] ⟨3⟩).2.2 rfl rfl⟩

/-- C9 at a CLOSED view of state `3`, given state `1` as its new parent. -/
theorem update_parent_is_reopen_without_status_witness :
    ((demo_node NodeStatus.CLOSED).info.status = NodeStatus.OPEN ∨
      (demo_node NodeStatus.CLOSED).info.status = NodeStatus.CLOSED) ∧
    (SearchNode.update_parent (demo_globals false).toOperatorCosts (demo_node NodeStatus.CLOSED)
      demo_parent_node DemoOp.set_b).after.info.status = NodeStatus.CLOSED ∧
    (SearchNode.update_parent (demo_globals false).toOperatorCosts (demo_node NodeStatus.CLOSED)
      demo_parent_node DemoOp.set_b).after.info.parent_state_id = ⟨1⟩ :=
  ⟨Or.inr rfl,
    (update_parent_is_reopen_without_status (demo_globals false).toOperatorCosts
      (demo_node NodeStatus.CLOSED) demo_parent_node DemoOp.set_b (Or.inr rfl)).2.1,
    (update_parent_is_reopen_without_status (demo_globals false).toOperatorCosts
      (demo_node NodeStatus.CLOSED) demo_parent_node DemoOp.set_b (Or.inr rfl)).2.2.2.2.1⟩

/-- C10 at the small task: the initial state, closed, is reopened from state `1`. -/
theorem close_only_from_open_witness :
    (demo_node NodeStatus.OPEN).info.status = NodeStatus.OPEN ∧
    (SearchNode.close (demo_node NodeStatus.OPEN)).after.info.status = NodeStatus.CLOSED ∧
    ((demo_space demo_ops_plain).search_node_infos ⟨0⟩).status = NodeStatus.CLOSED ∧
    ∃ (parent : GlobalState) (op : DemoOp),
      NodeOp.reopen ⟨⟨0⟩⟩ ⟨⟨1⟩⟩ DemoOp.set_b = NodeOp.reopen ⟨⟨0⟩⟩ parent op :=
  ⟨rfl,
    ((close_only_from_open (demo_globals false).toOperatorCosts (demo_node NodeStatus.OPEN)
      demo_parent_node DemoOp.set_b (demo_space demo_ops_plain)
      (demo_space (demo_ops_plain ++ [NodeOp.reopen ⟨⟨0⟩⟩ ⟨⟨1⟩⟩ DemoOp.set_b]))
      (NodeOp.reopen ⟨⟨0⟩⟩ ⟨⟨1⟩⟩ DemoOp.set_b) ⟨0⟩).2.1 rfl).1,
    rfl,
    (close_only_from_open (demo_globals false).toOperatorCosts (demo_node NodeStatus.OPEN)
      demo_parent_node DemoOp.set_b (demo_space demo_ops_plain)
      (demo_space (demo_ops_plain ++ [NodeOp.reopen ⟨⟨0⟩⟩ ⟨⟨1⟩⟩ DemoOp.set_b]))
      (NodeOp.reopen ⟨⟨0⟩⟩ ⟨⟨1⟩⟩ DemoOp.set_b) ⟨0⟩).2.2.2 rfl rfl rfl⟩

end Instances

/-! ## Status predicates -/

section StatusPredicates

variable {Op C F : Type}

theorem one_status_predicate_of_node (node : SearchNode Op C F) :
    one_status_predicate node := by
  refine ⟨by simp [SearchNode.is_new], by simp [SearchNode.is_open],
    by simp [SearchNode.is_closed], by simp [SearchNode.is_dead_end], ?_⟩
  cases h : node.info.status <;>
    simp [SearchNode.is_new, SearchNode.is_open, SearchNode.is_closed,
      SearchNode.is_dead_end, h]

/-- C14: for every record exactly one of `is_new()`, `is_open()`, `is_closed()`,
`is_dead_end()` is true, namely the one that names the value of the status field in
NEW, OPEN, CLOSED, DEAD_END; this holds for the node as it is and for the node as each
node operation leaves it, whether the operation returned or aborted. -/
theorem status_predicates_partition [Zero F] [Add F] (oc : OperatorCosts Op C F)
    (node parent : SearchNode Op C F) (op : Op) :
    one_status_predicate node ∧
    one_status_predicate (SearchNode.open_initial node).after ∧
    one_status_predicate (SearchNode.open oc node parent op).after ∧
    one_status_predicate (SearchNode.reopen oc node parent op).after ∧
    one_status_predicate (SearchNode.update_parent oc node parent op).after ∧
    one_status_predicate (SearchNode.close node).after ∧
    one_status_predicate (SearchNode.mark_as_dead_end node).after :=
  ⟨one_status_predicate_of_node _, one_status_predicate_of_node _,
    one_status_predicate_of_node _, one_status_predicate_of_node _,
    one_status_predicate_of_node _, one_status_predicate_of_node _,
    one_status_predicate_of_node _⟩

end StatusPredicates

/-! ## Reconstruction with a symmetry graph: when it stops, what it returns -/

section ExitTheorems

variable {Op C F Permutation : Type}

theorem select_fold_none [DecidableEq Op] [LinearOrder F] (w : Globals Op C F Permutation)
    (parent_state state : GlobalState) (min_cost : F) (l : List Op) :
    ∀ acc : Option Op,
      l.foldl (select_step w parent_state state min_cost) acc = none ↔
        (acc = none ∧ ∀ op ∈ l, ¬ reproduces w parent_state state op) := by
  induction l with
  | nil => intro acc; simp
  | cons op rest ih =>
    intro acc
    simp only [List.foldl_cons, ih, List.mem_cons, forall_eq_or_imp]
    by_cases hm : reproduces w parent_state state op
    · have hm1 := hm
      unfold reproduces at hm1
      constructor
      · rintro ⟨h1, _⟩
        simp only [select_step, hm1, if_true] at h1
        split_ifs at h1 with hc
        exact absurd (Or.inl h1) hc
      · rintro ⟨_, h2, _⟩
        exact absurd hm h2
    · have hm1 := hm
      unfold reproduces at hm1
      simp only [select_step, hm1, if_false]
      constructor
      · rintro ⟨h1, h2⟩
        exact ⟨h1, hm, h2⟩
      · rintro ⟨h1, _, h2⟩
        exact ⟨h1, h2⟩

/-- No operator is found for a pair exactly when no applicable operator reproduces the
second state. -/
theorem select_operator_none_iff [DecidableEq Op] [LinearOrder F]
    (w : Globals Op C F Permutation) (parent_state state : GlobalState) :
    select_operator w parent_state state = none ↔
      ∀ op ∈ w.generate_applicable_ops parent_state, ¬ reproduces w parent_state state op := by
  unfold select_operator
  rw [select_fold_none]
  simp

/-- The operator found for a pair is applicable in the first state and reproduces the
second. -/
theorem select_operator_reproduces [DecidableEq Op] [LinearOrder F]
    (w : Globals Op C F Permutation) (parent_state state : GlobalState) (op : Op)
    (h : select_operator w parent_state state = some op) :
    op ∈ w.generate_applicable_ops parent_state ∧ reproduces w parent_state state op := by
  rcases select_fold w parent_state state w.max_cost _ none op h with h1 | ⟨h1, h2⟩
  · cases h1
  · exact ⟨h1, h2⟩

/-- The third loop stops with `exit(1)` exactly when for some pair no operator is found. -/
theorem extract_path_exit_iff [DecidableEq Op] [LinearOrder F]
    (w : Globals Op C F Permutation) (trace : List GlobalState) :
    ∀ path : List Op, extract_path w trace path = .error Failure.exit ↔
      ∃ pair ∈ consecutive_pairs trace, select_operator w pair.1 pair.2 = none := by
  induction trace with
  | nil => intro path; simp [extract_path, consecutive_pairs]
  | cons s rest ih =>
    intro path
    cases rest with
    | nil => simp [extract_path, consecutive_pairs]
    | cons t rest =>
      simp only [extract_path, consecutive_pairs, List.tail_cons, List.zip_cons_cons,
        List.mem_cons, exists_eq_or_imp]
      cases hsel : select_operator w s t with
      | none => simp
      | some op =>
        have := ih (path ++ [op])
        simp only [consecutive_pairs, List.tail_cons] at this
        simp [this]

/-- A plan returned by the third loop extends the given path by exactly one operator
for each pair, the one found for that pair. -/
theorem extract_path_ok [DecidableEq Op] [LinearOrder F]
    (w : Globals Op C F Permutation) (trace : List GlobalState) :
    ∀ path plan : List Op, extract_path w trace path = .ok plan →
      ∃ suffix : List Op, plan = path ++ suffix ∧
        List.Forall₂ (fun pair op => select_operator w pair.1 pair.2 = some op)
          (consecutive_pairs trace) suffix := by
  induction trace with
  | nil =>
    intro path plan h
    simp only [extract_path] at h
    injection h with h
    exact ⟨[], by simp [h], by simp [consecutive_pairs]⟩
  | cons s rest ih =>
    intro path plan h
    cases rest with
    | nil =>
      simp only [extract_path] at h
      injection h with h
      exact ⟨[], by simp [h], by simp [consecutive_pairs]⟩
    | cons t rest =>
      simp only [extract_path] at h
      split at h
      · cases h
      · rename_i op hop
        obtain ⟨suffix, hplan, hall⟩ := ih (path ++ [op]) plan h
        refine ⟨op :: suffix, by simp [hplan], ?_⟩
        simp only [consecutive_pairs, List.tail_cons, List.zip_cons_cons] at hall ⊢
        exact List.Forall₂.cons hop hall

theorem consecutive_pairs_length (trace : List GlobalState) :
    (consecutive_pairs trace).length = trace.length - 1 := by
  simp [consecutive_pairs]

/-- C12: with `exit(1)` as an error result, for a goal whose parent chain reaches the
initial record after `n` links (and fuel for it), `trace_path_symmetry` stops with
`exit(1)` exactly when for some consecutive pair of the true-state trace no operator
applicable in the first state yields a state with the identifier or the values of the
second; otherwise it returns a plan, and a plan it returns has exactly one operator for
every consecutive pair, in order, each applicable in the first state of its pair and
reproducing the second; so it has `n` operators. -/
theorem reconstruction_exit_iff [DecidableEq Op] [LinearOrder F]
    (w : Globals Op C F Permutation) (sg : SymmetryGraph Permutation)
    (sp : SearchSpace Op C F) (goal : GlobalState) (n fuel : Nat)
    (hchain : reaches_initial sp n goal) (hfuel : n < fuel) :
    (trace_path_symmetry w sg sp fuel goal [] = .error Failure.exit ↔
      ∃ pair ∈ consecutive_pairs (true_state_trace w sg sp n goal),
        ∀ op ∈ w.generate_applicable_ops pair.1, ¬ reproduces w pair.1 pair.2 op) ∧
    ((∃ plan, trace_path_symmetry w sg sp fuel goal [] = .ok plan) ∨
      trace_path_symmetry w sg sp fuel goal [] = .error Failure.exit) ∧
    (∀ plan, trace_path_symmetry w sg sp fuel goal [] = .ok plan →
      List.Forall₂
        (fun pair op => op ∈ w.generate_applicable_ops pair.1 ∧ reproduces w pair.1 pair.2 op)
        (consecutive_pairs (true_state_trace w sg sp n goal)) plan ∧
      plan.length = (consecutive_pairs (true_state_trace w sg sp n goal)).length ∧
      plan.length = n) := by
  rw [trace_path_symmetry_eq w sg sp n fuel goal hchain hfuel]
  refine ⟨?_, extract_path_ok_or_exit w _ [], ?_⟩
  · rw [extract_path_exit_iff]
    simp only [select_operator_none_iff]
  · intro plan hplan
    obtain ⟨suffix, hps, hall⟩ := extract_path_ok w _ [] plan hplan
    simp only [List.nil_append] at hps
    subst hps
    have hall2 : List.Forall₂
        (fun pair op => op ∈ w.generate_applicable_ops pair.1 ∧ reproduces w pair.1 pair.2 op)
        (consecutive_pairs (true_state_trace w sg sp n goal)) plan :=
      hall.imp (fun _ _ h => select_operator_reproduces w _ _ _ h)
    obtain ⟨rest, htr, hlen, _⟩ := true_state_trace_shape w sg sp n goal hchain
    have hl := hall2.length_eq
    refine ⟨hall2, hl.symm, ?_⟩
    rw [← hl, consecutive_pairs_length, htr]
    simp [hlen]

end ExitTheorems

/-! ## The true-state trace, element by element -/

section TraceElements

variable {Op C F Permutation : Type}

theorem accumulated_permutation_append (w : Globals Op C F Permutation)
    (l : List Permutation) (p : Permutation) :
    ∀ tmp_p : Permutation,
      accumulated_permutation w tmp_p (l ++ [p]) =
        w.Permutation_compose p (accumulated_permutation w tmp_p l) := by
  induction l with
  | nil => intro tmp; rfl
  | cons q rest ih =>
    intro tmp
    show accumulated_permutation w (w.Permutation_compose q tmp) (rest ++ [p]) = _
    rw [ih]
    rfl

theorem accumulated_upto_eq (w : Globals Op C F Permutation) (p0 : Permutation)
    (rest : List Permutation) :
    ∀ i : Nat, i ≤ rest.length →
      accumulated_upto w (p0 :: rest) i = accumulated_permutation w p0 (rest.take i) := by
  intro i
  induction i with
  | zero => intro _; simp [accumulated_upto, accumulated_permutation]
  | succ i ih =>
    intro hi
    have hlt : i < rest.length := by omega
    simp only [accumulated_upto, ih (by omega)]
    rw [List.take_succ, List.getElem?_eq_getElem hlt]
    simp only [Option.toList_some]
    rw [accumulated_permutation_append]
    simp [List.getD_eq_getElem?_getD, List.getElem?_eq_getElem hlt]

theorem true_states_getElem (w : Globals Op C F Permutation) (perms : List Permutation) :
    ∀ (state_trace : List GlobalState) (tmp_p : Permutation) (j : Nat),
      perms.length = state_trace.length → j < perms.length →
      ∃ s : GlobalState, state_trace[j]? = some s ∧
        (true_states w tmp_p perms state_trace)[j]? =
          some (permuted_state w (accumulated_permutation w tmp_p (perms.take (j + 1))) s) := by
  induction perms with
  | nil => intro st tmp j _ hj; simp at hj
  | cons p ps ih =>
    intro st tmp j hl hj
    cases st with
    | nil => simp at hl
    | cons s ss =>
      cases j with
      | zero =>
        exact ⟨s, by simp, by simp [true_states, accumulated_permutation, permuted_state]⟩
      | succ j =>
        obtain ⟨s1, hs1, ht⟩ := ih ss (w.Permutation_compose p tmp) j (by simpa using hl)
          (by simpa using hj)
        exact ⟨s1, by simpa using hs1, by
          simpa [true_states, accumulated_permutation] using ht⟩

end TraceElements

section TraceElementsClaim

variable {Op C F Permutation : Type}

theorem chain_states_last (sp : SearchSpace Op C F) :
    ∀ (n : Nat) (s : GlobalState), (chain_states sp n s)[n]? = some s := by
  intro n
  cases n with
  | zero => intro s; rfl
  | succ n =>
    intro s
    have hl := chain_states_length sp n (lookup_state (sp.search_node_infos s.id).parent_state_id)
    simp only [chain_states]
    rw [List.getElem?_append_right (by omega)]
    simp [hl]

/-- C13: in `trace_path_symmetry`, for a goal whose parent chain has `n` links, the
first loop collects the canonical states `s_0 .. s_n` (`s_n` the goal) and the
permutations `p_0 .. p_n`; the true-state trace has length `n + 1`, its element 0 is
`g_initial_state()`, and for `i` in `1 .. n` its element `i` is the state registered
for the values of `s_i` transformed by `q_i`, where `q_0 = p_0` and
`q_i = Permutation(p_i, q_(i-1))`. -/
theorem true_state_trace_elements [DecidableEq Op] [LinearOrder F]
    (w : Globals Op C F Permutation) (sg : SymmetryGraph Permutation)
    (sp : SearchSpace Op C F) (goal : GlobalState) (n fuel : Nat)
    (hchain : reaches_initial sp n goal) (hfuel : n < fuel) :
    symmetry_walk w sg sp fuel goal [] [] =
      .ok ((chain_permutations w sg sp n goal).reverse, (chain_states sp n goal).reverse) ∧
    (chain_permutations w sg sp n goal).length = n + 1 ∧
    (chain_states sp n goal).length = n + 1 ∧
    (chain_states sp n goal)[n]? = some goal ∧
    trace_path_symmetry w sg sp fuel goal [] =
      extract_path w (true_state_trace w sg sp n goal) [] ∧
    (true_state_trace w sg sp n goal).length = n + 1 ∧
    (true_state_trace w sg sp n goal)[0]? = some w.g_initial_state ∧
    ∀ i : Nat, 1 ≤ i → i ≤ n →
      ∃ s_i : GlobalState, (chain_states sp n goal)[i]? = some s_i ∧
        (true_state_trace w sg sp n goal)[i]? =
          some (permuted_state w
            (accumulated_upto w (chain_permutations w sg sp n goal) i) s_i) := by
  have hpl := chain_permutations_length w sg sp n goal hchain
  have hsl := chain_states_length sp n goal
  obtain ⟨rest, htr, hlen, _⟩ := true_state_trace_shape w sg sp n goal hchain
  refine ⟨by simpa using symmetry_walk_chain w sg sp n goal [] [] fuel hchain hfuel, hpl, hsl,
    chain_states_last sp n goal, trace_path_symmetry_eq w sg sp n fuel goal hchain hfuel,
    by simp [htr, hlen], by simp [htr], ?_⟩
  intro i hi1 hin
  obtain ⟨j, rfl⟩ : ∃ j, i = j + 1 := ⟨i - 1, by omega⟩
  unfold true_state_trace
  cases hp : chain_permutations w sg sp n goal with
  | nil => simp [hp] at hpl
  | cons p0 perms =>
    rw [hp] at hpl
    have hperms : perms.length = n := by simpa using hpl
    have htl : perms.length = ((chain_states sp n goal).tail).length := by
      simp [hsl, hperms]
    obtain ⟨s, hs, ht⟩ := true_states_getElem w perms _ p0 j htl (by omega)
    refine ⟨s, by simpa using hs, ?_⟩
    rw [accumulated_upto_eq w p0 perms (j + 1) (by omega)]
    simpa using ht

end TraceElementsClaim

/-! ## Executing the reconstructed plan -/

section PlanExecution

variable {Op C F Permutation : Type}

theorem run_plan_head [DecidableEq Op] (w : Globals Op C F Permutation) (s : GlobalState)
    (ops : List Op) (visited : List GlobalState) (h : run_plan w s ops = some visited) :
    ∃ rest : List GlobalState, visited = s :: rest := by
  cases ops with
  | nil =>
    simp only [run_plan] at h
    injection h with h
    exact ⟨[], h.symm⟩
  | cons op rest =>
    simp only [run_plan] at h
    split at h
    · cases h
    · split at h
      · cases h
      · injection h with h
        exact ⟨_, h.symm⟩

theorem apply_plan_eq_run_plan_last [DecidableEq Op] (w : Globals Op C F Permutation)
    (ops : List Op) :
    ∀ s : GlobalState, apply_plan w s ops = (run_plan w s ops).bind List.getLast? := by
  induction ops with
  | nil => intro s; simp [apply_plan, run_plan]
  | cons op rest ih =>
    intro s
    simp only [apply_plan, run_plan]
    cases successor w s op with
    | none => simp
    | some s1 =>
      simp only [ih s1]
      cases hr : run_plan w s1 rest with
      | none => simp
      | some visited =>
        obtain ⟨tl, rfl⟩ := run_plan_head w s1 rest visited hr
        simp [List.getLast?_cons_cons]

/-- Operators that are applicable in the first state of each pair of a trace and
reproduce the second can be executed from any state with the values of the first state
of the trace, and the states visited have the values of the states of the trace. -/
theorem run_plan_follows [DecidableEq Op] [LinearOrder F] (w : Globals Op C F Permutation)
    (hval : respects_values w) (rest : List GlobalState) :
    ∀ (s : GlobalState) (ops : List Op) (s1 : GlobalState),
      List.Forall₂
        (fun pair op => op ∈ w.generate_applicable_ops pair.1 ∧ reproduces w pair.1 pair.2 op)
        (consecutive_pairs (s :: rest)) ops →
      same_values w s1 s = true →
      ∃ visited : List GlobalState, run_plan w s1 ops = some visited ∧
        List.Forall₂ (fun a b => same_values w a b = true) visited (s :: rest) := by
  induction rest with
  | nil =>
    intro s ops s1 h h1
    simp only [consecutive_pairs, List.tail_cons, List.zip_nil_right] at h
    cases h
    exact ⟨[s1], rfl, List.Forall₂.cons h1 List.Forall₂.nil⟩
  | cons t rest ih =>
    intro s ops s1 h h1
    simp only [consecutive_pairs, List.tail_cons, List.zip_cons_cons] at h
    cases h with
    | cons hop hrest =>
      rename_i op ops
      obtain ⟨hmem, hrep⟩ := hop
      obtain ⟨hgen, hsucc⟩ := hval s1 s h1
      have hstep : successor w s1 op = some (w.get_successor_state s1 op) := by
        simp [successor, hgen, hmem]
      have hnext : same_values w (w.get_successor_state s1 op) t = true :=
        same_values_trans w (hsucc op) (same_values_of_match w hrep)
      obtain ⟨visited, hv, hall⟩ := ih t ops (w.get_successor_state s1 op) hrest hnext
      exact ⟨s1 :: visited, by simp [run_plan, hstep, hv], List.Forall₂.cons h1 hall⟩

theorem forall2_last {α β : Type} (r : α → β → Prop) :
    ∀ (l1 : List α) (l2 : List β), List.Forall₂ r l1 l2 →
      ∀ a b, l1.getLast? = some a → l2.getLast? = some b → r a b := by
  intro l1 l2 h
  induction h with
  | nil => intro a b h; simp at h
  | cons hab hrest ih =>
    rename_i x y xs ys
    intro a b ha hb
    cases hrest with
    | nil =>
      simp at ha hb
      subst ha
      subst hb
      exact hab
    | cons h1 h2 =>
      rw [List.getLast?_cons_cons] at ha hb
      exact ih a b ha hb

end PlanExecution

section PlanExecutionClaim

variable {Op C F Permutation : Type}

theorem true_goal_eq_permuted [LinearOrder F] (w : Globals Op C F Permutation)
    (sg : SymmetryGraph Permutation) (sp : SearchSpace Op C F) (n : Nat) (goal : GlobalState)
    (hchain : reaches_initial sp n goal) (hn : 0 < n) :
    true_goal w sg sp n goal =
      permuted_state w (accumulated_upto w (chain_permutations w sg sp n goal) n) goal := by
  have hpl := chain_permutations_length w sg sp n goal hchain
  obtain ⟨m, rfl⟩ : ∃ m, n = m + 1 := ⟨n - 1, by omega⟩
  unfold true_goal
  cases hp : chain_permutations w sg sp (m + 1) goal with
  | nil => simp [hp] at hpl
  | cons p0 perms =>
    rw [hp] at hpl
    have hperms : perms.length = m + 1 := by simpa using hpl
    rw [accumulated_upto_eq w p0 perms (m + 1) (by omega)]
    simp [permuted_state, ← hperms]

/-- C16: when `trace_path_symmetry` returns a plan for a goal whose parent chain has `n`
links, the plan has exactly `n` operators; its `i`-th operator is one the successor
generator lists for true state `i - 1`, and its successor from there has the identifier
or the values of true state `i`. Hence, the successor generator and successor function
depending on a state's values only, executing the plan from `g_initial_state()` visits
states with the values of the true-state trace, one by one, and ends in a state with
the values of the last true state, which for `n ≥ 1` is the state registered for the
goal's values transformed by the accumulated permutation (for `n = 0` it is
`g_initial_state()`). -/
theorem symmetry_plan_follows_true_trace [DecidableEq Op] [LinearOrder F]
    (w : Globals Op C F Permutation) (sg : SymmetryGraph Permutation)
    (sp : SearchSpace Op C F) (goal : GlobalState) (n fuel : Nat) (plan : List Op)
    (hchain : reaches_initial sp n goal) (hfuel : n < fuel)
    (hplan : trace_path_symmetry w sg sp fuel goal [] = .ok plan) :
    plan.length = n ∧
    List.Forall₂
      (fun pair op => op ∈ w.generate_applicable_ops pair.1 ∧ reproduces w pair.1 pair.2 op)
      (consecutive_pairs (true_state_trace w sg sp n goal)) plan ∧
    (respects_values w →
      ∃ (visited : List GlobalState) (final : GlobalState),
        run_plan w w.g_initial_state plan = some visited ∧
        List.Forall₂ (fun a b => same_values w a b = true) visited
          (true_state_trace w sg sp n goal) ∧
        visited.getLast? = some final ∧
        apply_plan w w.g_initial_state plan = some final ∧
        same_values w final (true_goal w sg sp n goal) = true ∧
        ((0 < n ∨ same_values w w.g_initial_state
            (permuted_state w (accumulated_upto w (chain_permutations w sg sp n goal) n)
              goal) = true) →
          same_values w final
            (permuted_state w (accumulated_upto w (chain_permutations w sg sp n goal) n)
              goal) = true)) := by
  rw [trace_path_symmetry_eq w sg sp n fuel goal hchain hfuel] at hplan
  obtain ⟨suffix, hps, hall⟩ := extract_path_ok w _ [] plan hplan
  simp only [List.nil_append] at hps
  subst hps
  have hall2 : List.Forall₂
      (fun pair op => op ∈ w.generate_applicable_ops pair.1 ∧ reproduces w pair.1 pair.2 op)
      (consecutive_pairs (true_state_trace w sg sp n goal)) plan :=
    hall.imp (fun _ _ h => select_operator_reproduces w _ _ _ h)
  obtain ⟨rest, htr, hlen, hlast⟩ := true_state_trace_shape w sg sp n goal hchain
  have hl := hall2.length_eq
  have hn : plan.length = n := by
    rw [← hl, consecutive_pairs_length, htr]
    simp [hlen]
  refine ⟨hn, hall2, fun hval => ?_⟩
  rw [htr] at hall2 ⊢
  obtain ⟨visited, hv, hvis⟩ :=
    run_plan_follows w hval rest w.g_initial_state plan w.g_initial_state hall2
      (same_values_refl w _)
  obtain ⟨tl, rfl⟩ := run_plan_head w _ _ visited hv
  obtain ⟨final, hfinal⟩ : ∃ final, (w.g_initial_state :: tl).getLast? = some final :=
    ⟨(w.g_initial_state :: tl).getLast (by simp), List.getLast?_eq_getLast _ _⟩
  have happly : apply_plan w w.g_initial_state plan = some final := by
    rw [apply_plan_eq_run_plan_last, hv]
    simpa using hfinal
  have hgoal : (w.g_initial_state :: rest).getLast? = some (true_goal w sg sp n goal) := by
    rw [← hlast, List.getLast?_cons, List.getLastD_eq_getLast?]
  have hfv : same_values w final (true_goal w sg sp n goal) = true :=
    forall2_last _ _ _ hvis final _ hfinal hgoal
  refine ⟨_, final, hv, hvis, hfinal, happly, hfv, fun h => ?_⟩
  rcases h with h | h
  · rw [← true_goal_eq_permuted w sg sp n goal hchain h]
    exact hfv
  · by_cases h0 : 0 < n
    · rw [← true_goal_eq_permuted w sg sp n goal hchain h0]
      exact hfv
    · have hz : n = 0 := by omega
      subst hz
      have : true_goal w sg sp 0 goal = w.g_initial_state := by
        have hnil : rest = [] := List.length_eq_zero.mp hlen
        rw [← hlast, hnil]
        rfl
      rw [this] at hfv
      exact same_values_trans w hfv h

end PlanExecutionClaim

/-! ## Node operations under the engine's rules -/

section EngineRules

variable {Op C F : Type}

theorem commit_cost_type {sp sp1 : SearchSpace Op C F} {r : Outcome (SearchNode Op C F)}
    (h : sp.commit r = .ok sp1) : sp1.cost_type = sp.cost_type := by
  obtain ⟨_, rfl⟩ := commit_ok h
  rfl

theorem perform_cost_type [Zero F] [Add F] {oc : OperatorCosts Op C F}
    {sp sp1 : SearchSpace Op C F} {o : NodeOp Op} (h : sp.perform oc o = .ok sp1) :
    sp1.cost_type = sp.cost_type := by
  cases o with
  | open_initial s =>
    simp only [SearchSpace.perform, bind, Except.bind] at h
    split at h
    · cases h
    · exact commit_cost_type h
  | «open» s parent op =>
    simp only [SearchSpace.perform, bind, Except.bind] at h
    split at h
    · cases h
    · split at h
      · cases h
      · exact commit_cost_type h
  | reopen s parent op =>
    simp only [SearchSpace.perform, bind, Except.bind] at h
    split at h
    · cases h
    · split at h
      · cases h
      · exact commit_cost_type h
  | update_parent s parent op =>
    simp only [SearchSpace.perform, bind, Except.bind] at h
    split at h
    · cases h
    · split at h
      · cases h
      · exact commit_cost_type h
  | close s =>
    simp only [SearchSpace.perform, bind, Except.bind] at h
    split at h
    · cases h
    · exact commit_cost_type h
  | mark_as_dead_end s =>
    simp only [SearchSpace.perform, bind, Except.bind] at h
    split at h
    · cases h
    · exact commit_cost_type h

/-- A node operation that returned, by what it did to the record of its target `s`:
it kept the links and costs (`close`, `mark_as_dead_end`), it made the record a root
(`open_initial`), or it linked it to a parent `p` by an operator (`open`, `reopen`,
`update_parent`). -/
theorem perform_summary [LinearOrder F] [Zero F] [Add F] {oc : OperatorCosts Op C F}
    {sp sp1 : SearchSpace Op C F} {o : NodeOp Op} (h : sp.perform oc o = .ok sp1) :
    (∀ id : StateID, id ≠ o.target.id → sp1.search_node_infos id = sp.search_node_infos id) ∧
    sp1.cost_type = sp.cost_type ∧
    (sp1.search_node_infos o.target.id).status ≠ NodeStatus.NEW ∧
    (((sp1.search_node_infos o.target.id).creating_operator =
          (sp.search_node_infos o.target.id).creating_operator ∧
        (sp1.search_node_infos o.target.id).parent_state_id =
          (sp.search_node_infos o.target.id).parent_state_id ∧
        (sp1.search_node_infos o.target.id).g = (sp.search_node_infos o.target.id).g ∧
        (sp1.search_node_infos o.target.id).real_g = (sp.search_node_infos o.target.id).real_g ∧
        (((sp1.search_node_infos o.target.id).status = NodeStatus.OPEN ∨
            (sp1.search_node_infos o.target.id).status = NodeStatus.CLOSED) →
          ((sp.search_node_infos o.target.id).status = NodeStatus.OPEN ∨
            (sp.search_node_infos o.target.id).status = NodeStatus.CLOSED))) ∨
      ((sp.search_node_infos o.target.id).status = NodeStatus.NEW ∧
        (sp1.search_node_infos o.target.id).creating_operator = none ∧
        (sp1.search_node_infos o.target.id).parent_state_id = StateID.no_state ∧
        (sp1.search_node_infos o.target.id).g = 0 ∧
        (sp1.search_node_infos o.target.id).real_g = 0) ∨
      (∃ (p : StateID) (op : Op),
        (sp1.search_node_infos o.target.id).creating_operator = some op ∧
        (sp1.search_node_infos o.target.id).parent_state_id = p ∧
        (sp1.search_node_infos o.target.id).g =
          (sp.search_node_infos p).g + oc.get_adjusted_action_cost op sp.cost_type ∧
        (sp1.search_node_infos o.target.id).real_g =
          (sp.search_node_infos p).real_g + oc.get_cost op ∧
        (parent_expanded sp o = true →
          ((sp.search_node_infos p).status = NodeStatus.OPEN ∨
            (sp.search_node_infos p).status = NodeStatus.CLOSED)) ∧
        (strictly_cheaper oc sp o = true →
          ((sp.search_node_infos o.target.id).status = NodeStatus.NEW ∨
            (sp.search_node_infos p).g + oc.get_adjusted_action_cost op sp.cost_type <
              (sp.search_node_infos o.target.id).g)))) := by
  obtain ⟨_, hframe, hrec⟩ := perform_record h
  refine ⟨hframe, perform_cost_type h, ?_, ?_⟩
  · cases o with
    | update_parent s parent op =>
      obtain ⟨hst, _, hr⟩ := hrec
      simp only [NodeOp.target]
      rw [hr]
      rcases hst with hst | hst <;> simp [hst]
    | open_initial s => simp only [NodeOp.target] at *; simp_all
    | «open» s parent op => simp only [NodeOp.target] at *; simp_all
    | reopen s parent op => simp only [NodeOp.target] at *; simp_all
    | close s => simp only [NodeOp.target] at *; simp_all
    | mark_as_dead_end s => simp only [NodeOp.target] at *; simp_all
  · cases o with
    | open_initial s =>
      obtain ⟨hn, hr⟩ := hrec
      right; left
      simp only [NodeOp.target]
      rw [hr]
      simp [hn]
    | «open» s parent op =>
      obtain ⟨hn, _, hr⟩ := hrec
      right; right
      refine ⟨parent.id, op, ?_⟩
      simp only [NodeOp.target]
      rw [hr]
      simp [parent_expanded, hn]
    | reopen s parent op =>
      obtain ⟨_, _, hr⟩ := hrec
      right; right
      refine ⟨parent.id, op, ?_⟩
      simp only [NodeOp.target]
      rw [hr]
      simp only [parent_expanded, strictly_cheaper, decide_eq_true_eq, true_and]
      exact ⟨fun h => h, fun h => Or.inr h⟩
    | update_parent s parent op =>
      obtain ⟨_, _, hr⟩ := hrec
      right; right
      refine ⟨parent.id, op, ?_⟩
      simp only [NodeOp.target]
      rw [hr]
      simp only [parent_expanded, strictly_cheaper, decide_eq_true_eq, true_and]
      exact ⟨fun h => h, fun h => Or.inr h⟩
    | close s =>
      obtain ⟨ho, hr⟩ := hrec
      left
      simp only [NodeOp.target]
      rw [hr]
      simp [ho]
    | mark_as_dead_end s =>
      left
      simp only [NodeOp.target]
      rw [hrec]
      simp

/-- Induction along a sequence of node operations that obey a rule. -/
theorem performs_under_induction [Zero F] [Add F] {oc : OperatorCosts Op C F}
    {rule : SearchSpace Op C F → NodeOp Op → Bool} (P : SearchSpace Op C F → Prop)
    (hstep : ∀ (sp sp1 : SearchSpace Op C F) (o : NodeOp Op),
      P sp → rule sp o = true → sp.perform oc o = .ok sp1 → P sp1)
    (ops : List (NodeOp Op)) :
    ∀ sp sp1 : SearchSpace Op C F, P sp →
      SearchSpace.performs_under oc rule sp ops = some sp1 → P sp1 := by
  induction ops with
  | nil =>
    intro sp sp1 hp h
    simp only [SearchSpace.performs_under] at h
    injection h with h
    subst h
    exact hp
  | cons o rest ih =>
    intro sp sp1 hp h
    simp only [SearchSpace.performs_under] at h
    split_ifs at h with hr
    split at h
    · rename_i sp2 h2
      exact ih sp2 sp1 (hstep sp sp2 o hp hr h2) h
    · cases h

/-- Induction along a sequence of node operations. -/
theorem performs_induction [Zero F] [Add F] {oc : OperatorCosts Op C F}
    (P : SearchSpace Op C F → Prop)
    (hstep : ∀ (sp sp1 : SearchSpace Op C F) (o : NodeOp Op),
      P sp → sp.perform oc o = .ok sp1 → P sp1)
    (ops : List (NodeOp Op)) :
    ∀ sp sp1 : SearchSpace Op C F, P sp →
      SearchSpace.performs oc sp ops = .ok sp1 → P sp1 := by
  induction ops with
  | nil =>
    intro sp sp1 hp h
    simp only [SearchSpace.performs] at h
    injection h with h
    subst h
    exact hp
  | cons o rest ih =>
    intro sp sp1 hp h
    simp only [SearchSpace.performs] at h
    split at h
    · rename_i sp2 h2
      exact ih sp2 sp1 (hstep sp sp2 o hp h2) h
    · cases h

end EngineRules

section NonnegativeCosts

variable {Op C F : Type}

/-- C18, as amended: if all adjusted operator costs and all operator costs are
non-negative, then in every search space reached from the empty one by node operations
that returned, the parents passed to `open`, `reopen` and `update_parent` being OPEN or
CLOSED, every OPEN or CLOSED record has g ≥ 0 and real_g ≥ 0, so `get_g()` returns on
it. On a record that was never opened, with the negative g of a fresh record, `get_g()`
aborts, while it is NEW and after it was marked a dead end. -/
theorem opened_records_nonnegative [LinearOrderedAddCommMonoid F]
    (oc : OperatorCosts Op C F) (cost_type : C) (g0 r0 : F) (ops : List (NodeOp Op))
    (sp : SearchSpace Op C F) (id : StateID)
    (hadj : ∀ (op : Op) (c : C), 0 ≤ oc.get_adjusted_action_cost op c)
    (hcost : ∀ op : Op, 0 ≤ oc.get_cost op)
    (hrun : SearchSpace.performs_under oc parent_expanded
      (SearchSpace.empty cost_type g0 r0) ops = some sp) :
    (((sp.search_node_infos id).status = NodeStatus.OPEN ∨
        (sp.search_node_infos id).status = NodeStatus.CLOSED) →
      0 ≤ (sp.search_node_infos id).g ∧ 0 ≤ (sp.search_node_infos id).real_g ∧
      SearchNode.get_g (⟨id, sp.search_node_infos id, sp.cost_type⟩ : SearchNode Op C F) =
        .ok (sp.search_node_infos id).g) ∧
    (g0 < 0 →
      SearchNode.get_g (⟨id, SearchNodeInfo.fresh g0 r0, cost_type⟩ : SearchNode Op C F) =
        .error Failure.assertion ∧
      SearchNode.get_g (SearchNode.mark_as_dead_end
        (⟨id, SearchNodeInfo.fresh g0 r0, cost_type⟩ : SearchNode Op C F)).after =
        .error Failure.assertion) := by
  refine ⟨fun hst => ?_, fun hneg => ?_⟩
  · have hinv : ∀ i : StateID,
        ((sp.search_node_infos i).status = NodeStatus.OPEN ∨
          (sp.search_node_infos i).status = NodeStatus.CLOSED) →
        0 ≤ (sp.search_node_infos i).g ∧ 0 ≤ (sp.search_node_infos i).real_g := by
      refine performs_under_induction
        (fun sp : SearchSpace Op C F => ∀ i : StateID,
          ((sp.search_node_infos i).status = NodeStatus.OPEN ∨
            (sp.search_node_infos i).status = NodeStatus.CLOSED) →
          0 ≤ (sp.search_node_infos i).g ∧ 0 ≤ (sp.search_node_infos i).real_g)
        ?_ ops _ sp ?_ hrun
      · intro sp0 sp1 o hp hrule hperf i hi
        obtain ⟨hframe, _, _, hcases⟩ := perform_summary hperf
        by_cases hid : i = o.target.id
        · subst hid
          rcases hcases with ⟨_, _, hg, hr, hs⟩ | ⟨_, _, _, hg, hr⟩ | ⟨p, op, _, _, hg, hr, hpe, _⟩
          · rw [hg, hr]
            exact hp _ (hs hi)
          · rw [hg, hr]
            exact ⟨le_refl _, le_refl _⟩
          · rw [hg, hr]
            obtain ⟨h1, h2⟩ := hp p (hpe hrule)
            exact ⟨add_nonneg h1 (hadj _ _), add_nonneg h2 (hcost _)⟩
        · rw [hframe i hid] at hi ⊢
          exact hp i hi
      · intro i hi
        simp [SearchSpace.empty, SearchNodeInfo.fresh] at hi
    obtain ⟨h1, h2⟩ := hinv id hst
    exact ⟨h1, h2, by simp [SearchNode.get_g, h1]⟩
  · have hn : ¬ (0 ≤ g0) := not_le.mpr hneg
    simp [SearchNode.get_g, SearchNode.mark_as_dead_end, SearchNodeInfo.fresh, hn]

/-- C18, the claim as written fails: with every operator free, opening state `1` from
state `0`, which was never opened and holds the g of a fresh record, -1, leaves state
`1` OPEN with g = -1, and `get_g()` aborts on it. -/
theorem open_from_new_parent_negative_g :
    (∀ (op : DemoOp) (c : Unit), 0 ≤ demo_free_costs.get_adjusted_action_cost op c) ∧
    (∀ op : DemoOp, 0 ≤ demo_free_costs.get_cost op) ∧
    ∃ sp : SearchSpace DemoOp Unit Int,
      SearchSpace.performs demo_free_costs (SearchSpace.empty () (-1) (-1))
        demo_ops_new_parent = .ok sp ∧
      (sp.search_node_infos ⟨1⟩).status = NodeStatus.OPEN ∧
      (sp.search_node_infos ⟨1⟩).g = -1 ∧
      (sp.search_node_infos ⟨1⟩).real_g = -1 ∧
      (sp.get_node ⟨⟨1⟩⟩ >>= SearchNode.get_g) = .error Failure.assertion :=
  ⟨fun _ _ => le_refl _, fun _ => le_refl _, _, rfl, rfl, rfl, rfl, rfl⟩

end NonnegativeCosts

/-! ## The stored g and the cost of the recorded path -/

section PathCost

variable {Op C F Permutation : Type}

/-- C11, the claim as written fails: in the small task state `1` is opened by
`set_a_dear` (g = 2), state `3` is opened from it by `set_b` (g = 3), then a cheaper way
to state `1` is found and it is reopened by `set_a` (g = 1). State `3` is OPEN, its
chain reaches the initial record, `trace_path` returns `set_a`, `set_b` with costs
1 + 1 = 2, and its stored g and real_g are still 3. -/
theorem stored_g_stale_after_reopen :
    SearchSpace.performs (demo_globals false).toOperatorCosts (SearchSpace.empty () (-1) (-1))
      demo_ops_cheaper = .ok (demo_space demo_ops_cheaper) ∧
    SearchSpace.performs_under (demo_globals false).toOperatorCosts
      (engine_rules (demo_globals false).toOperatorCosts) (SearchSpace.empty () (-1) (-1))
      demo_ops_cheaper = some (demo_space demo_ops_cheaper) ∧
    ((demo_space demo_ops_cheaper).search_node_infos ⟨3⟩).status = NodeStatus.OPEN ∧
    reaches_initial (demo_space demo_ops_cheaper) 2 ⟨⟨3⟩⟩ ∧
    trace_path (demo_globals false) (demo_space demo_ops_cheaper) 3 ⟨⟨3⟩⟩ [] =
      .ok [DemoOp.set_a, DemoOp.set_b] ∧
    [DemoOp.set_a, DemoOp.set_b].foldl
      (fun acc op => acc + (demo_globals false).get_adjusted_action_cost op ()) 0 = 2 ∧
    [DemoOp.set_a, DemoOp.set_b].foldl
      (fun acc op => acc + (demo_globals false).get_cost op) 0 = 2 ∧
    ((demo_space demo_ops_cheaper).search_node_infos ⟨3⟩).g = 3 ∧
    ((demo_space demo_ops_cheaper).search_node_infos ⟨3⟩).real_g = 3 :=
  ⟨rfl, rfl, rfl, ⟨by decide, by decide, by decide, rfl⟩, rfl, rfl, rfl, rfl, rfl⟩

end PathCost

/-! ## Parent links under the engine's rules -/

section ParentLinks

variable {Op C F : Type}

/-- Chains are read off the creating operators and parent links alone. -/
theorem reaches_initial_congr (sp sp1 : SearchSpace Op C F)
    (h : ∀ id : StateID,
      (sp1.search_node_infos id).creating_operator = (sp.search_node_infos id).creating_operator ∧
      (sp1.search_node_infos id).parent_state_id = (sp.search_node_infos id).parent_state_id) :
    ∀ (n : Nat) (x : GlobalState), reaches_initial sp n x → reaches_initial sp1 n x := by
  intro n
  induction n with
  | zero =>
    intro x hx
    exact ⟨(h x.id).1 ▸ hx.1, (h x.id).2 ▸ hx.2⟩
  | succ n ih =>
    intro x hx
    refine ⟨(h x.id).1 ▸ hx.1, ?_⟩
    rw [(h x.id).2]
    exact ih _ hx.2

/-- A chain all of whose records satisfy a property that the changed record `s` does
not have, and that passes from a record to its parent, is a chain after the change. -/
theorem reaches_initial_transfer (sp sp1 : SearchSpace Op C F) (s : StateID)
    (Q : StateID → Prop)
    (hframe : ∀ id : StateID, id ≠ s → sp1.search_node_infos id = sp.search_node_infos id)
    (hQs : ∀ id : StateID, Q id → id ≠ s)
    (hQp : ∀ (id : StateID) (op : Op), Q id →
      (sp.search_node_infos id).creating_operator = some op →
      Q (sp.search_node_infos id).parent_state_id) :
    ∀ (n : Nat) (x : GlobalState), Q x.id → reaches_initial sp n x →
      reaches_initial sp1 n x := by
  intro n
  induction n with
  | zero =>
    intro x hq hx
    have := hframe x.id (hQs _ hq)
    exact ⟨this ▸ hx.1, this ▸ hx.2⟩
  | succ n ih =>
    intro x hq hx
    have hsame := hframe x.id (hQs _ hq)
    obtain ⟨op, hop⟩ := Option.ne_none_iff_exists'.mp hx.1
    refine ⟨hsame ▸ hx.1, ?_⟩
    rw [hsame]
    exact ih _ (hQp x.id op hq hop) hx.2

/-- If only the record of `s` changed and `s` has a finite chain after the change, then
every record that had a finite chain has one. -/
theorem reaches_initial_rebuild (sp sp1 : SearchSpace Op C F) (s : StateID)
    (hframe : ∀ id : StateID, id ≠ s → sp1.search_node_infos id = sp.search_node_infos id)
    (hs : ∃ m : Nat, reaches_initial sp1 m ⟨s⟩) :
    ∀ (n : Nat) (x : GlobalState), reaches_initial sp n x →
      ∃ m : Nat, reaches_initial sp1 m x := by
  intro n
  induction n with
  | zero =>
    intro x hx
    by_cases hxs : x.id = s
    · obtain ⟨m, hm⟩ := hs
      exact ⟨m, by rw [← hxs] at hm; exact hm⟩
    · have := hframe x.id hxs
      exact ⟨0, this ▸ hx.1, this ▸ hx.2⟩
  | succ n ih =>
    intro x hx
    by_cases hxs : x.id = s
    · obtain ⟨m, hm⟩ := hs
      exact ⟨m, by rw [← hxs] at hm; exact hm⟩
    · have hsame := hframe x.id hxs
      obtain ⟨m, hm⟩ := ih _ hx.2
      refine ⟨m + 1, hsame ▸ hx.1, ?_⟩
      rw [hsame]
      exact hm

end ParentLinks

section EngineInvariant

variable {Op C F : Type}

theorem engine_invariant_empty [LinearOrder F] [Add F] (oc : OperatorCosts Op C F)
    (cost_type : C) (g0 r0 : F) :
    engine_invariant oc (SearchSpace.empty cost_type g0 r0 : SearchSpace Op C F) := by
  refine ⟨?_, ?_, ?_⟩
  · intro id op h
    simp [SearchSpace.empty, SearchNodeInfo.fresh] at h
  · intro id op h
    simp [SearchSpace.empty, SearchNodeInfo.fresh] at h
  · intro id
    exact ⟨0, by simp [reaches_initial, SearchSpace.empty, SearchNodeInfo.fresh]⟩

/-- The engine's rules keep the invariant, given non-negative adjusted costs. -/
theorem engine_invariant_step [LinearOrderedAddCommMonoid F] (oc : OperatorCosts Op C F)
    (hadj : ∀ (op : Op) (c : C), 0 ≤ oc.get_adjusted_action_cost op c)
    (sp sp1 : SearchSpace Op C F) (o : NodeOp Op)
    (hinv : engine_invariant oc sp) (hrule : engine_rules oc sp o = true)
    (hperf : sp.perform oc o = .ok sp1) : engine_invariant oc sp1 := by
  obtain ⟨hI1, hI2, hI3⟩ := hinv
  obtain ⟨hframe, hct, hnew, hcases⟩ := perform_summary hperf
  have hrule2 : parent_expanded sp o = true ∧ strictly_cheaper oc sp o = true := by
    simpa [engine_rules] using hrule
  generalize hs : o.target.id = s at *
  -- statuses never return to NEW
  have hstatus : ∀ q : StateID, (sp.search_node_infos q).status ≠ NodeStatus.NEW →
      (sp1.search_node_infos q).status ≠ NodeStatus.NEW := by
    intro q hq
    by_cases hqs : q = s
    · rw [hqs]; exact hnew
    · rw [hframe q hqs]; exact hq
  rcases hcases with ⟨hop, hpar, hg, _, _⟩ | ⟨hsnew, hop, hpar, hg, _⟩ |
      ⟨p, op, hop, hpar, hg, _, hpe, hsc⟩
  · -- links and costs kept
    have hfields : ∀ id : StateID,
        (sp1.search_node_infos id).creating_operator =
          (sp.search_node_infos id).creating_operator ∧
        (sp1.search_node_infos id).parent_state_id =
          (sp.search_node_infos id).parent_state_id ∧
        (sp1.search_node_infos id).g = (sp.search_node_infos id).g := by
      intro id
      by_cases hid : id = s
      · rw [hid]; exact ⟨hop, hpar, hg⟩
      · rw [hframe id hid]; exact ⟨rfl, rfl, rfl⟩
    refine ⟨?_, ?_, ?_⟩
    · intro id o1 h1
      rw [(hfields id).1] at h1
      rw [(hfields id).2.1, (hfields id).2.2, (hfields _).2.2, hct]
      exact hI1 id o1 h1
    · intro id o1 h1
      rw [(hfields id).1] at h1
      rw [(hfields id).2.1]
      exact hstatus _ (hI2 id o1 h1)
    · intro id
      obtain ⟨n, hn⟩ := hI3 id
      exact ⟨n, reaches_initial_congr sp sp1
        (fun i => ⟨(hfields i).1, (hfields i).2.1⟩) n _ hn⟩
  · -- the record became a root
    have hnopar : ∀ (id : StateID) (o1 : Op),
        (sp.search_node_infos id).creating_operator = some o1 →
        (sp.search_node_infos id).parent_state_id ≠ s := by
      intro id o1 h1 hc
      exact hI2 id o1 h1 (hc ▸ hsnew)
    refine ⟨?_, ?_, ?_⟩
    · intro id o1 h1
      by_cases hid : id = s
      · rw [hid, hop] at h1
        cases h1
      · rw [hframe id hid] at h1 ⊢
        rw [hframe _ (hnopar id o1 h1), hct]
        exact hI1 id o1 h1
    · intro id o1 h1
      by_cases hid : id = s
      · rw [hid, hop] at h1
        cases h1
      · rw [hframe id hid] at h1 ⊢
        exact hstatus _ (hI2 id o1 h1)
    · intro id
      obtain ⟨n, hn⟩ := hI3 id
      exact reaches_initial_rebuild sp sp1 s hframe ⟨0, hop, hpar⟩ n _ hn
  · -- the record was linked to the parent `p`
    have hpexp := hpe hrule2.1
    have hcheap := hsc hrule2.2
    have hps : p ≠ s := by
      intro hc
      rcases hcheap with h | h
      · rw [hc, h] at hpexp
        rcases hpexp with h1 | h1 <;> cases h1
      · rw [hc] at h
        exact absurd h (not_lt_of_le (le_add_of_nonneg_right (hadj _ _)))
    refine ⟨?_, ?_, ?_⟩
    · intro id o1 h1
      by_cases hid : id = s
      · rw [hid] at h1 ⊢
        rw [hop] at h1
        injection h1 with h1
        subst h1
        rw [hpar, hg, hframe p hps, hct]
      · rw [hframe id hid] at h1 ⊢
        by_cases hq : (sp.search_node_infos id).parent_state_id = s
        · rw [hq, hg, hct]
          have hold := hI1 id o1 h1
          rw [hq] at hold
          have hnotnew := hI2 id o1 h1
          rw [hq] at hnotnew
          rcases hcheap with h | h
          · exact absurd h hnotnew
          · exact le_trans (add_le_add_right (le_of_lt h) _) hold
        · rw [hframe _ hq, hct]
          exact hI1 id o1 h1
    · intro id o1 h1
      by_cases hid : id = s
      · rw [hid, hpar, hframe p hps]
        rcases hpexp with h | h <;> rw [h] <;> simp
      · rw [hframe id hid] at h1 ⊢
        exact hstatus _ (hI2 id o1 h1)
    · have hp1 : ∃ m : Nat, reaches_initial sp1 m ⟨p⟩ := by
        obtain ⟨m, hm⟩ := hI3 p
        rcases hcheap with h | h
        · refine ⟨m, reaches_initial_transfer sp sp1 s
            (fun i => (sp.search_node_infos i).status ≠ NodeStatus.NEW) hframe ?_ ?_ m _ ?_ hm⟩
          · intro i hi hc
            exact hi (hc ▸ h)
          · intro i o1 _ ho1
            exact hI2 i o1 ho1
          · show (sp.search_node_infos p).status ≠ NodeStatus.NEW
            rcases hpexp with h1 | h1 <;> rw [h1] <;> simp
        · refine ⟨m, reaches_initial_transfer sp sp1 s
            (fun i => (sp.search_node_infos i).g ≤ (sp.search_node_infos p).g) hframe ?_ ?_ m _
            ?_ hm⟩
          · intro i hi hc
            rw [hc] at hi
            exact absurd (lt_of_le_of_lt (le_add_of_nonneg_right (hadj _ _)) h)
              (not_lt_of_le hi)
          · intro i o1 hi ho1
            exact le_trans (le_trans (le_add_of_nonneg_right (hadj _ _)) (hI1 i o1 ho1)) hi
          · exact le_refl _
      have hs1 : ∃ m : Nat, reaches_initial sp1 m ⟨s⟩ := by
        obtain ⟨m, hm⟩ := hp1
        refine ⟨m + 1, by simp [hop], ?_⟩
        rw [hpar]
        exact hm
      intro id
      obtain ⟨n, hn⟩ := hI3 id
      exact reaches_initial_rebuild sp sp1 s hframe hs1 n _ hn

end EngineInvariant

section ParentLinksClaim

variable {Op C F Permutation : Type}

theorem demo_reparent_no_chain :
    ∀ n : Nat, ¬ reaches_initial (demo_space demo_ops_reparent) n ⟨⟨0⟩⟩ ∧
      ¬ reaches_initial (demo_space demo_ops_reparent) n ⟨⟨1⟩⟩ := by
  intro n
  induction n with
  | zero =>
    constructor
    · intro h
      have h1 := h.1
      have : ((demo_space demo_ops_reparent).search_node_infos ⟨0⟩).creating_operator =
          some DemoOp.set_b := rfl
      rw [this] at h1
      cases h1
    · intro h
      have h1 := h.1
      have : ((demo_space demo_ops_reparent).search_node_infos ⟨1⟩).creating_operator =
          some DemoOp.set_a := rfl
      rw [this] at h1
      cases h1
  | succ n ih =>
    constructor
    · intro h
      have h2 : reaches_initial (demo_space demo_ops_reparent) n ⟨⟨1⟩⟩ := h.2
      exact ih.2 h2
    · intro h
      have h2 : reaches_initial (demo_space demo_ops_reparent) n ⟨⟨0⟩⟩ := h.2
      exact ih.1 h2

theorem demo_reparent_out_of_fuel :
    ∀ (fuel : Nat) (path : List DemoOp),
      trace_path_loop (demo_space demo_ops_reparent) fuel ⟨⟨0⟩⟩ path =
        .error Failure.out_of_fuel ∧
      trace_path_loop (demo_space demo_ops_reparent) fuel ⟨⟨1⟩⟩ path =
        .error Failure.out_of_fuel := by
  intro fuel
  induction fuel with
  | zero => intro path; exact ⟨rfl, rfl⟩
  | succ fuel ih =>
    intro path
    have e0 : trace_path_loop (demo_space demo_ops_reparent) (fuel + 1) ⟨⟨0⟩⟩ path =
        trace_path_loop (demo_space demo_ops_reparent) fuel ⟨⟨1⟩⟩ (path ++ [DemoOp.set_b]) :=
      rfl
    have e1 : trace_path_loop (demo_space demo_ops_reparent) (fuel + 1) ⟨⟨1⟩⟩ path =
        trace_path_loop (demo_space demo_ops_reparent) fuel ⟨⟨0⟩⟩ (path ++ [DemoOp.set_a]) :=
      rfl
    rw [e0, e1]
    exact ⟨(ih _).2, (ih _).1⟩

/-- C15: if all adjusted operator costs are non-negative and the node operations obey
the engine's rules (parents passed to `open`, `reopen`, `update_parent` are OPEN or
CLOSED; `reopen` and `update_parent` only when the parent's g plus the adjusted cost is
strictly below the stored g), then in every search space reached from the empty one the
parent chain of every node, so of every OPEN or CLOSED one, reaches a record without
creating operator after finitely many links, so the loop of `trace_path` ends, with the
creating operators of the chain; and every record with a creating operator has g at
least its parent's g plus that operator's adjusted cost. Without the strictly-cheaper rule this fails:
`open_initial` on state 0, `open` of state 1 from 0, `reopen` of state 0 from 1 make the
two states each other's parent, no chain from state 0 ends, and the loop never does. -/
theorem parent_links_acyclic [DecidableEq Op] [LinearOrderedAddCommMonoid F]
    (w : Globals Op C F Permutation) (cost_type : C) (g0 r0 : F) (ops : List (NodeOp Op))
    (sp : SearchSpace Op C F) (node : GlobalState)
    (hadj : ∀ (op : Op) (c : C), 0 ≤ w.get_adjusted_action_cost op c)
    (hrun : SearchSpace.performs_under w.toOperatorCosts (engine_rules w.toOperatorCosts)
      (SearchSpace.empty cost_type g0 r0) ops = some sp) :
    (∃ n : Nat, reaches_initial sp n node ∧
      (sp.search_node_infos (chain_root sp n node).id).creating_operator = none ∧
      ∀ fuel : Nat, n < fuel →
        trace_path_loop sp fuel node [] = .ok (chain_operators sp n node).reverse ∧
        (w.g_symmetry_graph = none →
          trace_path w sp fuel node [] = .ok (chain_operators sp n node))) ∧
    (∀ (id : StateID) (op : Op), (sp.search_node_infos id).creating_operator = some op →
      (sp.search_node_infos (sp.search_node_infos id).parent_state_id).g +
        w.get_adjusted_action_cost op sp.cost_type ≤ (sp.search_node_infos id).g) ∧
    (SearchSpace.performs (demo_globals false).toOperatorCosts (SearchSpace.empty () (-1) (-1))
        demo_ops_reparent = .ok (demo_space demo_ops_reparent) ∧
      SearchSpace.performs_under (demo_globals false).toOperatorCosts
        (engine_rules (demo_globals false).toOperatorCosts) (SearchSpace.empty () (-1) (-1))
        demo_ops_reparent = none ∧
      SearchSpace.performs_under (demo_globals false).toOperatorCosts parent_expanded
        (SearchSpace.empty () (-1) (-1)) demo_ops_reparent =
        some (demo_space demo_ops_reparent) ∧
      ((demo_space demo_ops_reparent).search_node_infos ⟨0⟩).status = NodeStatus.OPEN ∧
      ((demo_space demo_ops_reparent).search_node_infos ⟨0⟩).parent_state_id = ⟨1⟩ ∧
      ((demo_space demo_ops_reparent).search_node_infos ⟨1⟩).parent_state_id = ⟨0⟩ ∧
      (∀ n : Nat, ¬ reaches_initial (demo_space demo_ops_reparent) n ⟨⟨0⟩⟩) ∧
      ∀ fuel : Nat, trace_path_loop (demo_space demo_ops_reparent) fuel ⟨⟨0⟩⟩ [] =
        .error Failure.out_of_fuel) := by
  have hinv : engine_invariant w.toOperatorCosts sp :=
    performs_under_induction (engine_invariant w.toOperatorCosts)
      (fun sp0 sp1 o hp hr hperf =>
        engine_invariant_step w.toOperatorCosts hadj sp0 sp1 o hp hr hperf)
      ops _ sp (engine_invariant_empty w.toOperatorCosts cost_type g0 r0) hrun
  obtain ⟨hI1, _, hI3⟩ := hinv
  obtain ⟨n, hn⟩ := hI3 node.id
  refine ⟨⟨n, hn, (chain_root_initial sp n node hn).1, fun fuel hf => ?_⟩, hI1,
    rfl, rfl, rfl, rfl, rfl, rfl, fun k => (demo_reparent_no_chain k).1,
    fun fuel => (demo_reparent_out_of_fuel fuel []).1⟩
  have hloop := trace_path_loop_chain sp n node [] fuel hn hf
  refine ⟨by simpa using hloop, fun hsym => ?_⟩
  simp [trace_path, hsym, hloop]

end ParentLinksClaim

/-! ## Reconstruction when no step needs a permutation -/

section NoPermutation

variable {Op C F Permutation : Type}

theorem same_values_symm [LinearOrder F] (w : Globals Op C F Permutation)
    {s t : GlobalState} (h : same_values w s t = true) : same_values w t s = true := by
  rw [same_values_iff] at *
  exact ⟨h.1.symm, h.2.symm⟩

theorem forall2_same_values_symm [LinearOrder F] (w : Globals Op C F Permutation) :
    ∀ l1 l2 : List GlobalState,
      List.Forall₂ (fun a b => same_values w a b = true) l1 l2 →
      List.Forall₂ (fun a b => same_values w a b = true) l2 l1 := by
  intro l1 l2 h
  induction h with
  | nil => exact List.Forall₂.nil
  | cons hab _ ih => exact List.Forall₂.cons (same_values_symm w hab) ih

theorem forall2_same_values_trans [LinearOrder F] (w : Globals Op C F Permutation) :
    ∀ l1 l2 l3 : List GlobalState,
      List.Forall₂ (fun a b => same_values w a b = true) l1 l2 →
      List.Forall₂ (fun a b => same_values w a b = true) l2 l3 →
      List.Forall₂ (fun a b => same_values w a b = true) l1 l3 := by
  intro l1 l2 l3 h
  induction h generalizing l3 with
  | nil => intro h2; cases h2; exact List.Forall₂.nil
  | cons hab _ ih =>
    intro h2
    cases h2 with
    | cons hbc hrest => exact List.Forall₂.cons (same_values_trans w hab hbc) (ih _ hrest)

theorem forall2_exists_of_mem {α β : Type} (r : α → β → Prop) :
    ∀ (l1 : List α) (l2 : List β), List.Forall₂ r l1 l2 →
      ∀ a ∈ l1, ∃ b, r a b := by
  intro l1 l2 h
  induction h with
  | nil => intro a ha; simp at ha
  | cons hab _ ih =>
    intro a ha
    rcases List.mem_cons.mp ha with rfl | ha
    · exact ⟨_, hab⟩
    · exact ih a ha

/-- Operators that are candidates along one trace are candidates along any trace whose
states have the same values. -/
theorem candidates_transfer [DecidableEq Op] [LinearOrder F] (w : Globals Op C F Permutation)
    (hval : respects_values w) :
    ∀ l1 l2 : List GlobalState,
      List.Forall₂ (fun a b => same_values w a b = true) l1 l2 →
      ∀ ops : List Op,
        List.Forall₂
          (fun pair op => op ∈ w.generate_applicable_ops pair.1 ∧ reproduces w pair.1 pair.2 op)
          (consecutive_pairs l2) ops →
        List.Forall₂
          (fun pair op => op ∈ w.generate_applicable_ops pair.1 ∧ reproduces w pair.1 pair.2 op)
          (consecutive_pairs l1) ops := by
  intro l1 l2 h
  induction h with
  | nil => intro ops hops; exact hops
  | cons hab hrest ih =>
    rename_i a1 a2 t1 t2
    intro ops hops
    cases hrest with
    | nil => exact hops
    | cons hb hrest2 =>
      rename_i b1 b2 u1 u2
      simp only [consecutive_pairs, List.tail_cons, List.zip_cons_cons] at hops ⊢
      cases hops with
      | cons hop hops2 =>
        rename_i op ops2
        obtain ⟨hgen, hsucc⟩ := hval a1 a2 hab
        refine List.Forall₂.cons ⟨hgen ▸ hop.1, Or.inr ?_⟩ ?_
        · exact same_values_trans w (same_values_trans w (hsucc op)
            (same_values_of_match w hop.2)) (same_values_symm w hb)
        · exact ih ops2 hops2

theorem consecutive_pairs_append (s a : GlobalState) :
    ∀ l : List GlobalState,
      consecutive_pairs ((a :: l) ++ [s]) = consecutive_pairs (a :: l) ++ [(l.getLastD a, s)] := by
  intro l
  induction l generalizing a with
  | nil => rfl
  | cons b l ih =>
    have := ih b
    simp only [consecutive_pairs, List.cons_append, List.tail_cons, List.zip_cons_cons,
      List.getLastD_cons] at this ⊢
    rw [this]

theorem chain_states_shape (sp : SearchSpace Op C F) :
    ∀ (n : Nat) (s : GlobalState),
      ∃ rest : List GlobalState,
        chain_states sp n s = chain_root sp n s :: rest ∧ rest.getLastD (chain_root sp n s) = s := by
  intro n
  induction n with
  | zero => intro s; exact ⟨[], rfl, rfl⟩
  | succ n ih =>
    intro s
    obtain ⟨rest, hr, hl⟩ := ih (lookup_state (sp.search_node_infos s.id).parent_state_id)
    refine ⟨rest ++ [s], ?_, ?_⟩
    · simp only [chain_states, chain_root, hr, List.cons_append]
    · simp [List.getLastD_eq_getLast?]

end NoPermutation

section NoPermutationChain

variable {Op C F Permutation : Type}

theorem successor_eq_some [DecidableEq Op] (w : Globals Op C F Permutation)
    {s s1 : GlobalState} {op : Op} (h : successor w s op = some s1) :
    op ∈ w.generate_applicable_ops s ∧ s1 = w.get_successor_state s op := by
  unfold successor at h
  split_ifs at h with hm
  injection h with h
  exact ⟨hm, h.symm⟩

theorem no_permutation_needed_reaches [DecidableEq Op] [LinearOrder F]
    (w : Globals Op C F Permutation) (sp : SearchSpace Op C F) :
    ∀ (n : Nat) (s : GlobalState), no_permutation_needed w sp n s → reaches_initial sp n s := by
  intro n
  induction n with
  | zero => intro s h; exact ⟨h.1, h.2.1⟩
  | succ n ih =>
    intro s h
    obtain ⟨⟨op, s1, hop, _, _⟩, hrest⟩ := h
    exact ⟨by simp [hop], ih _ hrest⟩

theorem no_permutation_needed_root [DecidableEq Op] [LinearOrder F]
    (w : Globals Op C F Permutation) (sp : SearchSpace Op C F) :
    ∀ (n : Nat) (s : GlobalState), no_permutation_needed w sp n s →
      same_values w w.g_initial_state (chain_root sp n s) = true := by
  intro n
  induction n with
  | zero => intro s h; exact same_values_of_match w h.2.2
  | succ n ih => intro s h; exact ih _ h.2

theorem step_permutation_default [LinearOrder F] (w : Globals Op C F Permutation)
    (sg : SymmetryGraph Permutation) (current_state new_state : GlobalState)
    (h : new_state.id = current_state.id ∨ same_values w new_state current_state = true) :
    step_permutation w sg current_state new_state = w.Permutation_new := by
  unfold step_permutation
  split_ifs with hc
  · rcases h with h | h
    · exact absurd h hc.1
    · exact absurd h hc.2
  · rfl

theorem chain_permutations_default [DecidableEq Op] [LinearOrder F]
    (w : Globals Op C F Permutation) (sg : SymmetryGraph Permutation)
    (sp : SearchSpace Op C F) :
    ∀ (n : Nat) (s : GlobalState), no_permutation_needed w sp n s →
      ∀ p ∈ chain_permutations w sg sp n s, p = w.Permutation_new := by
  intro n
  induction n with
  | zero =>
    intro s h p hp
    simp only [chain_permutations, List.mem_singleton] at hp
    rw [hp]
    exact step_permutation_default w sg _ _ h.2.2
  | succ n ih =>
    intro s h p hp
    obtain ⟨⟨op, s1, hop, hsucc, hmatch⟩, hrest⟩ := h
    simp only [chain_permutations, hop, List.mem_append, List.mem_singleton] at hp
    rcases hp with hp | hp
    · exact ih _ hrest p hp
    · rw [hp]
      obtain ⟨_, hs1⟩ := successor_eq_some w hsucc
      exact step_permutation_default w sg _ _ (hs1 ▸ hmatch)

theorem true_states_default [LinearOrder F] (w : Globals Op C F Permutation)
    (hid : default_permutation_is_identity w) (hreg : register_keeps_values w)
    (perms : List Permutation) :
    ∀ state_trace : List GlobalState,
      (∀ p ∈ perms, p = w.Permutation_new) → perms.length = state_trace.length →
      List.Forall₂ (fun a b => same_values w a b = true)
        (true_states w w.Permutation_new perms state_trace) state_trace := by
  induction perms with
  | nil =>
    intro st _ hl
    cases st with
    | nil => exact List.Forall₂.nil
    | cons _ _ => simp at hl
  | cons p ps ih =>
    intro st hall hl
    cases st with
    | nil => simp at hl
    | cons s ss =>
      have hp : p = w.Permutation_new := hall p (List.mem_cons_self _ _)
      subst hp
      simp only [true_states, hid.1, hid.2]
      exact List.Forall₂.cons (hreg s)
        (ih ss (fun q hq => hall q (List.mem_cons_of_mem _ hq)) (by simpa using hl))

theorem forall2_snoc {α β : Type} (r : α → β → Prop) (a : α) (b : β) (hab : r a b) :
    ∀ (l1 : List α) (l2 : List β), List.Forall₂ r l1 l2 →
      List.Forall₂ r (l1 ++ [a]) (l2 ++ [b]) := by
  intro l1 l2 h
  induction h with
  | nil => exact List.Forall₂.cons hab List.Forall₂.nil
  | cons h1 _ ih => exact List.Forall₂.cons h1 ih

/-- Along a chain on which no step needs a permutation, each creating operator is
applicable in the parent and reproduces the child. -/
theorem chain_operators_candidates [DecidableEq Op] [LinearOrder F]
    (w : Globals Op C F Permutation) (sp : SearchSpace Op C F) :
    ∀ (n : Nat) (s : GlobalState), no_permutation_needed w sp n s →
      List.Forall₂
        (fun pair op => op ∈ w.generate_applicable_ops pair.1 ∧ reproduces w pair.1 pair.2 op)
        (consecutive_pairs (chain_states sp n s)) (chain_operators sp n s) := by
  intro n
  induction n with
  | zero => intro s _; exact List.Forall₂.nil
  | succ n ih =>
    intro s h
    obtain ⟨⟨op, s1, hop, hsucc, hmatch⟩, hrest⟩ := h
    obtain ⟨rest, hr, hl⟩ :=
      chain_states_shape sp n (lookup_state (sp.search_node_infos s.id).parent_state_id)
    have ih1 := ih _ hrest
    simp only [chain_states, chain_operators, hop]
    rw [hr] at ih1 ⊢
    rw [consecutive_pairs_append, hl]
    obtain ⟨hmem, hs1⟩ := successor_eq_some w hsucc
    subst hs1
    exact forall2_snoc _ _ _ ⟨hmem, hmatch⟩ _ _ ih1

/-- When no step needs a permutation, the states of the true-state trace have the
values of the canonical states of the chain, one by one. -/
theorem true_state_trace_canonical [DecidableEq Op] [LinearOrder F]
    (w : Globals Op C F Permutation) (sg : SymmetryGraph Permutation)
    (sp : SearchSpace Op C F) (n : Nat) (goal : GlobalState)
    (hid : default_permutation_is_identity w) (hreg : register_keeps_values w)
    (hno : no_permutation_needed w sp n goal) :
    List.Forall₂ (fun a b => same_values w a b = true)
      (true_state_trace w sg sp n goal) (chain_states sp n goal) := by
  have hchain := no_permutation_needed_reaches w sp n goal hno
  have hpl := chain_permutations_length w sg sp n goal hchain
  have hsl := chain_states_length sp n goal
  have hdef := chain_permutations_default w sg sp n goal hno
  obtain ⟨rest, hr, _⟩ := chain_states_shape sp n goal
  unfold true_state_trace
  cases hp : chain_permutations w sg sp n goal with
  | nil => simp [hp] at hpl
  | cons p0 perms =>
    rw [hp] at hpl hdef
    have hp0 : p0 = w.Permutation_new := hdef p0 (List.mem_cons_self _ _)
    subst hp0
    rw [hr] at hsl ⊢
    simp only [List.tail_cons]
    exact List.Forall₂.cons (no_permutation_needed_root w sp n goal hno)
      (true_states_default w hid hreg perms rest
        (fun q hq => hdef q (List.mem_cons_of_mem _ hq))
        (by simp only [List.length_cons] at hpl hsl; omega))

end NoPermutationChain

section NoPermutationClaim

variable {Op C F Permutation : Type}

/-- C17: with a symmetry graph active, let no step of the goal's parent chain need a
permutation (`g_initial_state()` has the identifier or values of the canonical initial
state, every canonical child those of the successor of its parent under its creating
operator), let the default-constructed permutation be the identity, and let the registry
return a state's own values and the successor generator and function depend on values
only. Then `trace_path_symmetry` returns a plan, the plain loop of `trace_path` returns
the creating operators of the chain, the two plans have the same length, and executed
from `g_initial_state()` both visit states with the values of the canonical states of
the chain, one by one; and each creating operator is, at its step, applicable in the
true predecessor and reproduces the true successor, so it is among the candidates. -/
theorem symmetry_agrees_with_plain_trace [DecidableEq Op] [LinearOrder F]
    (w : Globals Op C F Permutation) (sg : SymmetryGraph Permutation)
    (sp : SearchSpace Op C F) (goal : GlobalState) (n fuel : Nat)
    (hsym : w.g_symmetry_graph = some sg)
    (hid : default_permutation_is_identity w) (hreg : register_keeps_values w)
    (hval : respects_values w)
    (hno : no_permutation_needed w sp n goal) (hfuel : n < fuel) :
    ∃ (plan_symmetry plan_plain : List Op) (visited_symmetry visited_plain : List GlobalState),
      trace_path w sp fuel goal [] = .ok plan_symmetry ∧
      trace_path { w with g_symmetry_graph := none } sp fuel goal [] = .ok plan_plain ∧
      plan_plain = chain_operators sp n goal ∧
      plan_symmetry.length = plan_plain.length ∧
      run_plan w w.g_initial_state plan_symmetry = some visited_symmetry ∧
      run_plan w w.g_initial_state plan_plain = some visited_plain ∧
      List.Forall₂ (fun a b => same_values w a b = true) visited_symmetry
        (chain_states sp n goal) ∧
      List.Forall₂ (fun a b => same_values w a b = true) visited_plain
        (chain_states sp n goal) ∧
      List.Forall₂ (fun a b => same_values w a b = true) visited_symmetry visited_plain ∧
      List.Forall₂
        (fun pair op => op ∈ w.generate_applicable_ops pair.1 ∧ reproduces w pair.1 pair.2 op)
        (consecutive_pairs (true_state_trace w sg sp n goal)) plan_plain := by
  have hchain := no_permutation_needed_reaches w sp n goal hno
  have htc := true_state_trace_canonical w sg sp n goal hid hreg hno
  have hcand := chain_operators_candidates w sp n goal hno
  have hcand_true := candidates_transfer w hval _ _ htc _ hcand
  have heq := trace_path_symmetry_eq w sg sp n fuel goal hchain hfuel
  -- the reconstruction does not stop: the creating operator is a candidate at each step
  have hnoexit : extract_path w (true_state_trace w sg sp n goal) [] ≠ .error Failure.exit := by
    intro hex
    obtain ⟨pair, hmem, hnone⟩ := (extract_path_exit_iff w _ []).mp hex
    rw [select_operator_none_iff] at hnone
    obtain ⟨op, hop1, hop2⟩ := forall2_exists_of_mem _ _ _ hcand_true pair hmem
    exact hnone op hop1 hop2
  rcases extract_path_ok_or_exit w (true_state_trace w sg sp n goal) [] with
    ⟨plan, hplan⟩ | hexit
  · obtain ⟨suffix, hps, hall⟩ := extract_path_ok w _ [] plan hplan
    simp only [List.nil_append] at hps
    subst hps
    have hall2 : List.Forall₂
        (fun pair op => op ∈ w.generate_applicable_ops pair.1 ∧ reproduces w pair.1 pair.2 op)
        (consecutive_pairs (true_state_trace w sg sp n goal)) plan :=
      hall.imp (fun _ _ h => select_operator_reproduces w _ _ _ h)
    obtain ⟨rest, htr, _, _⟩ := true_state_trace_shape w sg sp n goal hchain
    obtain ⟨crest, hcs, _⟩ := chain_states_shape sp n goal
    have hroot := no_permutation_needed_root w sp n goal hno
    rw [htr] at hall2
    obtain ⟨vs, hvs, hvs2⟩ :=
      run_plan_follows w hval rest w.g_initial_state plan w.g_initial_state hall2
        (same_values_refl w _)
    rw [hcs] at hcand
    obtain ⟨vp, hvp, hvp2⟩ :=
      run_plan_follows w hval crest (chain_root sp n goal) (chain_operators sp n goal)
        w.g_initial_state hcand hroot
    rw [← htr] at hvs2
    rw [← hcs] at hvp2
    have hvs3 := forall2_same_values_trans w _ _ _ hvs2 htc
    refine ⟨plan, chain_operators sp n goal, vs, vp, ?_, ?_, rfl, ?_, hvs, hvp, hvs3, hvp2,
      forall2_same_values_trans w _ _ _ hvs3 (forall2_same_values_symm w _ _ hvp2),
      hcand_true⟩
    · simp only [trace_path, hsym]
      rw [heq]
      exact hplan
    · simp [trace_path, trace_path_loop_chain sp n goal [] fuel hchain hfuel]
    · have h1 := hall.length_eq
      have h2 := hcand_true.length_eq
      omega
  · exact absurd hexit hnoexit

end NoPermutationClaim

/-! ## The later theorems at concrete inputs -/

section LaterInstances

theorem demo_cost_nonneg (op : DemoOp) : 0 ≤ demo_cost op := by
  cases op <;> decide

theorem demo_default_permutation_is_identity (symmetry : Bool) :
    default_permutation_is_identity (demo_globals symmetry) :=
  ⟨rfl, fun _ _ => rfl⟩

theorem demo_register_keeps_values (symmetry : Bool) :
    register_keeps_values (demo_globals symmetry) := by
  intro s
  rw [same_values_iff]
  refine ⟨?_, rfl⟩
  show demo_values (demo_register (demo_values s)) = demo_values s
  unfold demo_values
  split_ifs <;> simp_all [demo_register]

/-- C12 at the small task: for the canonical goal `(1, 1)` recorded as reached from
`(0, 0)` by `set_a` the reconstruction stops with `exit(1)`, and there is a pair of true
states for which no applicable operator reproduces the second. -/
theorem reconstruction_exit_iff_witness :
    reaches_initial (demo_space demo_ops_inconsistent) 1 ⟨⟨3⟩⟩ ∧
    trace_path_symmetry (demo_globals true) ⟨fun _ _ => true⟩
      (demo_space demo_ops_inconsistent) 2 ⟨⟨3⟩⟩ [] = .error Failure.exit ∧
    ∃ pair ∈ consecutive_pairs (true_state_trace (demo_globals true) ⟨fun _ _ => true⟩
        (demo_space demo_ops_inconsistent) 1 ⟨⟨3⟩⟩),
      ∀ op ∈ (demo_globals true).generate_applicable_ops pair.1,
        ¬ reproduces (demo_globals true) pair.1 pair.2 op :=
  ⟨⟨by decide, by decide, rfl⟩, rfl,
    (reconstruction_exit_iff (demo_globals true) ⟨fun _ _ => true⟩
      (demo_space demo_ops_inconsistent) ⟨⟨3⟩⟩ 1 2 ⟨by decide, by decide, rfl⟩
      (by decide)).1.mp rfl⟩

/-- C13 at the small task with symmetry: element 1 of the true-state trace. -/
theorem true_state_trace_elements_witness :
    reaches_initial (demo_space demo_ops_symmetry) 1 ⟨⟨2⟩⟩ ∧
    ∃ s_i : GlobalState, (chain_states (demo_space demo_ops_symmetry) 1 ⟨⟨2⟩⟩)[1]? = some s_i ∧
      (true_state_trace (demo_globals true) ⟨fun _ _ => true⟩ (demo_space demo_ops_symmetry) 1
        ⟨⟨2⟩⟩)[1]? =
        some (permuted_state (demo_globals true)
          (accumulated_upto (demo_globals true)
            (chain_permutations (demo_globals true) ⟨fun _ _ => true⟩
              (demo_space demo_ops_symmetry) 1 ⟨⟨2⟩⟩) 1) s_i) :=
  ⟨⟨by decide, by decide, rfl⟩,
    (true_state_trace_elements (demo_globals true) ⟨fun _ _ => true⟩
      (demo_space demo_ops_symmetry) ⟨⟨2⟩⟩ 1 2 ⟨by decide, by decide, rfl⟩
      (by decide)).2.2.2.2.2.2.2 1 (by decide) (by decide)⟩

/-- C15 at the small task: the node operations of `demo_ops_cheaper` obey the engine's
rules, and the chain of state `3` ends. -/
theorem parent_links_acyclic_witness :
    SearchSpace.performs_under (demo_globals false).toOperatorCosts
      (engine_rules (demo_globals false).toOperatorCosts) (SearchSpace.empty () (-1) (-1))
      demo_ops_cheaper = some (demo_space demo_ops_cheaper) ∧
    ∃ n : Nat, reaches_initial (demo_space demo_ops_cheaper) n ⟨⟨3⟩⟩ ∧
      ((demo_space demo_ops_cheaper).search_node_infos
        (chain_root (demo_space demo_ops_cheaper) n ⟨⟨3⟩⟩).id).creating_operator = none ∧
      ∀ fuel : Nat, n < fuel →
        trace_path_loop (demo_space demo_ops_cheaper) fuel ⟨⟨3⟩⟩ [] =
          .ok (chain_operators (demo_space demo_ops_cheaper) n ⟨⟨3⟩⟩).reverse ∧
        ((demo_globals false).g_symmetry_graph = none →
          trace_path (demo_globals false) (demo_space demo_ops_cheaper) fuel ⟨⟨3⟩⟩ [] =
            .ok (chain_operators (demo_space demo_ops_cheaper) n ⟨⟨3⟩⟩)) :=
  ⟨rfl,
    (parent_links_acyclic (demo_globals false) () (-1) (-1) demo_ops_cheaper
      (demo_space demo_ops_cheaper) ⟨⟨3⟩⟩ (fun op _ => demo_cost_nonneg op) rfl).1⟩

/-- C16 at the small task with symmetry: the plan returned for the canonical goal
`(0, 1)`. -/
theorem symmetry_plan_follows_true_trace_witness :
    reaches_initial (demo_space demo_ops_symmetry) 1 ⟨⟨2⟩⟩ ∧
    trace_path_symmetry (demo_globals true) ⟨fun _ _ => true⟩ (demo_space demo_ops_symmetry) 2
      ⟨⟨2⟩⟩ [] = .ok [DemoOp.set_a_dear] ∧
    [DemoOp.set_a_dear].length = 1 ∧
    List.Forall₂
      (fun pair op => op ∈ (demo_globals true).generate_applicable_ops pair.1 ∧
        reproduces (demo_globals true) pair.1 pair.2 op)
      (consecutive_pairs (true_state_trace (demo_globals true) ⟨fun _ _ => true⟩
        (demo_space demo_ops_symmetry) 1 ⟨⟨2⟩⟩)) [DemoOp.set_a_dear] :=
  ⟨⟨by decide, by decide, rfl⟩, rfl,
    (symmetry_plan_follows_true_trace (demo_globals true) ⟨fun _ _ => true⟩
      (demo_space demo_ops_symmetry) ⟨⟨2⟩⟩ 1 2 [DemoOp.set_a_dear]
      ⟨by decide, by decide, rfl⟩ (by decide) (by rfl)).1,
    (symmetry_plan_follows_true_trace (demo_globals true) ⟨fun _ _ => true⟩
      (demo_space demo_ops_symmetry) ⟨⟨2⟩⟩ 1 2 [DemoOp.set_a_dear]
      ⟨by decide, by decide, rfl⟩ (by decide) (by rfl)).2.1⟩

/-- C18, as amended, at the small task: state `1` after `demo_ops_plain`, and a fresh
record with g = -1. -/
theorem opened_records_nonnegative_witness :
    SearchSpace.performs_under (demo_globals false).toOperatorCosts parent_expanded
      (SearchSpace.empty () (-1) (-1)) demo_ops_plain = some (demo_space demo_ops_plain) ∧
    ((demo_space demo_ops_plain).search_node_infos ⟨1⟩).status = NodeStatus.OPEN ∧
    (0 ≤ ((demo_space demo_ops_plain).search_node_infos ⟨1⟩).g ∧
      0 ≤ ((demo_space demo_ops_plain).search_node_infos ⟨1⟩).real_g ∧
      SearchNode.get_g (⟨⟨1⟩, (demo_space demo_ops_plain).search_node_infos ⟨1⟩,
        (demo_space demo_ops_plain).cost_type⟩ : SearchNode DemoOp Unit Int) =
        .ok ((demo_space demo_ops_plain).search_node_infos ⟨1⟩).g) ∧
    SearchNode.get_g (⟨⟨1⟩, SearchNodeInfo.fresh (-1) (-1), ()⟩ : SearchNode DemoOp Unit Int) =
      .error Failure.assertion :=
  ⟨rfl, rfl,
    (opened_records_nonnegative (demo_globals false).toOperatorCosts () (-1) (-1)
      demo_ops_plain (demo_space demo_ops_plain) ⟨1⟩ (fun op _ => demo_cost_nonneg op)
      demo_cost_nonneg rfl).1 (Or.inl rfl),
    ((opened_records_nonnegative (demo_globals false).toOperatorCosts () (-1) (-1)
      demo_ops_plain (demo_space demo_ops_plain) ⟨1⟩ (fun op _ => demo_cost_nonneg op)
      demo_cost_nonneg rfl).2 (by decide)).1⟩

end LaterInstances

section LaterInstancesNoPermutation

/-- C17 at the small task: with the symmetry graph configured, the search space of
`demo_ops_plain` records state `1` as what `set_a` gives from the initial state, so no
step needs a permutation; the plain loop returns `set_a`, the reconstruction returns
`set_a_dear`, and both lead through `(0, 0)`, `(1, 0)`. -/
theorem symmetry_agrees_with_plain_trace_witness :
    no_permutation_needed (demo_globals true) (demo_space demo_ops_plain) 1 ⟨⟨1⟩⟩ ∧
    trace_path (demo_globals true) (demo_space demo_ops_plain) 2 ⟨⟨1⟩⟩ [] =
      .ok [DemoOp.set_a_dear] ∧
    ∃ (plan_symmetry plan_plain : List DemoOp)
      (visited_symmetry visited_plain : List GlobalState),
      trace_path (demo_globals true) (demo_space demo_ops_plain) 2 ⟨⟨1⟩⟩ [] =
        .ok plan_symmetry ∧
      trace_path { demo_globals true with g_symmetry_graph := none }
        (demo_space demo_ops_plain) 2 ⟨⟨1⟩⟩ [] = .ok plan_plain ∧
      plan_plain = chain_operators (demo_space demo_ops_plain) 1 ⟨⟨1⟩⟩ ∧
      plan_symmetry.length = plan_plain.length ∧
      run_plan (demo_globals true) (demo_globals true).g_initial_state plan_symmetry =
        some visited_symmetry ∧
      run_plan (demo_globals true) (demo_globals true).g_initial_state plan_plain =
        some visited_plain ∧
      List.Forall₂ (fun a b => same_values (demo_globals true) a b = true) visited_symmetry
        (chain_states (demo_space demo_ops_plain) 1 ⟨⟨1⟩⟩) ∧
      List.Forall₂ (fun a b => same_values (demo_globals true) a b = true) visited_plain
        (chain_states (demo_space demo_ops_plain) 1 ⟨⟨1⟩⟩) ∧
      List.Forall₂ (fun a b => same_values (demo_globals true) a b = true) visited_symmetry
        visited_plain ∧
      List.Forall₂
        (fun pair op => op ∈ (demo_globals true).generate_applicable_ops pair.1 ∧
          reproduces (demo_globals true) pair.1 pair.2 op)
        (consecutive_pairs (true_state_trace (demo_globals true) ⟨fun _ _ => true⟩
          (demo_space demo_ops_plain) 1 ⟨⟨1⟩⟩)) plan_plain :=
  ⟨⟨⟨DemoOp.set_a, ⟨⟨1⟩⟩, rfl, rfl, Or.inl rfl⟩, rfl, rfl, Or.inl rfl⟩, rfl,
    symmetry_agrees_with_plain_trace (demo_globals true) ⟨fun _ _ => true⟩
      (demo_space demo_ops_plain) ⟨⟨1⟩⟩ 1 2 rfl (demo_default_permutation_is_identity true)
      (demo_register_keeps_values true) (demo_respects_values true)
      ⟨⟨DemoOp.set_a, ⟨⟨1⟩⟩, rfl, rfl, Or.inl rfl⟩, rfl, rfl, Or.inl rfl⟩ (by decide)⟩

end LaterInstancesNoPermutation

/-! ## The stored g against the cost of the recorded path -/

section PathCostBound

variable {Op C F : Type}

theorem parent_expanded_of_engine_rules [LinearOrder F] [Add F] (oc : OperatorCosts Op C F)
    (sp : SearchSpace Op C F) (o : NodeOp Op) (h : engine_rules oc sp o = true) :
    parent_expanded sp o = true := by
  simp only [engine_rules, Bool.and_eq_true] at h
  exact h.1

theorem parent_expanded_of_links_once (sp : SearchSpace Op C F) (o : NodeOp Op)
    (h : links_once sp o = true) : parent_expanded sp o = true := by
  cases o <;> simp_all [links_once, parent_expanded]

theorem roots_invariant_empty [Zero F] (cost_type : C) (g0 r0 : F) :
    roots_invariant (SearchSpace.empty cost_type g0 r0 : SearchSpace Op C F) := by
  refine ⟨?_, ?_, ?_⟩
  · intro id op h
    simp [SearchSpace.empty, SearchNodeInfo.fresh] at h
  · intro id h
    simp [SearchSpace.empty, SearchNodeInfo.fresh] at h
  · intro id op h
    simp [SearchSpace.empty, SearchNodeInfo.fresh] at h

/-- A node operation whose parent, if it has one, is OPEN or CLOSED keeps
`roots_invariant`. -/
theorem roots_invariant_step [LinearOrder F] [Zero F] [Add F] (oc : OperatorCosts Op C F)
    (sp sp1 : SearchSpace Op C F) (o : NodeOp Op)
    (hinv : roots_invariant sp) (hrule : parent_expanded sp o = true)
    (hperf : sp.perform oc o = .ok sp1) : roots_invariant sp1 := by
  obtain ⟨hI2, hZ1, hZ2⟩ := hinv
  obtain ⟨hframe, _, hnew, hcases⟩ := perform_summary hperf
  generalize hs : o.target.id = s at *
  have hstatus : ∀ q : StateID, (sp.search_node_infos q).status ≠ NodeStatus.NEW →
      (sp1.search_node_infos q).status ≠ NodeStatus.NEW := by
    intro q hq
    by_cases hqs : q = s
    · rw [hqs]; exact hnew
    · rw [hframe q hqs]; exact hq
  rcases hcases with ⟨hop, hpar, hg, hr, hkeep⟩ | ⟨hsnew, hop, hpar, hg, hr⟩ |
      ⟨p, op, hop, hpar, _, _, hpe, _⟩
  · -- links and costs kept
    have hfields : ∀ id : StateID,
        (sp1.search_node_infos id).creating_operator =
          (sp.search_node_infos id).creating_operator ∧
        (sp1.search_node_infos id).parent_state_id =
          (sp.search_node_infos id).parent_state_id ∧
        (sp1.search_node_infos id).g = (sp.search_node_infos id).g ∧
        (sp1.search_node_infos id).real_g = (sp.search_node_infos id).real_g := by
      intro id
      by_cases hid : id = s
      · rw [hid]; exact ⟨hop, hpar, hg, hr⟩
      · rw [hframe id hid]; exact ⟨rfl, rfl, rfl, rfl⟩
    refine ⟨?_, ?_, ?_⟩
    · intro id o1 h1
      rw [(hfields id).1] at h1
      rw [(hfields id).2.1]
      exact hstatus _ (hI2 id o1 h1)
    · intro id hst hnone
      rw [(hfields id).1] at hnone
      rw [(hfields id).2.2.1, (hfields id).2.2.2]
      by_cases hid : id = s
      · rw [hid] at hst hnone ⊢
        exact hZ1 s (hkeep hst) hnone
      · rw [hframe id hid] at hst
        exact hZ1 id hst hnone
    · intro id o1 h1 hnone
      rw [(hfields id).1] at h1
      rw [(hfields id).2.1] at hnone ⊢
      rw [(hfields _).1] at hnone
      rw [(hfields _).2.2.1, (hfields _).2.2.2]
      exact hZ2 id o1 h1 hnone
  · -- the record became a root; it was NEW, so it is nobody's parent
    have hnopar : ∀ (id : StateID) (o1 : Op),
        (sp.search_node_infos id).creating_operator = some o1 →
        (sp.search_node_infos id).parent_state_id ≠ s := by
      intro id o1 h1 hc
      exact hI2 id o1 h1 (hc ▸ hsnew)
    refine ⟨?_, ?_, ?_⟩
    · intro id o1 h1
      by_cases hid : id = s
      · rw [hid, hop] at h1
        cases h1
      · rw [hframe id hid] at h1 ⊢
        exact hstatus _ (hI2 id o1 h1)
    · intro id hst hnone
      by_cases hid : id = s
      · rw [hid]; exact ⟨hg, hr⟩
      · rw [hframe id hid] at hst hnone ⊢
        exact hZ1 id hst hnone
    · intro id o1 h1 hnone
      by_cases hid : id = s
      · rw [hid, hop] at h1
        cases h1
      · rw [hframe id hid] at h1 hnone ⊢
        rw [hframe _ (hnopar id o1 h1)] at hnone ⊢
        exact hZ2 id o1 h1 hnone
  · -- the record was linked to the parent `p`, which is OPEN or CLOSED
    have hpexp := hpe hrule
    refine ⟨?_, ?_, ?_⟩
    · intro id o1 h1
      by_cases hid : id = s
      · rw [hid, hpar]
        exact hstatus p (by rcases hpexp with h | h <;> rw [h] <;> simp)
      · rw [hframe id hid] at h1 ⊢
        exact hstatus _ (hI2 id o1 h1)
    · intro id hst hnone
      by_cases hid : id = s
      · rw [hid, hop] at hnone
        cases hnone
      · rw [hframe id hid] at hst hnone ⊢
        exact hZ1 id hst hnone
    · intro id o1 h1 hnone
      by_cases hid : id = s
      · rw [hid, hpar] at hnone ⊢
        by_cases hps : p = s
        · rw [hps, hop] at hnone
          cases hnone
        · rw [hframe p hps] at hnone ⊢
          exact hZ1 p hpexp hnone
      · rw [hframe id hid] at h1 hnone ⊢
        by_cases hq : (sp.search_node_infos id).parent_state_id = s
        · rw [hq, hop] at hnone
          cases hnone
        · rw [hframe _ hq] at hnone ⊢
          exact hZ2 id o1 h1 hnone

end PathCostBound

section LinkedOnce

variable {Op C F : Type}

/-- Under `links_once` a node operation that returned was invoked on a NEW record or
left the links and costs of its target as they were. -/
theorem perform_links_once [Zero F] [Add F] {oc : OperatorCosts Op C F}
    {sp sp1 : SearchSpace Op C F} {o : NodeOp Op} (h : sp.perform oc o = .ok sp1)
    (hrule : links_once sp o = true) :
    (sp.search_node_infos o.target.id).status = NodeStatus.NEW ∨
      ((sp1.search_node_infos o.target.id).creating_operator =
          (sp.search_node_infos o.target.id).creating_operator ∧
        (sp1.search_node_infos o.target.id).parent_state_id =
          (sp.search_node_infos o.target.id).parent_state_id ∧
        (sp1.search_node_infos o.target.id).g = (sp.search_node_infos o.target.id).g ∧
        (sp1.search_node_infos o.target.id).real_g =
          (sp.search_node_infos o.target.id).real_g) := by
  obtain ⟨_, _, hrec⟩ := perform_record h
  cases o with
  | open_initial s => exact Or.inl hrec.1
  | «open» s parent op => exact Or.inl hrec.1
  | reopen s parent op => simp [links_once] at hrule
  | update_parent s parent op => simp [links_once] at hrule
  | close s =>
    right
    simp only [NodeOp.target]
    rw [hrec.2]
    exact ⟨rfl, rfl, rfl, rfl⟩
  | mark_as_dead_end s =>
    right
    simp only [NodeOp.target]
    rw [hrec]
    exact ⟨rfl, rfl, rfl, rfl⟩

theorem once_invariant_empty [Add F] (oc : OperatorCosts Op C F) (cost_type : C) (g0 r0 : F) :
    once_invariant oc (SearchSpace.empty cost_type g0 r0 : SearchSpace Op C F) := by
  refine ⟨?_, ?_⟩
  · intro id op h
    simp [SearchSpace.empty, SearchNodeInfo.fresh] at h
  · intro id
    exact ⟨0, by simp [reaches_initial, SearchSpace.empty, SearchNodeInfo.fresh]⟩

/-- A node operation that obeys `links_once` keeps `once_invariant`. -/
theorem once_invariant_step [LinearOrder F] [Zero F] [Add F] (oc : OperatorCosts Op C F)
    (sp sp1 : SearchSpace Op C F) (o : NodeOp Op)
    (hroots : roots_invariant sp) (hinv : once_invariant oc sp)
    (hrule : links_once sp o = true) (hperf : sp.perform oc o = .ok sp1) :
    once_invariant oc sp1 := by
  obtain ⟨hI2, _, _⟩ := hroots
  obtain ⟨hL, hI3⟩ := hinv
  obtain ⟨hframe, hct, _, hcases⟩ := perform_summary hperf
  have honce := perform_links_once hperf hrule
  have hpe0 := parent_expanded_of_links_once sp o hrule
  generalize hs : o.target.id = s at *
  -- either the links and costs of `s` are kept, or `s` was NEW
  have hkept : ((sp1.search_node_infos s).creating_operator =
        (sp.search_node_infos s).creating_operator ∧
      (sp1.search_node_infos s).parent_state_id = (sp.search_node_infos s).parent_state_id ∧
      (sp1.search_node_infos s).g = (sp.search_node_infos s).g ∧
      (sp1.search_node_infos s).real_g = (sp.search_node_infos s).real_g) →
      once_invariant oc sp1 := by
    rintro ⟨hop, hpar, hg, hr⟩
    have hfields : ∀ id : StateID,
        (sp1.search_node_infos id).creating_operator =
          (sp.search_node_infos id).creating_operator ∧
        (sp1.search_node_infos id).parent_state_id =
          (sp.search_node_infos id).parent_state_id ∧
        (sp1.search_node_infos id).g = (sp.search_node_infos id).g ∧
        (sp1.search_node_infos id).real_g = (sp.search_node_infos id).real_g := by
      intro id
      by_cases hid : id = s
      · rw [hid]; exact ⟨hop, hpar, hg, hr⟩
      · rw [hframe id hid]; exact ⟨rfl, rfl, rfl, rfl⟩
    refine ⟨?_, ?_⟩
    · intro id o1 h1
      rw [(hfields id).1] at h1
      rw [(hfields id).2.1, (hfields id).2.2.1, (hfields id).2.2.2, (hfields _).2.2.1,
        (hfields _).2.2.2, hct]
      exact hL id o1 h1
    · intro id
      obtain ⟨n, hn⟩ := hI3 id
      exact ⟨n, reaches_initial_congr sp sp1
        (fun i => ⟨(hfields i).1, (hfields i).2.1⟩) n _ hn⟩
  rcases honce with hsnew | hsame
  · -- `s` was NEW, so it is nobody's parent
    have hnopar : ∀ (id : StateID) (o1 : Op),
        (sp.search_node_infos id).creating_operator = some o1 →
        (sp.search_node_infos id).parent_state_id ≠ s := by
      intro id o1 h1 hc
      exact hI2 id o1 h1 (hc ▸ hsnew)
    have hothers : ∀ (id : StateID) (o1 : Op), id ≠ s →
        (sp1.search_node_infos id).creating_operator = some o1 →
        (sp1.search_node_infos id).g =
          (sp1.search_node_infos (sp1.search_node_infos id).parent_state_id).g +
            oc.get_adjusted_action_cost o1 sp1.cost_type ∧
        (sp1.search_node_infos id).real_g =
          (sp1.search_node_infos (sp1.search_node_infos id).parent_state_id).real_g +
            oc.get_cost o1 := by
      intro id o1 hid h1
      rw [hframe id hid] at h1 ⊢
      rw [hframe _ (hnopar id o1 h1), hct]
      exact hL id o1 h1
    rcases hcases with ⟨hop, hpar, hg, hr, _⟩ | ⟨_, hop, hpar, _, _⟩ |
        ⟨p, op, hop, hpar, hg, hr, hpe, _⟩
    · exact hkept ⟨hop, hpar, hg, hr⟩
    · refine ⟨?_, ?_⟩
      · intro id o1 h1
        by_cases hid : id = s
        · rw [hid, hop] at h1
          cases h1
        · exact hothers id o1 hid h1
      · intro id
        obtain ⟨n, hn⟩ := hI3 id
        exact reaches_initial_rebuild sp sp1 s hframe ⟨0, hop, hpar⟩ n _ hn
    · have hpexp := hpe hpe0
      have hps : p ≠ s := by
        intro hc
        rw [hc, hsnew] at hpexp
        rcases hpexp with h1 | h1 <;> cases h1
      refine ⟨?_, ?_⟩
      · intro id o1 h1
        by_cases hid : id = s
        · rw [hid] at h1 ⊢
          rw [hop] at h1
          injection h1 with h1
          subst h1
          rw [hpar, hg, hr, hframe p hps, hct]
          exact ⟨rfl, rfl⟩
        · exact hothers id o1 hid h1
      · have hp1 : ∃ m : Nat, reaches_initial sp1 m ⟨p⟩ := by
          obtain ⟨m, hm⟩ := hI3 p
          refine ⟨m, reaches_initial_transfer sp sp1 s
            (fun i => (sp.search_node_infos i).status ≠ NodeStatus.NEW) hframe ?_ ?_ m _ ?_ hm⟩
          · intro i hi hc
            exact hi (hc ▸ hsnew)
          · intro i o1 _ ho1
            exact hI2 i o1 ho1
          · show (sp.search_node_infos p).status ≠ NodeStatus.NEW
            rcases hpexp with h1 | h1 <;> rw [h1] <;> simp
        have hs1 : ∃ m : Nat, reaches_initial sp1 m ⟨s⟩ := by
          obtain ⟨m, hm⟩ := hp1
          refine ⟨m + 1, by simp [hop], ?_⟩
          rw [hpar]
          exact hm
        intro id
        obtain ⟨n, hn⟩ := hI3 id
        exact reaches_initial_rebuild sp sp1 s hframe hs1 n _ hn
  · exact hkept hsame

/-- Along a finite chain on which every stored g is at least the parent's g plus the
adjusted cost, the adjusted costs of the creating operators, summed from 0 in path
order, do not exceed the stored g. -/
theorem path_cost_le [LinearOrderedAddCommMonoid F] (oc : OperatorCosts Op C F)
    (sp : SearchSpace Op C F)
    (hI1 : ∀ (id : StateID) (op : Op), (sp.search_node_infos id).creating_operator = some op →
      (sp.search_node_infos (sp.search_node_infos id).parent_state_id).g +
        oc.get_adjusted_action_cost op sp.cost_type ≤ (sp.search_node_infos id).g)
    (hroots : roots_invariant sp) :
    ∀ (n : Nat) (s : GlobalState), reaches_initial sp n s →
      ((sp.search_node_infos s.id).creating_operator = none →
        (sp.search_node_infos s.id).g = 0) →
      (chain_operators sp n s).foldl
        (fun acc op => acc + oc.get_adjusted_action_cost op sp.cost_type) 0 ≤
        (sp.search_node_infos s.id).g := by
  intro n
  induction n with
  | zero =>
    intro s h hz
    simp only [chain_operators, List.foldl_nil]
    exact le_of_eq (hz h.1).symm
  | succ n ih =>
    intro s h _
    obtain ⟨op, hop⟩ := Option.ne_none_iff_exists'.mp h.1
    have hp := ih _ h.2 (fun hnone => (hroots.2.2 s.id op hop hnone).1)
    simp only [chain_operators, hop, List.foldl_append, List.foldl_cons, List.foldl_nil]
    exact le_trans (add_le_add_right hp _) (hI1 s.id op hop)

/-- Along a finite chain on which every stored g and real_g is the parent's plus the
cost of the creating operator, the stored g and real_g are the costs of the creating
operators summed from 0 in path order. -/
theorem path_cost_eq [Zero F] [Add F] (oc : OperatorCosts Op C F) (sp : SearchSpace Op C F)
    (hL : ∀ (id : StateID) (op : Op), (sp.search_node_infos id).creating_operator = some op →
      (sp.search_node_infos id).g =
        (sp.search_node_infos (sp.search_node_infos id).parent_state_id).g +
          oc.get_adjusted_action_cost op sp.cost_type ∧
      (sp.search_node_infos id).real_g =
        (sp.search_node_infos (sp.search_node_infos id).parent_state_id).real_g +
          oc.get_cost op)
    (hroots : roots_invariant sp) :
    ∀ (n : Nat) (s : GlobalState), reaches_initial sp n s →
      ((sp.search_node_infos s.id).creating_operator = none →
        (sp.search_node_infos s.id).g = 0 ∧ (sp.search_node_infos s.id).real_g = 0) →
      (sp.search_node_infos s.id).g =
        (chain_operators sp n s).foldl
          (fun acc op => acc + oc.get_adjusted_action_cost op sp.cost_type) 0 ∧
      (sp.search_node_infos s.id).real_g =
        (chain_operators sp n s).foldl (fun acc op => acc + oc.get_cost op) 0 := by
  intro n
  induction n with
  | zero =>
    intro s h hz
    simpa [chain_operators] using hz h.1
  | succ n ih =>
    intro s h _
    obtain ⟨op, hop⟩ := Option.ne_none_iff_exists'.mp h.1
    obtain ⟨ihg, ihr⟩ := ih _ h.2 (fun hnone => hroots.2.2 s.id op hop hnone)
    simp only [chain_operators, hop, List.foldl_append, List.foldl_cons, List.foldl_nil]
    rw [← ihg, ← ihr]
    exact hL s.id op hop

end LinkedOnce

section PathCostClaim

variable {Op C F Permutation : Type}

/-- C11, as amended: without a symmetry graph, for an OPEN or CLOSED node of a search
space reached from the empty one. (a) If all adjusted operator costs are non-negative
and the node operations obey the engine's rules (parents OPEN or CLOSED, `reopen` and
`update_parent` only when strictly cheaper), the node's parent chain reaches the initial
record, `trace_path` returns its creating operators, and the sum of their adjusted
costs, taken from 0 in path order, is at most the node's stored g. (b) If no record was
linked twice (`reopen` and `update_parent` not used, parents of `open` OPEN or CLOSED),
the node's g equals that sum and its real_g equals the sum of the operators' costs. -/
theorem stored_g_bounds_path_cost [DecidableEq Op] [LinearOrderedAddCommMonoid F]
    (w : Globals Op C F Permutation) (cost_type : C) (g0 r0 : F) (ops : List (NodeOp Op))
    (sp : SearchSpace Op C F) (node : GlobalState)
    (hsym : w.g_symmetry_graph = none)
    (hst : (sp.search_node_infos node.id).status = NodeStatus.OPEN ∨
      (sp.search_node_infos node.id).status = NodeStatus.CLOSED) :
    (((∀ (op : Op) (c : C), 0 ≤ w.get_adjusted_action_cost op c) ∧
        SearchSpace.performs_under w.toOperatorCosts (engine_rules w.toOperatorCosts)
          (SearchSpace.empty cost_type g0 r0) ops = some sp) →
      ∃ n : Nat, reaches_initial sp n node ∧
        ∀ fuel : Nat, n < fuel →
          ∃ plan : List Op, trace_path w sp fuel node [] = .ok plan ∧ plan.length = n ∧
            plan.foldl (fun acc op => acc + w.get_adjusted_action_cost op sp.cost_type) 0 ≤
              (sp.search_node_infos node.id).g) ∧
    (SearchSpace.performs_under w.toOperatorCosts links_once
        (SearchSpace.empty cost_type g0 r0) ops = some sp →
      ∃ n : Nat, reaches_initial sp n node ∧
        ∀ fuel : Nat, n < fuel →
          ∃ plan : List Op, trace_path w sp fuel node [] = .ok plan ∧ plan.length = n ∧
            (sp.search_node_infos node.id).g =
              plan.foldl (fun acc op => acc + w.get_adjusted_action_cost op sp.cost_type) 0 ∧
            (sp.search_node_infos node.id).real_g =
              plan.foldl (fun acc op => acc + w.get_cost op) 0) := by
  refine ⟨fun h => ?_, fun hrun => ?_⟩
  · obtain ⟨hadj, hrun⟩ := h
    have hinv : engine_invariant w.toOperatorCosts sp ∧ roots_invariant sp :=
      performs_under_induction
        (fun sp0 : SearchSpace Op C F =>
          engine_invariant w.toOperatorCosts sp0 ∧ roots_invariant sp0)
        (fun sp0 sp1 o hp hr hperf =>
          ⟨engine_invariant_step w.toOperatorCosts hadj sp0 sp1 o hp.1 hr hperf,
            roots_invariant_step w.toOperatorCosts sp0 sp1 o hp.2
              (parent_expanded_of_engine_rules w.toOperatorCosts sp0 o hr) hperf⟩)
        ops _ sp
        ⟨engine_invariant_empty w.toOperatorCosts cost_type g0 r0,
          roots_invariant_empty cost_type g0 r0⟩ hrun
    obtain ⟨⟨hI1, _, hI3⟩, hroots⟩ := hinv
    obtain ⟨n, hn⟩ := hI3 node.id
    refine ⟨n, hn, fun fuel hf => ⟨chain_operators sp n node, ?_,
      chain_operators_length sp n node hn, ?_⟩⟩
    · simp [trace_path, hsym, trace_path_loop_chain sp n node [] fuel hn hf]
    · exact path_cost_le w.toOperatorCosts sp hI1 hroots n node hn
        (fun hnone => (hroots.2.1 node.id hst hnone).1)
  · have hinv : roots_invariant sp ∧ once_invariant w.toOperatorCosts sp :=
      performs_under_induction
        (fun sp0 : SearchSpace Op C F =>
          roots_invariant sp0 ∧ once_invariant w.toOperatorCosts sp0)
        (fun sp0 sp1 o hp hr hperf =>
          ⟨roots_invariant_step w.toOperatorCosts sp0 sp1 o hp.1
              (parent_expanded_of_links_once sp0 o hr) hperf,
            once_invariant_step w.toOperatorCosts sp0 sp1 o hp.1 hp.2 hr hperf⟩)
        ops _ sp
        ⟨roots_invariant_empty cost_type g0 r0,
          once_invariant_empty w.toOperatorCosts cost_type g0 r0⟩ hrun
    obtain ⟨hroots, hL, hI3⟩ := hinv
    obtain ⟨n, hn⟩ := hI3 node.id
    obtain ⟨hg, hr⟩ := path_cost_eq w.toOperatorCosts sp hL hroots n node hn
      (fun hnone => hroots.2.1 node.id hst hnone)
    refine ⟨n, hn, fun fuel hf => ⟨chain_operators sp n node, ?_,
      chain_operators_length sp n node hn, hg, hr⟩⟩
    simp [trace_path, hsym, trace_path_loop_chain sp n node [] fuel hn hf]

/-- C11, as amended, at the small task: after `demo_ops_cheaper`, which obeys the
engine's rules, the path of state `3` costs at most its stored g; after `demo_ops_plain`,
which links no record twice, the g and real_g of state `1` are the costs of its path. -/
theorem stored_g_bounds_path_cost_witness :
    ((demo_space demo_ops_cheaper).search_node_infos ⟨3⟩).status = NodeStatus.OPEN ∧
    SearchSpace.performs_under (demo_globals false).toOperatorCosts
      (engine_rules (demo_globals false).toOperatorCosts) (SearchSpace.empty () (-1) (-1))
      demo_ops_cheaper = some (demo_space demo_ops_cheaper) ∧
    (∃ n : Nat, reaches_initial (demo_space demo_ops_cheaper) n ⟨⟨3⟩⟩ ∧
      ∀ fuel : Nat, n < fuel →
        ∃ plan : List DemoOp,
          trace_path (demo_globals false) (demo_space demo_ops_cheaper) fuel ⟨⟨3⟩⟩ [] =
            .ok plan ∧ plan.length = n ∧
          plan.foldl (fun acc op => acc + (demo_globals false).get_adjusted_action_cost op
            (demo_space demo_ops_cheaper).cost_type) 0 ≤
            ((demo_space demo_ops_cheaper).search_node_infos ⟨3⟩).g) ∧
    SearchSpace.performs_under (demo_globals false).toOperatorCosts links_once
      (SearchSpace.empty () (-1) (-1)) demo_ops_plain = some (demo_space demo_ops_plain) ∧
    (∃ n : Nat, reaches_initial (demo_space demo_ops_plain) n ⟨⟨1⟩⟩ ∧
      ∀ fuel : Nat, n < fuel →
        ∃ plan : List DemoOp,
          trace_path (demo_globals false) (demo_space demo_ops_plain) fuel ⟨⟨1⟩⟩ [] =
            .ok plan ∧ plan.length = n ∧
          ((demo_space demo_ops_plain).search_node_infos ⟨1⟩).g =
            plan.foldl (fun acc op => acc + (demo_globals false).get_adjusted_action_cost op
              (demo_space demo_ops_plain).cost_type) 0 ∧
          ((demo_space demo_ops_plain).search_node_infos ⟨1⟩).real_g =
            plan.foldl (fun acc op => acc + (demo_globals false).get_cost op) 0) :=
  ⟨rfl, rfl,
    (stored_g_bounds_path_cost (demo_globals false) () (-1) (-1) demo_ops_cheaper
      (demo_space demo_ops_cheaper) ⟨⟨3⟩⟩ rfl (Or.inl rfl)).1
      ⟨fun op _ => demo_cost_nonneg op, rfl⟩,
    rfl,
    (stored_g_bounds_path_cost (demo_globals false) () (-1) (-1) demo_ops_plain
      (demo_space demo_ops_plain) ⟨⟨1⟩⟩ rfl (Or.inl rfl)).2 rfl⟩

end PathCostClaim

end SearchSpaceModel
